import Mathlib

/-! ndhc: option codec, configuration applier and event-loop timeout

A shallow embedding of the parts of `options.c`, `ifchange.c` and `ndhc.c`
that the specification talks about, followed by theorems about them.

Conventions of the embedding.

* A byte is a `Nat`; a byte array is a `List Nat`.  Predicates such as
  `isBytes` say that every element is below 256 where that matters.
* A C `int` that can go negative (`rem`, `timeout`, return codes) is an `Int`.
* A pointer returned into a packet is a pair of the region it points into
  and the offset inside that region.
* Loops are functions with a fuel argument; the entry points supply a fuel
  that is large enough for every input and the result type says whether the
  fuel ran out (`none`).
-/

namespace Ndhc

/-! ## Constants of `options.h` / `dhcp.h` -/

/-- Modelled from the spec: the header `options.h` is absent; the spec lists `pad(0)`. -/
def DHCP_PADDING : Nat := 0
/-- Modelled from the spec: the header `options.h` is absent; the spec lists `end(255)`. -/
def DHCP_END : Nat := 255
/-- Modelled from the spec: the header `options.h` is absent; the spec names option 52 as option-overload. -/
def DHCP_OPTION_OVERLOAD : Nat := 52
/-- Modelled from the spec: the header `options.h` is absent; the spec lists `parameter-request(55)`. -/
def DHCP_PARAM_REQ : Nat := 55
/-- Modelled from the spec: the packet header is absent; the spec gives `options[308]`. -/
def DHCP_OPTIONS_BUFSIZE : Nat := 308
/-- Modelled from the spec: the packet header is absent; the spec gives `file[128]`. -/
def DHCP_FILE_SIZE : Nat := 128
/-- Modelled from the spec: the packet header is absent; the spec gives `sname[64]`. -/
def DHCP_SNAME_SIZE : Nat := 64

/-- The enum `OPT_CODE` of options.c. -/
def OPT_CODE : Nat := 0
/-- The enum `OPT_LEN` of options.c. -/
def OPT_LEN : Nat := 1
/-- The enum `OPT_DATA` of options.c. -/
def OPT_DATA : Nat := 2

/-! ## The packet -/

/-- Modelled from the spec: the packet header is absent; the fields are the ones
the spec's data model lists for `DhcpMessage`, in that order.  Addresses and byte
regions are kept as the bytes that lie in memory (network order).  The same record
serves `struct dhcpMessage` of options.c and `struct dhcpmsg` of ifchange.c. -/
structure dhcpmsg where
  op : Nat
  htype : Nat
  hlen : Nat
  hops : Nat
  xid : Nat
  secs : Nat
  flags : Nat
  ciaddr : List Nat
  yiaddr : List Nat
  siaddr : List Nat
  giaddr : List Nat
  chaddr : List Nat
  sname : List Nat
  file : List Nat
  cookie : Nat
  options : List Nat
deriving DecidableEq, Repr

/-- The packet all of whose bytes are zero (`memset(&pkt, 0, sizeof pkt)`). -/
def dhcpmsg_zero : dhcpmsg :=
  { op := 0, htype := 0, hlen := 0, hops := 0, xid := 0, secs := 0, flags := 0,
    ciaddr := List.replicate 4 0, yiaddr := List.replicate 4 0,
    siaddr := List.replicate 4 0, giaddr := List.replicate 4 0,
    chaddr := List.replicate 16 0,
    sname := List.replicate DHCP_SNAME_SIZE 0,
    file := List.replicate DHCP_FILE_SIZE 0,
    cookie := 0,
    options := List.replicate DHCP_OPTIONS_BUFSIZE 0 }

/-- Every element of the list is a byte. -/
def isBytes (l : List Nat) : Prop := ∀ b ∈ l, b < 256

instance (l : List Nat) : Decidable (isBytes l) := by
  unfold isBytes; infer_instance

/-- The three regions `get_option` can scan (the anonymous enum of `get_option`). -/
inductive Field where
  | OPTION_FIELD
  | FILE_FIELD
  | SNAME_FIELD
deriving DecidableEq, Repr

/-- The value `FILE_FIELD` of the enum in `get_option`. -/
def FILE_FIELD : Nat := 1
/-- The value `SNAME_FIELD` of the enum in `get_option`. -/
def SNAME_FIELD : Nat := 2
/-- The value `FILE_FIELD * 0x101`. -/
def FILE_FIELD101 : Nat := FILE_FIELD * 0x101
/-- The value `SNAME_FIELD * 0x101`. -/
def SNAME_FIELD101 : Nat := SNAME_FIELD * 0x101

/-- A pointer into one of the three option regions of a packet. -/
structure OptPtr where
  field : Field
  off : Nat
deriving DecidableEq, Repr

/-- The bytes of a region of the packet. -/
def region (p : dhcpmsg) : Field → List Nat
  | .OPTION_FIELD => p.options
  | .FILE_FIELD => p.file
  | .SNAME_FIELD => p.sname

/-- Read `optionptr[i]` where `optionptr` points at offset `off` of region `f`.
A read past the end of the region yields 0 in the model. -/
def rd (p : dhcpmsg) (f : Field) (off i : Nat) : Nat := (region p f).getD (off + i) 0

/-! ## `get_option` (options.c) -/

/-- The `while (1)` loop of `get_option`.  State: the region and offset `optionptr`
points at, `rem`, `overload`.  Result `none`: fuel exhausted; `some none`: the C code
returns `NULL`; `some (some q)`: it returns the pointer `q`. -/
def get_option_loop (p : dhcpmsg) (code : Int) :
    Nat → Field → Nat → Int → Nat → Option (Option OptPtr)
  | 0, _, _, _, _ => none
  | fuel + 1, f, off, rem, overload =>
    if rem ≤ 0 then some none
    else if rd p f off OPT_CODE = DHCP_PADDING then
      get_option_loop p code fuel f (off + 1) (rem - 1) overload
    else if rd p f off OPT_CODE = DHCP_END then
      if overload &&& FILE_FIELD101 = FILE_FIELD then
        get_option_loop p code fuel .FILE_FIELD 0 DHCP_FILE_SIZE (overload ||| FILE_FIELD101)
      else if overload &&& SNAME_FIELD101 = SNAME_FIELD then
        get_option_loop p code fuel .SNAME_FIELD 0 DHCP_SNAME_SIZE (overload ||| SNAME_FIELD101)
      else some none
    else
      let len : Nat := 2 + rd p f off OPT_LEN
      let rem1 : Int := rem - len
      if rem1 < 0 then get_option_loop p code fuel f off rem1 overload
      else if (rd p f off OPT_CODE : Int) = code then some (some ⟨f, off + OPT_DATA⟩)
      else
        get_option_loop p code fuel f (off + len) rem1
          (if rd p f off OPT_CODE = DHCP_OPTION_OVERLOAD then overload ||| rd p f off OPT_DATA
           else overload)

/-- Fuel for `get_option`: one iteration per byte of the three regions and a few
more for the region switches and the final test. -/
def get_option_fuel : Nat := DHCP_OPTIONS_BUFSIZE + DHCP_FILE_SIZE + DHCP_SNAME_SIZE + 4

/-- The function `get_option(packet, code)`. -/
def get_option (packet : dhcpmsg) (code : Int) : Option (Option OptPtr) :=
  get_option_loop packet code get_option_fuel .OPTION_FIELD 0 DHCP_OPTIONS_BUFSIZE 0

/-- The option data a pointer returned by `get_option` designates: the callers read
the length from the byte before the pointer and that many bytes from the pointer on. -/
def optData (p : dhcpmsg) (q : OptPtr) : List Nat :=
  ((region p q.field).drop q.off).take ((region p q.field).getD (q.off - 1) 0)

/-! ## `end_option`, `add_option_string`, `add_simple_option` (options.c) -/

/-- The `while` loop of `end_option`; the state is `i`.  Result `none`: fuel exhausted. -/
def end_option_loop (optionptr : List Nat) : Nat → Nat → Option Nat
  | 0, _ => none
  | fuel + 1, i =>
    if i < DHCP_OPTIONS_BUFSIZE ∧ optionptr.getD i 0 ≠ DHCP_END then
      let i1 := if optionptr.getD i 0 ≠ DHCP_PADDING
        then i + (optionptr.getD (i + OPT_LEN) 0 + OPT_DATA - 1) else i
      end_option_loop optionptr fuel (i1 + 1)
    else some i

/-- The function `end_option(optionptr)`: the position of the END option, at most
`DHCP_OPTIONS_BUFSIZE - 1`.  Every iteration advances `i`, so `DHCP_OPTIONS_BUFSIZE + 1`
iterations are enough. -/
def end_option (optionptr : List Nat) : Option Nat :=
  (end_option_loop optionptr (DHCP_OPTIONS_BUFSIZE + 1) 0).map fun i =>
    if i < DHCP_OPTIONS_BUFSIZE - 1 then i else DHCP_OPTIONS_BUFSIZE - 1

/-- The call `memcpy(buf + off, src, n)`: the bytes `buf[off .. off+n)` become the first
`n` bytes of `src` (a byte of `src` past its end reads as 0 in the model). -/
def memcpy_at (buf : List Nat) (off : Nat) (src : List Nat) (n : Nat) : List Nat :=
  buf.take off ++ (List.range n).map (fun j => src.getD j 0) ++ buf.drop (off + n)

/-- The function `add_option_string(optionptr, string)`: the return value and the buffer
afterwards. -/
def add_option_string (optionptr : List Nat) (string : List Nat) : Option (Int × List Nat) :=
  (end_option optionptr).map fun «end» =>
    if «end» + string.getD OPT_LEN 0 + 2 + 1 ≥ DHCP_OPTIONS_BUFSIZE then (0, optionptr)
    else
      let buf1 := memcpy_at optionptr «end» string (string.getD OPT_LEN 0 + 2)
      (((string.getD OPT_LEN 0 + 2 : Nat) : Int),
        buf1.set («end» + string.getD OPT_LEN 0 + 2) DHCP_END)

/-- The option types of `options.h`.  The header is absent from the sources, so the tags
are kept symbolic; every entry of the table `options` stores nothing but its tag in
`flags`, so `flags & TYPE_MASK` is the tag. -/
inductive OptType where
  | OPTION_IP
  | OPTION_IP_PAIR
  | OPTION_BOOLEAN
  | OPTION_STRING
  | OPTION_U8
  | OPTION_U16
  | OPTION_S16
  | OPTION_U32
  | OPTION_S32
deriving DecidableEq, Repr

/-- An entry of the table `options`. -/
structure dhcp_option where
  name : String
  flags : OptType
  code : Nat
deriving DecidableEq, Repr

/-- The table `options[]`, without its terminating entry (code 0). -/
def options : List dhcp_option :=
  [ ⟨"subnet", .OPTION_IP, 0x01⟩,
    ⟨"timezone", .OPTION_S32, 0x02⟩,
    ⟨"router", .OPTION_IP, 0x03⟩,
    ⟨"timesvr", .OPTION_IP, 0x04⟩,
    ⟨"namesvr", .OPTION_IP, 0x05⟩,
    ⟨"dns", .OPTION_IP, 0x06⟩,
    ⟨"logsvr", .OPTION_IP, 0x07⟩,
    ⟨"cookiesvr", .OPTION_IP, 0x08⟩,
    ⟨"lprsvr", .OPTION_IP, 0x09⟩,
    ⟨"hostname", .OPTION_STRING, 0x0c⟩,
    ⟨"bootsize", .OPTION_U16, 0x0d⟩,
    ⟨"domain", .OPTION_STRING, 0x0f⟩,
    ⟨"swapsvr", .OPTION_IP, 0x10⟩,
    ⟨"rootpath", .OPTION_STRING, 0x11⟩,
    ⟨"ipttl", .OPTION_U8, 0x17⟩,
    ⟨"mtu", .OPTION_U16, 0x1a⟩,
    ⟨"broadcast", .OPTION_IP, 0x1c⟩,
    ⟨"ntpsrv", .OPTION_IP, 0x2a⟩,
    ⟨"wins", .OPTION_IP, 0x2c⟩,
    ⟨"requestip", .OPTION_IP, 0x32⟩,
    ⟨"lease", .OPTION_U32, 0x33⟩,
    ⟨"dhcptype", .OPTION_U8, 0x35⟩,
    ⟨"serverid", .OPTION_IP, 0x36⟩,
    ⟨"message", .OPTION_STRING, 0x38⟩,
    ⟨"maxsize", .OPTION_U16, 0x39⟩,
    ⟨"tftp", .OPTION_STRING, 0x42⟩,
    ⟨"bootfile", .OPTION_STRING, 0x43⟩ ]

/-- The table `option_lengths[]`. -/
def option_lengths : OptType → Nat
  | .OPTION_IP => 4
  | .OPTION_IP_PAIR => 8
  | .OPTION_BOOLEAN => 1
  | .OPTION_STRING => 1
  | .OPTION_U8 => 1
  | .OPTION_U16 => 2
  | .OPTION_S16 => 2
  | .OPTION_U32 => 4
  | .OPTION_S32 => 4

/-- The `n` bytes an unsigned integer `v` occupies in memory, as `memcpy(dst, &t, n)`
copies them: least significant byte first on a little-endian host, last on a big-endian
one. -/
def host_bytes (bigEndian : Bool) (n v : Nat) : List Nat :=
  let le := (List.range n).map fun j => v / 256 ^ j % 256
  if bigEndian then le.reverse else le

/-- The function `add_simple_option(optionptr, code, data)` on a host of the given byte
order: the return value and the buffer afterwards.  The local array `option` holds the
code, the length and, for the lengths 1, 2 and 4, the bytes of `data` narrowed to that
width. -/
def add_simple_option (bigEndian : Bool) (optionptr : List Nat) (code : Nat) (data : Nat) :
    Option (Int × List Nat) :=
  let length := options.foldl
    (fun length o => if o.code = code then option_lengths o.flags else length) 0
  let option0 := [code, length % 256]
  if length = 0 then some (0, optionptr)
  else
    let option1 :=
      if length = 1 then option0 ++ host_bytes bigEndian 1 (data % 2 ^ 8)
      else if length = 2 then option0 ++ host_bytes bigEndian 2 (data % 2 ^ 16)
      else if length = 4 then option0 ++ host_bytes bigEndian 4 (data % 2 ^ 32)
      else option0
    add_option_string optionptr option1

/-! ## Well-formed option sequences (specification side) -/


/-- An element of a well-formed option sequence: one PAD byte, or an option
`[code][len][data]` whose length byte is the length of its data. -/
inductive Item where
  | pad
  | opt (code : Nat) (data : List Nat)
deriving DecidableEq, Repr

/-- The bytes of one element on the wire. -/
def Item.bytes : Item → List Nat
  | .pad => [DHCP_PADDING]
  | .opt c d => c :: d.length :: d

/-- An option element carries a code other than PAD and END. -/
def Item.ok : Item → Prop
  | .pad => True
  | .opt c _ => c ≠ DHCP_PADDING ∧ c ≠ DHCP_END

instance (i : Item) : Decidable i.ok := by
  cases i <;> unfold Item.ok <;> infer_instance

/-- The bytes of a sequence of elements, in order. -/
def ser : List Item → List Nat
  | [] => []
  | i :: is => i.bytes ++ ser is

/-- The first option with code `c` in a sequence: the offset of its data from the start
of the sequence, and the data. -/
def findOpt (c : Int) : List Item → Option (Nat × List Nat)
  | [] => none
  | .pad :: is => (findOpt c is).map fun r => (r.1 + 1, r.2)
  | .opt k d :: is =>
    if (k : Int) = c then some (OPT_DATA, d)
    else (findOpt c is).map fun r => (r.1 + (2 + d.length), r.2)

/-- The bits `get_option` ORs into `overload` while it walks over a sequence that is
followed by the bytes `rest`: for each option-overload option the byte that follows its
length byte. -/
def ovl : List Item → List Nat → Nat
  | [], _ => 0
  | .pad :: is, rest => ovl is rest
  | .opt k d :: is, rest =>
    (if k = DHCP_OPTION_OVERLOAD then (d ++ ser is ++ rest).getD 0 0 else 0) ||| ovl is rest

/-- The first option with code `c` met when the options region is searched first, then
`file`, then `sname`: the pointer to its data, and the data. -/
def firstOf3 (c : Int) (iO iF iS : List Item) : Option (OptPtr × List Nat) :=
  match findOpt c iO with
  | some r => some (⟨.OPTION_FIELD, r.1⟩, r.2)
  | none =>
    match findOpt c iF with
    | some r => some (⟨.FILE_FIELD, r.1⟩, r.2)
    | none => (findOpt c iS).map fun r => (⟨.SNAME_FIELD, r.1⟩, r.2)

/-! ## Strings and libc helpers used by ifchange.c -/

/-- The bytes of a string literal (a C string without its terminating NUL). -/
def cstr (s : String) : List Nat := s.toList.map Char.toNat

/-- The call `strlen(buf)`: the number of bytes before the first NUL. -/
def strlen (buf : List Nat) : Nat := (buf.takeWhile (· ≠ 0)).length

/-- What `%.*s` prints for the precision `n` and the argument `s`: at most `n` bytes,
stopping before a NUL. -/
def fmt_precision_s (n : Nat) (s : List Nat) : List Nat := (s.take n).takeWhile (· ≠ 0)

/-- What `%s` prints for the argument `s`: the bytes before the first NUL. -/
def fmt_s (s : List Nat) : List Nat := s.takeWhile (· ≠ 0)

/-- Unsigned decimal rendering (`%hu`, `%u`, and the numbers `inet_ntop` prints). -/
def fmt_u (n : Nat) : List Nat := (Nat.toDigits 10 n).map Char.toNat

/-- Signed decimal rendering (`%d`). -/
def fmt_d (v : Int) : List Nat :=
  if v < 0 then cstr "-" ++ fmt_u v.natAbs else fmt_u v.natAbs

/-- What `snprintf(buf, size, ...)` leaves in `buf` when the formatted text is `s`: the
text cut to `size - 1` bytes.  Its return value is the length of `s`. -/
def snprintf_buf (size : Nat) (s : List Nat) : List Nat := s.take (size - 1)

/-- The constant `INET_ADDRSTRLEN`. -/
def INET_ADDRSTRLEN : Nat := 16

/-- The constant `INT_MAX`. -/
def INT_MAX : Int := 2147483647

/-- The call `inet_ntop(AF_INET, src, dst, size)`: the dotted-decimal text of the four
bytes at `src`, or `none` (NULL) when the text and its NUL do not fit in `size` bytes. -/
def inet_ntop (src : List Nat) (size : Nat) : Option (List Nat) :=
  let s := fmt_u (src.getD 0 0) ++ cstr "." ++ fmt_u (src.getD 1 0) ++ cstr "." ++
    fmt_u (src.getD 2 0) ++ cstr "." ++ fmt_u (src.getD 3 0)
  if s.length < size then some s else none

/-- The call `ntohs` on the two bytes at `p`. -/
def ntohs_at (p : List Nat) : Nat := p.getD 0 0 * 256 + p.getD 1 0

/-- The call `ntohl` on the four bytes at `p`. -/
def ntohl_at (p : List Nat) : Nat :=
  ((p.getD 0 0 * 256 + p.getD 1 0) * 256 + p.getD 2 0) * 256 + p.getD 3 0

/-- Conversion of an integer to `int32_t` / `int` (two's complement wrap-around). -/
def to_int32 (x : Int) : Int := (x + 2 ^ 31) % 2 ^ 32 - 2 ^ 31

/-- Modelled from the spec: the helper `strnkcat(dst, src, size)` is absent from the
sources.  It appends `src` to the string in the `size`-byte buffer `dst`; when the result
does not fit the model cuts it to `size - 1` bytes (the spec leaves that case open). -/
def strnkcat (dst src : List Nat) (size : Nat) : List Nat := (dst ++ src).take (size - 1)

/-! ## Option codes used by ifchange.c -/

/-- Modelled from the spec: `options.h` is absent; the spec lists `subnet(1)`. -/
def DCODE_SUBNET : Nat := 1
/-- Modelled from the spec: `options.h` is absent; the spec lists `timeoffset(2)`. -/
def DCODE_TIMEZONE : Nat := 2
/-- Modelled from the spec: `options.h` is absent; the spec lists `router(3)`. -/
def DCODE_ROUTER : Nat := 3
/-- Modelled from the spec: `options.h` is absent; the spec lists `dns(6)`. -/
def DCODE_DNS : Nat := 6
/-- Modelled from the spec: `options.h` is absent; the table of options.c has `lprsvr` at 0x09. -/
def DCODE_LPRSVR : Nat := 9
/-- Modelled from the spec: `options.h` is absent; the spec lists `hostname(12)`. -/
def DCODE_HOSTNAME : Nat := 12
/-- Modelled from the spec: `options.h` is absent; the spec lists `domain(15)`. -/
def DCODE_DOMAIN : Nat := 15
/-- Modelled from the spec: `options.h` is absent; the table of options.c has `ipttl` at 0x17. -/
def DCODE_IPTTL : Nat := 23
/-- Modelled from the spec: `options.h` is absent; the table of options.c has `mtu` at 0x1a. -/
def DCODE_MTU : Nat := 26
/-- Modelled from the spec: `options.h` is absent; the spec lists `broadcast(28)`. -/
def DCODE_BROADCAST : Nat := 28
/-- Modelled from the spec: `options.h` is absent; the spec lists `ntp(42)`. -/
def DCODE_NTPSVR : Nat := 42
/-- Modelled from the spec: `options.h` is absent; the spec lists `wins(44)`. -/
def DCODE_WINS : Nat := 44

/-! ## Command formatting (ifchange.c) -/

/-- The function `ifcmd_raw(buf, buflen, optname, optdata, optlen)`: the return value and
the string left in `buf`.  `optdata` is never NULL at the call sites. -/
def ifcmd_raw (buf : List Nat) (buflen : Nat) (optname : List Nat) (optdata : List Nat)
    (optlen : Int) : Int × List Nat :=
  if (buflen : Int) < strlen optname + optlen + 3 then (-1, buf)
  else if optlen > INT_MAX ∨ optlen < 0 then (-1, buf)
  else
    let s := fmt_s optname ++ cstr ":" ++ fmt_precision_s optlen.toNat optdata ++ cstr ";"
    let olen : Int := s.length
    if olen < 0 ∨ olen.toNat ≥ buflen then (-2, snprintf_buf buflen s)
    else (olen, snprintf_buf buflen s)

/-- The function `ifchd_cmd_bytes`. -/
def ifchd_cmd_bytes (buf : List Nat) (buflen : Nat) (optname : List Nat) (optdata : List Nat)
    (optlen : Int) : Int × List Nat :=
  ifcmd_raw buf buflen optname optdata optlen

/-- The function `ifchd_cmd_u8`: `numbuf` receives the byte itself (`%c`). -/
def ifchd_cmd_u8 (buf : List Nat) (buflen : Nat) (optname : List Nat) (optdata : List Nat)
    (optlen : Int) : Int × List Nat :=
  if optlen < 1 then (-1, buf)
  else
    let c := optdata.getD 0 0
    let numbuf := snprintf_buf 16 [c]
    ifcmd_raw buf buflen optname numbuf (strlen numbuf)

/-- The function `ifchd_cmd_u16`. -/
def ifchd_cmd_u16 (buf : List Nat) (buflen : Nat) (optname : List Nat) (optdata : List Nat)
    (optlen : Int) : Int × List Nat :=
  if optlen < 2 then (-1, buf)
  else
    let v := ntohs_at optdata
    let s := fmt_u v
    if s.length ≥ 16 then (-1, buf)
    else
      let numbuf := snprintf_buf 16 s
      ifcmd_raw buf buflen optname numbuf (strlen numbuf)

/-- The function `ifchd_cmd_s32`. -/
def ifchd_cmd_s32 (buf : List Nat) (buflen : Nat) (optname : List Nat) (optdata : List Nat)
    (optlen : Int) : Int × List Nat :=
  if optlen < 4 then (-1, buf)
  else
    let v := to_int32 (ntohl_at optdata)
    let s := fmt_d v
    if s.length ≥ 16 then (-1, buf)
    else
      let numbuf := snprintf_buf 16 s
      ifcmd_raw buf buflen optname numbuf (strlen numbuf)

/-- The function `ifchd_cmd_ip`. -/
def ifchd_cmd_ip (buf : List Nat) (buflen : Nat) (optname : List Nat) (optdata : List Nat)
    (optlen : Int) : Int × List Nat :=
  if optlen < 4 then (-1, buf)
  else
    match inet_ntop optdata INET_ADDRSTRLEN with
    | none => (-1, buf)
    | some ipbuf => ifcmd_raw buf buflen optname ipbuf (strlen ipbuf)

/-- The `while (optlen - optoff >= 4)` loop of `ifchd_cmd_iplist`.  The second argument is
the payload from `optoff` on (`optlen - optoff` bytes); the first is the text gathered in the
local `buf` so far.  Result `none`: the loop returns -1. -/
def ifchd_cmd_iplist_loop (buf : List Nat) : List Nat → Option (List Nat)
  | a :: b :: c :: d :: rest =>
    match inet_ntop [a, b, c, d] INET_ADDRSTRLEN with
    | none => none
    | some ipbuf =>
      let s := cstr "," ++ fmt_s ipbuf
      if s.length ≥ 2048 then none
      else ifchd_cmd_iplist_loop (buf ++ s) rest
  | _ => some buf

/-- The function `ifchd_cmd_iplist`.  The local `buf` is kept as the text written into it;
each piece is written at the end of the text before it. -/
def ifchd_cmd_iplist (out : List Nat) (outlen : Nat) (optname : List Nat) (optdata : List Nat)
    (optlen : Int) : Int × List Nat :=
  if optlen < 4 then (-1, out)
  else
    match inet_ntop optdata INET_ADDRSTRLEN with
    | none => (-1, out)
    | some ipbuf =>
      let s := fmt_s optname ++ cstr ":" ++ fmt_s ipbuf
      if s.length ≥ 2048 then (-1, out)
      else
        match ifchd_cmd_iplist_loop s ((optdata.take optlen.toNat).drop 4) with
        | none => (-1, out)
        | some buf1 =>
          let buf2 := buf1 ++ cstr ";"
          ifcmd_raw out outlen optname buf2 (strlen buf2)

/-- The command key `CMD_ROUTER`. -/
def CMD_ROUTER : List Nat := cstr "routr"
/-- The command key `CMD_IP4SET`. -/
def CMD_IP4SET : List Nat := cstr "ip4"
/-- The command key `CMD_DNS`. -/
def CMD_DNS : List Nat := cstr "dns"
/-- The command key `CMD_LPRSVR`. -/
def CMD_LPRSVR : List Nat := cstr "lpr"
/-- The command key `CMD_NTPSVR`. -/
def CMD_NTPSVR : List Nat := cstr "ntp"
/-- The command key `CMD_WINS`. -/
def CMD_WINS : List Nat := cstr "wins"
/-- The command key `CMD_HOSTNAME`. -/
def CMD_HOSTNAME : List Nat := cstr "host"
/-- The command key `CMD_DOMAIN`. -/
def CMD_DOMAIN : List Nat := cstr "dom"
/-- The command key `CMD_TIMEZONE`. -/
def CMD_TIMEZONE : List Nat := cstr "tzone"
/-- The command key `CMD_MTU`. -/
def CMD_MTU : List Nat := cstr "mtu"
/-- The command key `CMD_IPTTL`. -/
def CMD_IPTTL : List Nat := cstr "ipttl"

/-- The function `ifchd_cmd(buf, buflen, optdata, optlen, code)`: the return value and the
string left in `buf`. -/
def ifchd_cmd (buf : List Nat) (buflen : Nat) (optdata : List Nat) (optlen : Int)
    (code : Nat) : Int × List Nat :=
  if code = DCODE_ROUTER then ifchd_cmd_ip buf buflen CMD_ROUTER optdata optlen
  else if code = DCODE_DNS then ifchd_cmd_iplist buf buflen CMD_DNS optdata optlen
  else if code = DCODE_LPRSVR then ifchd_cmd_iplist buf buflen CMD_LPRSVR optdata optlen
  else if code = DCODE_NTPSVR then ifchd_cmd_iplist buf buflen CMD_NTPSVR optdata optlen
  else if code = DCODE_WINS then ifchd_cmd_iplist buf buflen CMD_WINS optdata optlen
  else if code = DCODE_HOSTNAME then ifchd_cmd_bytes buf buflen CMD_HOSTNAME optdata optlen
  else if code = DCODE_DOMAIN then ifchd_cmd_bytes buf buflen CMD_DOMAIN optdata optlen
  else if code = DCODE_TIMEZONE then ifchd_cmd_s32 buf buflen CMD_TIMEZONE optdata optlen
  else if code = DCODE_MTU then ifchd_cmd_u16 buf buflen CMD_MTU optdata optlen
  else if code = DCODE_IPTTL then ifchd_cmd_u8 buf buflen CMD_IPTTL optdata optlen
  else (-1, buf)

/-! ## Client state and the worker pipe (ifchange.c) -/

/-- Modelled from the spec: the header `ndhc.h` is absent.  The values of
`cs->ifsPrevState` are the spec's link states UP, DOWN (no carrier), SHUT (admin down) and
REMOVED under the names netlink.c uses, and `IFS_NONE` for the time before the first link
message. -/
inductive IfState where
  | IFS_NONE
  | IFS_UP
  | IFS_DOWN
  | IFS_SHUT
  | IFS_REMOVED
deriving DecidableEq, Repr

/-- The fields of `struct client_state_t` that the modelled functions of ifchange.c,
netlink.c and ndhc.c read or write. -/
structure client_state_t where
  ifchWorking : Nat
  ifDeconfig : Nat
  ifsPrevState : IfState
deriving DecidableEq, Repr

/-- The state ifchange.c works on: the client state `cs`, the file-static `cfg_packet`,
and the byte strings handed to `safe_write(pToIfchW, ...)` so far, oldest first. -/
structure IfchState where
  cs : client_state_t
  cfg_packet : dhcpmsg
  pipe : List (List Nat)
deriving DecidableEq, Repr

/-- The function `pipewrite(cs, buf, count)`: marks the worker busy and hands the first
`count` bytes of `buf` to `safe_write` on the worker pipe. -/
def pipewrite (st : IfchState) (buf : List Nat) (count : Nat) : IfchState :=
  { st with cs := { st.cs with ifchWorking := 1 }, pipe := st.pipe ++ [buf.take count] }

/-- The function `ifchange_deconfig(cs)`. -/
def ifchange_deconfig (st : IfchState) : IfchState :=
  if st.cs.ifDeconfig ≠ 0 then st
  else
    let st1 := { st with cs := { st.cs with ifDeconfig := 1 } }
    let buf := snprintf_buf 256 (cstr "ip4:0.0.0.0,255.255.255.255;")
    let st2 := pipewrite st1 buf (strlen buf)
    { st2 with cfg_packet := dhcpmsg_zero }

/-- The function `send_client_ip(out, olen, packet)`, with the cached `cfg_packet` as an
explicit argument: the return value and the string left in `out`.  The first argument is
the option extractor: `get_dhcp_opt packet code` is the data that the C function
`get_dhcp_opt(packet, code, buf, sizeof buf)` copies into `buf`, its length being the
value the C function returns. -/
def send_client_ip (get_dhcp_opt : dhcpmsg → Nat → List Nat) (cfg_packet : dhcpmsg)
    (out : List Nat) (olen : Nat) (packet : dhcpmsg) : Nat × List Nat :=
  let change_ipaddr : Bool := decide (packet.yiaddr ≠ cfg_packet.yiaddr)
  let ip := (inet_ntop packet.yiaddr INET_ADDRSTRLEN).getD []
  let optdata := get_dhcp_opt packet DCODE_SUBNET
  let optlen := optdata.length
  let have_subnet : Bool := decide (optlen ≥ 4)
  let sn := if optlen ≥ 4 then (inet_ntop optdata INET_ADDRSTRLEN).getD [] else []
  let change_subnet : Bool :=
    if optlen ≥ 4 then
      let olddata := get_dhcp_opt cfg_packet DCODE_SUBNET
      decide (olddata.length ≠ optlen ∨ optdata.take optlen ≠ olddata.take optlen)
    else false
  let optdata := get_dhcp_opt packet DCODE_BROADCAST
  let optlen := optdata.length
  let have_bcast : Bool := decide (optlen ≥ 4)
  let bc := if optlen ≥ 4 then (inet_ntop optdata INET_ADDRSTRLEN).getD [] else []
  let change_bcast : Bool :=
    if optlen ≥ 4 then
      let olddata := get_dhcp_opt cfg_packet DCODE_BROADCAST
      decide (olddata.length ≠ optlen ∨ optdata.take optlen ≠ olddata.take optlen)
    else false
  if !change_ipaddr && !change_subnet && !change_bcast then (0, out)
  else
    let sn := if !have_subnet then cstr "255.255.255.0" else sn
    let ipb :=
      if have_bcast then
        snprintf_buf (4 * INET_ADDRSTRLEN)
          (cstr "ip4:" ++ fmt_s ip ++ cstr "," ++ fmt_s sn ++ cstr "," ++ fmt_s bc ++ cstr ";")
      else
        snprintf_buf (4 * INET_ADDRSTRLEN)
          (cstr "ip4:" ++ fmt_s ip ++ cstr "," ++ fmt_s sn ++ cstr ";")
    (strlen ipb, strnkcat out ipb olen)

/-- The function `send_cmd(out, olen, packet, code)`, with the cached `cfg_packet` as an
explicit argument: the return value and the string left in `out`. -/
def send_cmd (get_dhcp_opt : dhcpmsg → Nat → List Nat) (cfg_packet : dhcpmsg)
    (out : List Nat) (olen : Nat) (packet : Option dhcpmsg) (code : Nat) : Nat × List Nat :=
  match packet with
  | none => (0, out)
  | some packet =>
    let optdata := get_dhcp_opt packet code
    let optlen := optdata.length
    if optlen = 0 then (0, out)
    else
      let olddata := get_dhcp_opt cfg_packet code
      if olddata.length = optlen ∧ optdata.take optlen = olddata.take optlen then (0, out)
      else
        let r := ifchd_cmd [] 2048 optdata optlen code
        if r.1 = -1 then (0, out)
        else if r.1 < -1 then (0, out)
        else (strlen r.2, strnkcat out r.2 olen)

/-- The function `ifchange_bind(cs, packet)`. -/
def ifchange_bind (get_dhcp_opt : dhcpmsg → Nat → List Nat) (st : IfchState)
    (packet : Option dhcpmsg) : IfchState :=
  match packet with
  | none => st
  | some pkt =>
    let buf : List Nat := []
    let tbs : Nat := 0
    let r := send_client_ip get_dhcp_opt st.cfg_packet buf 2048 pkt
    let tbs := tbs ||| r.1
    let r := send_cmd get_dhcp_opt st.cfg_packet r.2 2048 packet DCODE_ROUTER
    let tbs := tbs ||| r.1
    let r := send_cmd get_dhcp_opt st.cfg_packet r.2 2048 packet DCODE_DNS
    let tbs := tbs ||| r.1
    let r := send_cmd get_dhcp_opt st.cfg_packet r.2 2048 packet DCODE_HOSTNAME
    let tbs := tbs ||| r.1
    let r := send_cmd get_dhcp_opt st.cfg_packet r.2 2048 packet DCODE_DOMAIN
    let tbs := tbs ||| r.1
    let r := send_cmd get_dhcp_opt st.cfg_packet r.2 2048 packet DCODE_MTU
    let tbs := tbs ||| r.1
    let r := send_cmd get_dhcp_opt st.cfg_packet r.2 2048 packet DCODE_WINS
    let tbs := tbs ||| r.1
    let st1 := if tbs ≠ 0 then pipewrite st r.2 (strlen r.2) else st
    { st1 with cs := { st1.cs with ifDeconfig := 0 }, cfg_packet := pkt }

/-- Modelled from the spec: the option extractor `get_dhcp_opt` that ifchange.c calls is
absent from the sources.  This instance hands out the data of the option that
`get_option` of options.c locates (nothing when `get_option` returns NULL); it is used
where a statement needs a concrete packet. -/
def get_dhcp_opt_of_get_option (packet : dhcpmsg) (code : Nat) : List Nat :=
  match get_option packet code with
  | some (some q) => optData packet q
  | _ => []

/-! ## The timeout computation of the event loop (ndhc.c) -/

/-- The value `do_ndhc_work` assigns to `timeout` (an `int`) in its inner loop, from
`arp_get_wake_ts()`, `dhcp_get_wake_ts()` and `curms()` (all `long long`). -/
def do_ndhc_work_timeout (arp_wake_ts dhcp_wake_ts nowts : Int) : Int :=
  if arp_wake_ts = -1 then
    if dhcp_wake_ts ≠ -1 then
      let timeout := to_int32 (dhcp_wake_ts - nowts)
      if timeout < 0 then 0 else timeout
    else -1
  else
    let timeout := to_int32 ((if arp_wake_ts < dhcp_wake_ts then arp_wake_ts else dhcp_wake_ts) - nowts)
    if timeout < 0 then 0 else timeout

/-! ## Process outcomes -/

/-- How a function that can end the process comes back: it returns with the state `s`; or
the process ends through `exit(status)`; or through `suicide(...)`, the fatal exit with a
nonzero status.  The state at that moment is kept. -/
inductive Outcome (σ : Type) where
  | returns (s : σ)
  | exits (status : Nat) (s : σ)
  | suicide (s : σ)
deriving DecidableEq, Repr

/-- The constant `EXIT_SUCCESS`. -/
def EXIT_SUCCESS : Nat := 0

/-! ## Link messages (netlink.c) -/

/-- The constant `RTM_NEWLINK` of `<linux/rtnetlink.h>`. -/
def RTM_NEWLINK : Nat := 16
/-- The constant `RTM_DELLINK` of `<linux/rtnetlink.h>`. -/
def RTM_DELLINK : Nat := 17
/-- The constant `IFF_UP` of `<net/if.h>`. -/
def IFF_UP : Nat := 0x1
/-- The constant `IFF_RUNNING` of `<net/if.h>`. -/
def IFF_RUNNING : Nat := 0x40
/-- The constant `IFNAMSIZ` of `<net/if.h>`; `ndhc.h`, absent from the sources, declares
`client_config.interface`, whose size is taken to be `IFNAMSIZ`. -/
def IFNAMSIZ : Nat := 16

/-- The fields of `struct client_config_t` that netlink.c reads or writes: the interface
name (the C string in `interface`), the recorded index (0: not yet known) and the hardware
address. -/
structure client_config_t where
  interface : List Nat
  ifindex : Int
  arp : List Nat
deriving DecidableEq, Repr

/-- A link message as `nl_process_msgs` sees it: the type of the netlink header, the index
and flags of its `struct ifinfomsg`, and the data of the attributes `IFLA_IFNAME` and
`IFLA_ADDRESS` that `nl_attr_parse` leaves in `tb` (`none`: attribute absent). -/
structure nl_link_msg where
  nlmsg_type : Nat
  ifi_index : Int
  ifi_flags : Nat
  ifla_ifname : Option (List Nat)
  ifla_address : Option (List Nat)
deriving DecidableEq, Repr

/-- Modelled from the spec: the link actions of `state.c` are absent from the sources.  The
model records which of them is invoked; the spec names the events they deliver (`LINK_UP`,
`LINK_DOWN` for no carrier, `LINK_SHUT` for admin down). -/
inductive LinkAction where
  | ifup_action
  | ifnocarrier_action
  | ifdown_action
deriving DecidableEq, Repr

/-- The state netlink.c works on: the client state, the global `client_config`, and the link
actions invoked so far, oldest first. -/
structure NlState where
  cs : client_state_t
  client_config : client_config_t
  actions : List LinkAction
deriving DecidableEq, Repr

/-- The test `!strncmp(a, b, n)`: the C strings `a` and `b` agree on their first `n`
characters (or entirely, when they end before that). -/
def strncmp_eq (a b : List Nat) (n : Nat) : Bool :=
  decide ((fmt_s a).take n = (fmt_s b).take n)

/-- The function `get_if_index_and_mac(nlh, ifm)`. -/
def get_if_index_and_mac (st : NlState) (m : nl_link_msg) : Outcome NlState :=
  match m.ifla_ifname with
  | none => .returns st
  | some name =>
    if strncmp_eq st.client_config.interface name IFNAMSIZ then
      let st1 := { st with client_config := { st.client_config with ifindex := m.ifi_index } }
      match m.ifla_address with
      | none => .suicide st1
      | some mac =>
        if mac.length ≠ 6 then .suicide st1
        else .returns { st1 with client_config := { st1.client_config with arp := mac } }
    else .returns st

/-- The `RTM_NEWLINK` case of `nl_process_msgs` after the index lookup. -/
def nl_process_newlink (st : NlState) (m : nl_link_msg) : Outcome NlState :=
  if m.ifi_index ≠ st.client_config.ifindex then .returns st
  else if m.ifi_flags &&& IFF_UP ≠ 0 then
    if m.ifi_flags &&& IFF_RUNNING ≠ 0 then
      if st.cs.ifsPrevState ≠ .IFS_UP then
        .returns { st with cs := { st.cs with ifsPrevState := .IFS_UP },
                           actions := st.actions ++ [.ifup_action] }
      else .returns st
    else if st.cs.ifsPrevState ≠ .IFS_DOWN then
      .returns { st with cs := { st.cs with ifsPrevState := .IFS_DOWN },
                         actions := st.actions ++ [.ifnocarrier_action] }
    else .returns st
  else if st.cs.ifsPrevState ≠ .IFS_SHUT then
    .returns { st with cs := { st.cs with ifsPrevState := .IFS_SHUT },
                       actions := st.actions ++ [.ifdown_action] }
  else .returns st

/-- The first statement of the `RTM_NEWLINK` case of `nl_process_msgs`:
`if (!client_config.ifindex) get_if_index_and_mac(nlh, ifm);`. -/
def nl_newlink_lookup (st : NlState) (m : nl_link_msg) : Outcome NlState :=
  if st.client_config.ifindex = 0 then get_if_index_and_mac st m else .returns st

/-- The function `nl_process_msgs(nlh, data)` (it always returns 1 when it returns). -/
def nl_process_msgs (st : NlState) (m : nl_link_msg) : Outcome NlState :=
  if m.nlmsg_type = RTM_NEWLINK then
    match nl_newlink_lookup st m with
    | .returns st1 => nl_process_newlink st1 m
    | .exits status st1 => .exits status st1
    | .suicide st1 => .suicide st1
  else if m.nlmsg_type = RTM_DELLINK then
    if m.ifi_index ≠ st.client_config.ifindex then .returns st
    else if st.cs.ifsPrevState ≠ .IFS_REMOVED then
      .exits EXIT_SUCCESS { st with cs := { st.cs with ifsPrevState := .IFS_REMOVED } }
    else .returns st
  else .returns st

/-! ## The worker's acknowledgement (ndhc.c) -/

/-- What `safe_read(pToNdhcR, &c, 1)` reports: one byte read; 0 (the remote end hung up);
-1 with `errno` `EAGAIN` or `EWOULDBLOCK`; -1 with another `errno`. -/
inductive ReadResult where
  | byte (c : Nat)
  | hangup
  | eagain
  | ewouldblock
  | error
deriving DecidableEq, Repr

/-- The function `handle_ifch_message()`, on the global `cs`, for the given result of
`safe_read`. -/
def handle_ifch_message (cs : client_state_t) (r : ReadResult) : Outcome client_state_t :=
  match r with
  | .hangup => .exits EXIT_SUCCESS cs
  | .eagain => .returns cs
  | .ewouldblock => .returns cs
  | .error => .suicide cs
  | .byte c =>
    if c = '+'.toNat then .returns { cs with ifchWorking := 0 }
    else .returns cs

/-! ## Specification-side helpers for link messages -/

/-- The link state that the flags of a link message stand for: UP when `IFF_UP` and
`IFF_RUNNING` are set, DOWN when `IFF_UP` is set and `IFF_RUNNING` is clear, SHUT when
`IFF_UP` is clear. -/
def link_state_of_flags (flags : Nat) : IfState :=
  if flags &&& IFF_UP ≠ 0 then
    if flags &&& IFF_RUNNING ≠ 0 then .IFS_UP else .IFS_DOWN
  else .IFS_SHUT

/-- The action that goes with a change to the link state of a link message. -/
def link_action_of_flags (flags : Nat) : LinkAction :=
  if flags &&& IFF_UP ≠ 0 then
    if flags &&& IFF_RUNNING ≠ 0 then .ifup_action else .ifnocarrier_action
  else .ifdown_action

/-- The state after a link message with the given flags was taken in: the link state is
the one of the flags, and the matching action was invoked if that state is new. -/
def link_applied (st : NlState) (flags : Nat) : NlState :=
  { st with
    cs := { st.cs with ifsPrevState := link_state_of_flags flags },
    actions := st.actions ++
      (if st.cs.ifsPrevState ≠ link_state_of_flags flags then [link_action_of_flags flags]
       else []) }

/-! ## Specification-side helpers for the command stream -/

/-- The dotted-decimal text of the four bytes at the start of `a`. -/
def dotted (a : List Nat) : List Nat :=
  fmt_u (a.getD 0 0) ++ cstr "." ++ fmt_u (a.getD 1 0) ++ cstr "." ++
    fmt_u (a.getD 2 0) ++ cstr "." ++ fmt_u (a.getD 3 0)

/-- The `ip4` command for the address `yiaddr`, the subnet option data `subnet` and the
broadcast option data `bcast`: the broadcast field is present when `bcast` has at least 4
bytes. -/
def ip4_cmd (yiaddr subnet bcast : List Nat) : List Nat :=
  if 4 ≤ bcast.length then
    cstr "ip4:" ++ dotted yiaddr ++ cstr "," ++ dotted subnet ++ cstr "," ++ dotted bcast
      ++ cstr ";"
  else cstr "ip4:" ++ dotted yiaddr ++ cstr "," ++ dotted subnet ++ cstr ";"

/-- A byte of decimal text: one of the characters `0` to `9`. -/
def isDigitByte (x : Nat) : Prop := 48 ≤ x ∧ x ≤ 57

/-- A command of the stream sent to the worker: key, `:`, value, `;`. -/
def ifch_command (key value : List Nat) : List Nat := key ++ cstr ":" ++ value ++ cstr ";"

/-- The `ip4` command with the class C netmask, for the address `yiaddr` and the broadcast
option data `bcast`: the broadcast field is present when `bcast` has at least 4 bytes. -/
def ip4_cmd_classc (yiaddr bcast : List Nat) : List Nat :=
  if 4 ≤ bcast.length then
    cstr "ip4:" ++ dotted yiaddr ++ cstr "," ++ cstr "255.255.255.0" ++ cstr "," ++ dotted bcast
      ++ cstr ";"
  else cstr "ip4:" ++ dotted yiaddr ++ cstr "," ++ cstr "255.255.255.0" ++ cstr ";"

/-- The options `ifchange_bind` looks at: subnet and broadcast (for the `ip4` command),
router, dns, hostname, domain, mtu and wins. -/
def bound_options : List Nat :=
  [DCODE_SUBNET, DCODE_BROADCAST, DCODE_ROUTER, DCODE_DNS, DCODE_HOSTNAME, DCODE_DOMAIN,
    DCODE_MTU, DCODE_WINS]

/-- An option extractor that reports every option outside `bound_options` as absent. -/
def only_bound_options (gdo : dhcpmsg → Nat → List Nat) : dhcpmsg → Nat → List Nat :=
  fun p code => if code ∈ bound_options then gdo p code else []

/-! ## `get_option` with a record of what it reads -/

/-- What one call of `get_option` did besides computing its result: the bytes it read, each
as the region and the index inside that region, in order; the regions it switched to at an
END byte, in order; the bytes it ORed into `overload` (the byte `optionptr[OPT_DATA]`
of every option-overload option it walked over), in order; and for every switch the region
switched to together with the bytes that had been ORed into `overload` before it. -/
structure ScanLog where
  reads : List (Field × Nat)
  starts : List Field
  overloads : List Nat
  causes : List (Field × List Nat)
deriving DecidableEq, Repr

/-- The loop of `get_option` as in `get_option_loop`, which in addition records in the log
every read of `optionptr[OPT_CODE]`, `optionptr[OPT_LEN]` and `optionptr[OPT_DATA]`, every
switch to `packet->file` or `packet->sname`, and every byte ORed into `overload`. -/
def get_option_loop_log (p : dhcpmsg) (code : Int) :
    Nat → Field → Nat → Int → Nat → ScanLog → Option (Option OptPtr × ScanLog)
  | 0, _, _, _, _, _ => none
  | fuel + 1, f, off, rem, overload, log =>
    if rem ≤ 0 then some (none, log)
    else
      let log1 : ScanLog := { log with reads := log.reads ++ [(f, off + OPT_CODE)] }
      if rd p f off OPT_CODE = DHCP_PADDING then
        get_option_loop_log p code fuel f (off + 1) (rem - 1) overload log1
      else if rd p f off OPT_CODE = DHCP_END then
        if overload &&& FILE_FIELD101 = FILE_FIELD then
          get_option_loop_log p code fuel .FILE_FIELD 0 DHCP_FILE_SIZE
            (overload ||| FILE_FIELD101)
            { log1 with starts := log1.starts ++ [.FILE_FIELD],
                        causes := log1.causes ++ [(.FILE_FIELD, log1.overloads)] }
        else if overload &&& SNAME_FIELD101 = SNAME_FIELD then
          get_option_loop_log p code fuel .SNAME_FIELD 0 DHCP_SNAME_SIZE
            (overload ||| SNAME_FIELD101)
            { log1 with starts := log1.starts ++ [.SNAME_FIELD],
                        causes := log1.causes ++ [(.SNAME_FIELD, log1.overloads)] }
        else some (none, log1)
      else
        let log2 : ScanLog := { log1 with reads := log1.reads ++ [(f, off + OPT_LEN)] }
        let len : Nat := 2 + rd p f off OPT_LEN
        let rem1 : Int := rem - len
        if rem1 < 0 then get_option_loop_log p code fuel f off rem1 overload log2
        else if (rd p f off OPT_CODE : Int) = code then some (some ⟨f, off + OPT_DATA⟩, log2)
        else if rd p f off OPT_CODE = DHCP_OPTION_OVERLOAD then
          get_option_loop_log p code fuel f (off + len) rem1
            (overload ||| rd p f off OPT_DATA)
            { log2 with reads := log2.reads ++ [(f, off + OPT_DATA)],
                        overloads := log2.overloads ++ [rd p f off OPT_DATA] }
        else get_option_loop_log p code fuel f (off + len) rem1 overload log2

/-- The function `get_option(packet, code)` together with the record of its reads and
region switches. -/
def get_option_log (packet : dhcpmsg) (code : Int) : Option (Option OptPtr × ScanLog) :=
  get_option_loop_log packet code get_option_fuel .OPTION_FIELD 0 DHCP_OPTIONS_BUFSIZE 0
    { reads := [], starts := [], overloads := [], causes := [] }

/-- The size of a region of the packet (`sizeof packet->options` and so on). -/
def region_size : Field → Nat
  | .OPTION_FIELD => DHCP_OPTIONS_BUFSIZE
  | .FILE_FIELD => DHCP_FILE_SIZE
  | .SNAME_FIELD => DHCP_SNAME_SIZE

/-- An upper bound on the iterations the loop of `get_option` can still make: the bytes that
remain in the current region, the bytes of `file` and `sname` as long as the loop has not
switched to them (bits 8 and 9 of `overload`), and two more. -/
def scan_bound (rem : Int) (overload : Nat) : Nat :=
  rem.toNat + (if overload.testBit 8 then 0 else DHCP_FILE_SIZE + 1)
    + (if overload.testBit 9 then 0 else DHCP_SNAME_SIZE + 1) + 2

/-! ## Pointers shifted by leading PAD bytes -/

/-- The pointer `q` moved `k` bytes further when it points into the options region, and `q`
itself when it points into `file` or `sname`. -/
def OptPtr.shift (k : Nat) (q : OptPtr) : OptPtr :=
  match q.field with
  | .OPTION_FIELD => ⟨.OPTION_FIELD, q.off + k⟩
  | _ => q

/-! ## `add_requests` (options.c) -/

/-- Modelled from the spec: the header `options.h` is absent; the spec lists `subnet(1)`. -/
def DHCP_SUBNET : Nat := 1

/-- Modelled from the spec: the header `options.h` is absent; the spec lists `router(3)`. -/
def DHCP_ROUTER : Nat := 3

/-- Modelled from the spec: the header `options.h` is absent; the spec lists `dns(6)`. -/
def DHCP_DNS_SERVER : Nat := 6

/-- Modelled from the spec: the header `options.h` is absent; the spec lists
`hostname(12)`. -/
def DHCP_HOST_NAME : Nat := 12

/-- Modelled from the spec: the header `options.h` is absent; the spec lists `domain(15)`. -/
def DHCP_DOMAIN_NAME : Nat := 15

/-- Modelled from the spec: the header `options.h` is absent; the spec lists
`broadcast(28)`. -/
def DHCP_BROADCAST : Nat := 28

/-- The array `req_opts[]`, with its terminating zero. -/
def req_opts : List Nat :=
  [DHCP_SUBNET, DHCP_ROUTER, DHCP_DNS_SERVER, DHCP_HOST_NAME, DHCP_DOMAIN_NAME,
    DHCP_BROADCAST, 0x00]

/-- The `for` loop of `add_requests` over the entries of `req_opts` that are left: the
options bytes and `len` afterwards.  A store past the end of the array leaves the model's
buffer as it is. -/
def add_requests_loop («end» : Nat) : List Nat → Nat → List Nat → List Nat × Nat
  | [], len, opts => (opts, len)
  | r :: rs, len, opts =>
    if r ≠ 0 then add_requests_loop «end» rs (len + 1) (opts.set («end» + OPT_DATA + len) r)
    else (opts, len)

/-- The function `add_requests(packet)`: the packet afterwards. -/
def add_requests (packet : dhcpmsg) : Option dhcpmsg :=
  (end_option packet.options).map fun «end» =>
    let o1 := packet.options.set («end» + OPT_CODE) DHCP_PARAM_REQ
    let r := add_requests_loop «end» req_opts 0 o1
    let o2 := r.1.set («end» + OPT_LEN) r.2
    { packet with options := o2.set («end» + OPT_DATA + r.2) DHCP_END }

/-! ## Sequences of calls into ifchange.c -/

/-- A call into ifchange.c: `ifchange_bind(cs, packet)` (`none`: the packet pointer is
NULL) or `ifchange_deconfig(cs)`. -/
inductive IfchCall where
  | bind (packet : Option dhcpmsg)
  | deconfig
deriving DecidableEq, Repr

/-- The state after one call. -/
def IfchCall.run (get_dhcp_opt : dhcpmsg → Nat → List Nat) (st : IfchState) :
    IfchCall → IfchState
  | .bind packet => ifchange_bind get_dhcp_opt st packet
  | .deconfig => ifchange_deconfig st

/-- The state after a sequence of calls, first call first. -/
def ifch_run (get_dhcp_opt : dhcpmsg → Nat → List Nat) (st : IfchState)
    (calls : List IfchCall) : IfchState :=
  calls.foldl (IfchCall.run get_dhcp_opt) st

/-- The lease that is applied after one more call (specification side): a bind with a
packet applies that packet, a bind without a packet changes nothing, a deconfig leaves no
lease applied. -/
def lease_step (applied : Option dhcpmsg) : IfchCall → Option dhcpmsg
  | .bind (some p) => some p
  | .bind none => applied
  | .deconfig => none

/-- The lease that is applied after a sequence of calls made from start-up (specification
side): the packet of the last bind with a packet when no deconfig came after it. -/
def lease_applied (calls : List IfchCall) : Option dhcpmsg :=
  calls.foldl lease_step none

/-! ## `signal_dispatch` (ndhc.c) -/

/-- The signal number `SIGUSR1` of `<signal.h>` (Linux on x86 and ARM). -/
def SIGUSR1 : Nat := 10

/-- The signal number `SIGUSR2` of `<signal.h>` (Linux on x86 and ARM). -/
def SIGUSR2 : Nat := 12

/-- The signal number `SIGPIPE` of `<signal.h>`. -/
def SIGPIPE : Nat := 13

/-- The signal number `SIGTERM` of `<signal.h>`. -/
def SIGTERM : Nat := 15

/-- The signal number `SIGCHLD` of `<signal.h>` (Linux on x86 and ARM). -/
def SIGCHLD : Nat := 17

/-- The error number `EAGAIN` of `<errno.h>` (Linux). -/
def EAGAIN : Int := 11

/-- The error number `EWOULDBLOCK` of `<errno.h>` (Linux: the same as `EAGAIN`). -/
def EWOULDBLOCK : Int := 11

/-- The error number `EINTR` of `<errno.h>`. -/
def EINTR : Int := 4

/-- The size of `struct signalfd_siginfo` (`sizeof si`). -/
def SIZEOF_SI : Nat := 128

/-- The functions of state.c that `signal_dispatch` calls.  state.c is absent from the
sources, so a call is recorded and has no further effect in the model. -/
inductive SigAction where
  | force_renew_action
  | force_release_action
deriving DecidableEq, Repr

/-- The state `signal_dispatch` works on: the client state and the calls made into state.c,
oldest first. -/
structure SigState where
  cs : client_state_t
  actions : List SigAction
deriving DecidableEq, Repr

/-- The function `signal_dispatch()`.  The first argument lists what the successive calls
`read(cs.signalFd, (char *)&si + off, sizeof si - off)` deliver: the return value `t` and the
value of `si.ssi_signo` after the call.  The local `off` is written only after the last
`read` and is not read again, so it is 0 at every `read` and is left out.  Result `none`:
the list holds no entry for a further `read`. -/
def signal_dispatch : List (Int × Nat) → SigState → Option (Outcome SigState)
  | [], _ => none
  | (t, ssi_signo) :: reads, st =>
    if t < 0 ∧ (t = EAGAIN ∨ t = EWOULDBLOCK ∨ t = EINTR) then signal_dispatch reads st
    else if t < 0 then some (.suicide st)
    else
      if ssi_signo = SIGUSR1 then
        some (.returns { st with actions := st.actions ++ [.force_renew_action] })
      else if ssi_signo = SIGUSR2 then
        some (.returns { st with actions := st.actions ++ [.force_release_action] })
      else if ssi_signo = SIGPIPE then some (.exits EXIT_SUCCESS st)
      else if ssi_signo = SIGCHLD then some (.suicide st)
      else if ssi_signo = SIGTERM then some (.exits EXIT_SUCCESS st)
      else some (.returns st)

/-! ## Command-line options (ndhc.c) -/

/-- The function `isxdigit` of `<ctype.h>` in the C locale. -/
def isxdigit (c : Nat) : Bool :=
  (48 ≤ c && c ≤ 57) || (65 ≤ c && c ≤ 70) || (97 ≤ c && c ≤ 102)

/-- The function `is_string_hwaddr(str, slen)`; `str[i]` past the end of the string reads
as 0 in the model. -/
def is_string_hwaddr (str : List Nat) (slen : Nat) : Int :=
  if slen = 17 ∧ str.getD 2 0 = 58 ∧ str.getD 5 0 = 58 ∧ str.getD 8 0 = 58 ∧
      str.getD 11 0 = 58 ∧ str.getD 14 0 = 58 ∧
      isxdigit (str.getD 0 0) ∧ isxdigit (str.getD 1 0) ∧ isxdigit (str.getD 3 0) ∧
      isxdigit (str.getD 4 0) ∧ isxdigit (str.getD 6 0) ∧ isxdigit (str.getD 7 0) ∧
      isxdigit (str.getD 9 0) ∧ isxdigit (str.getD 10 0) ∧ isxdigit (str.getD 12 0) ∧
      isxdigit (str.getD 13 0) ∧ isxdigit (str.getD 15 0) ∧ isxdigit (str.getD 16 0)
  then 1 else 0

/-- What `parse_program_options` takes from outside ndhc.c: the size of
`client_config.clientid` (the header `ndhc.h` is absent), the helpers `copy_cmdarg` and
`nk_uidgidbyname` of the nk library, and the libc functions `inet_addr`, `atoi` and `strtol`.
`copy_cmdarg argname src` is the new content of the destination, or `none` when the helper
ends the process; `nk_uidgidbyname name` is the uid and gid it stores, or `none` when it
returns nonzero; `strtol s base` is the value and the number of characters consumed. -/
structure ArgEnv where
  sizeof_clientid : Nat
  copy_cmdarg : String → List Nat → Option (List Nat)
  nk_uidgidbyname : List Nat → Option (Nat × Nat)
  inet_addr : List Nat → Nat
  atoi : List Nat → Int
  strtol : List Nat → Nat → Int × Nat

/-- What `parse_program_options` prints. -/
inductive Printed where
  | usage
  | version
deriving DecidableEq, Repr

/-- The variables `parse_program_options` writes: fields of `client_config` and `cs`, the
globals of ndhc.c and arp.h, the bytes that follow `client_config.clientid` in memory
(`clientid_past`), and what was printed, oldest first. -/
structure ndhc_globals where
  clientid : List Nat
  clientid_past : List Nat
  clientid_len : Nat
  background_if_no_lease : Nat
  gflags_detach : Nat
  pidfile : List Nat
  pidfile_ifch : List Nat
  hostname : List Nat
  interface : List Nat
  abort_if_no_lease : Nat
  quit_after_lease : Nat
  clientAddr : Nat
  ndhc_uid : Nat
  ndhc_gid : Nat
  ifch_uid : Nat
  ifch_gid : Nat
  sockd_uid : Nat
  sockd_gid : Nat
  chroot_dir : List Nat
  state_dir : List Nat
  seccomp_enforce : Bool
  arp_relentless_def : Nat
  arp_probe_wait : Int
  arp_probe_num : Int
  arp_probe_min : Int
  arp_probe_max : Int
  vendor : List Nat
  metric : Int
  resolv_conf_d : List Nat
  allow_hostname : Nat
  printed : List Printed
deriving DecidableEq, Repr

/-- The function `get_clientid_string(str, slen)`: the return value and the variables
afterwards.  The destination `&client_config.clientid + 1` of both `memcpy` calls is the
address one past the whole array, so the bytes go to `clientid_past`. -/
def get_clientid_string (env : ArgEnv) (g : ndhc_globals) (str : List Nat) (slen : Nat) :
    Int × ndhc_globals :=
  if slen = 0 then (-1, g)
  else if is_string_hwaddr str slen = 0 then
    let n := min slen (env.sizeof_clientid - 1)
    (0, { g with clientid := g.clientid.set 0 0,
                 clientid_past := memcpy_at g.clientid_past 0 str n,
                 clientid_len := slen + 1 })
  else
    let mac := (List.range 6).map fun i => ((env.strtol (str.drop (i * 3)) 16).1 % 256).toNat
    (1, { g with clientid := g.clientid.set 0 1,
                 clientid_past := memcpy_at g.clientid_past 0 mac 6,
                 clientid_len := 7 })

/-- The function `show_usage()`: prints the usage text and calls `exit(EXIT_SUCCESS)`. -/
def show_usage (g : ndhc_globals) : Outcome ndhc_globals :=
  .exits EXIT_SUCCESS { g with printed := g.printed ++ [.usage] }

/-- The value of a character constant such as `'c'`. -/
def chr (c : Char) : Int := (c.toNat : Int)

/-- The call `copy_cmdarg(dest, optarg, sizeof dest, argname)` followed by `break`. -/
def with_cmdarg (env : ArgEnv) (g : ndhc_globals) (argname : String) (optarg : List Nat)
    (store : List Nat → ndhc_globals) : Outcome ndhc_globals :=
  match env.copy_cmdarg argname optarg with
  | some s => .returns (store s)
  | none => .suicide g

/-- The `switch (c)` of `parse_program_options` for one value `c` that `getopt_long`
returned, with the `optarg` it set: `returns` stands for `break`. -/
def parse_option (env : ArgEnv) (c : Int) (optarg : List Nat) (g : ndhc_globals) :
    Outcome ndhc_globals :=
  if c = chr 'c' then .returns (get_clientid_string env g optarg optarg.length).2
  else if c = chr 'b' then .returns { g with background_if_no_lease := 1, gflags_detach := 1 }
  else if c = chr 'p' then
    with_cmdarg env g "pidfile" optarg fun s => { g with pidfile := s }
  else if c = chr 'P' then
    with_cmdarg env g "ifch-pidfile" optarg fun s => { g with pidfile_ifch := s }
  else if c = chr 'h' then
    with_cmdarg env g "hostname" optarg fun s => { g with hostname := s }
  else if c = chr 'i' then
    with_cmdarg env g "interface" optarg fun s => { g with interface := s }
  else if c = chr 'n' then .returns { g with abort_if_no_lease := 1 }
  else if c = chr 'q' then .returns { g with quit_after_lease := 1 }
  else if c = chr 'r' then .returns { g with clientAddr := env.inet_addr optarg }
  else if c = chr 'u' then
    match env.nk_uidgidbyname optarg with
    | some r => .returns { g with ndhc_uid := r.1, ndhc_gid := r.2 }
    | none => .suicide g
  else if c = chr 'U' then
    match env.nk_uidgidbyname optarg with
    | some r => .returns { g with ifch_uid := r.1, ifch_gid := r.2 }
    | none => .suicide g
  else if c = chr 'D' then
    match env.nk_uidgidbyname optarg with
    | some r => .returns { g with sockd_uid := r.1, sockd_gid := r.2 }
    | none => .suicide g
  else if c = chr 'C' then
    with_cmdarg env g "chroot" optarg fun s => { g with chroot_dir := s }
  else if c = chr 's' then
    with_cmdarg env g "state-dir" optarg fun s => { g with state_dir := s }
  else if c = chr 'S' then .returns { g with seccomp_enforce := true }
  else if c = chr 'd' then .returns { g with arp_relentless_def := 1 }
  else if c = chr 'w' ∨ c = chr 'W' then
    let t := env.atoi optarg
    if t < 0 then .returns g
    else if c = chr 'w' then .returns { g with arp_probe_wait := t }
    else .returns { g with arp_probe_num := t }
  else if c = chr 'm' ∨ c = chr 'M' then
    let t := env.atoi optarg
    let g1 := if c = chr 'm' then { g with arp_probe_min := t }
      else { g with arp_probe_max := t }
    if g1.arp_probe_min > g1.arp_probe_max then
      .returns { g1 with arp_probe_max := g1.arp_probe_min, arp_probe_min := g1.arp_probe_max }
    else .returns g1
  else if c = chr 'v' then .exits EXIT_SUCCESS { g with printed := g.printed ++ [.version] }
  else if c = chr 'V' then
    with_cmdarg env g "vendorid" optarg fun s => { g with vendor := s }
  else if c = chr 't' then
    let r := env.strtol optarg 10
    if r.2 = 0 then .suicide g
    else if r.1 > INT_MAX then .suicide g
    else .returns { g with metric := if r.1 < 0 then 0 else r.1 }
  else if c = chr 'R' then
    with_cmdarg env g "resolv-conf" optarg fun s => { g with resolv_conf_d := s }
  else if c = chr 'H' then .returns { g with allow_hostname := 1 }
  else show_usage g

/-- The function `parse_program_options(argc, argv)`.  The second argument lists what the
successive calls of `getopt_long` return, each with the `optarg` it sets; when the list is
used up `getopt_long` returns -1. -/
def parse_program_options (env : ArgEnv) : List (Int × List Nat) → ndhc_globals →
    Outcome ndhc_globals
  | [], g => .returns g
  | (c, optarg) :: rest, g =>
    if c = -1 then .returns g
    else
      match parse_option env c optarg g with
      | .returns g1 => parse_program_options env rest g1
      | o => o

/-- The option characters of the `switch` in `parse_program_options`. -/
def known_options : List Int :=
  "cbpPhinqruUDCsSdwWmMvVtRH".toList.map chr

/-! ## The indices `add_option_string` and `add_requests` store to (options.c) -/

/-- The indices of `optionptr` that `add_option_string(optionptr, string)` stores to, in
order: none when the string does not fit, otherwise the `string[OPT_LEN] + 2` bytes of the
`memcpy` from `end` on and the END byte after them. -/
def add_option_string_writes (optionptr : List Nat) (string : List Nat) : Option (List Nat) :=
  (end_option optionptr).map fun «end» =>
    if «end» + string.getD OPT_LEN 0 + 2 + 1 ≥ DHCP_OPTIONS_BUFSIZE then []
    else
      (List.range (string.getD OPT_LEN 0 + 2)).map (fun j => «end» + j)
        ++ [«end» + string.getD OPT_LEN 0 + 2]

/-- The indices the `for` loop of `add_requests` stores to, over the entries of `req_opts`
that are left. -/
def add_requests_loop_writes («end» : Nat) : List Nat → Nat → List Nat
  | [], _ => []
  | r :: rs, len =>
    if r ≠ 0 then («end» + OPT_DATA + len) :: add_requests_loop_writes «end» rs (len + 1)
    else []

/-- The indices of `packet->options` that `add_requests(packet)` stores to, in order: the
code, the requested codes, the length, the END byte. -/
def add_requests_writes (packet : dhcpmsg) : Option (List Nat) :=
  (end_option packet.options).map fun «end» =>
    let len := (add_requests_loop «end» req_opts 0 packet.options).2
    [«end» + OPT_CODE] ++ add_requests_loop_writes «end» req_opts 0
      ++ [«end» + OPT_LEN, «end» + OPT_DATA + len]

/-! ## `is_string_hwaddr` with a record of the characters it reads -/

/-- The operands of the `&&` chain of `is_string_hwaddr` after `slen == 17`, in source
order: the index read and the test applied to the character. -/
def is_string_hwaddr_tests : List (Nat × (Nat → Bool)) :=
  [(2, fun c => c == 58), (5, fun c => c == 58), (8, fun c => c == 58),
    (11, fun c => c == 58), (14, fun c => c == 58),
    (0, isxdigit), (1, isxdigit), (3, isxdigit), (4, isxdigit), (6, isxdigit),
    (7, isxdigit), (9, isxdigit), (10, isxdigit), (12, isxdigit), (13, isxdigit),
    (15, isxdigit), (16, isxdigit)]

/-- Left-to-right evaluation of a chain of `&&` whose operands each read one character: the
value, and the indices read, in order.  Evaluation stops at the first operand that is
false. -/
def and_chain_log (str : List Nat) : List (Nat × (Nat → Bool)) → Bool × List Nat
  | [] => (true, [])
  | (i, t) :: rest =>
    if t (str.getD i 0) then
      let r := and_chain_log str rest
      (r.1, i :: r.2)
    else (false, [i])

/-- The function `is_string_hwaddr(str, slen)` together with the indices of `str` it reads;
`slen == 17` is the first operand of the chain and reads nothing. -/
def is_string_hwaddr_log (str : List Nat) (slen : Nat) : Int × List Nat :=
  if slen = 17 then
    let r := and_chain_log str is_string_hwaddr_tests
    (if r.1 then 1 else 0, r.2)
  else (0, [])

/-- A hexadecimal digit (specification side): one of the characters `0`-`9`, `a`-`f`,
`A`-`F`. -/
def is_hex_char (c : Nat) : Prop := c ∈ "0123456789abcdefABCDEF".toList.map Char.toNat

instance (c : Nat) : Decidable (is_hex_char c) := by
  unfold is_hex_char; infer_instance

/-- The text of a hardware address (specification side): 17 characters, `:` at positions
2, 5, 8, 11 and 14, hexadecimal digits at the other twelve positions. -/
def mac_text (str : List Nat) (slen : Nat) : Prop :=
  slen = 17 ∧ (∀ i ∈ [2, 5, 8, 11, 14], str.getD i 0 = (':').toNat) ∧
    ∀ i ∈ [0, 1, 3, 4, 6, 7, 9, 10, 12, 13, 15, 16], is_hex_char (str.getD i 0)

instance (str : List Nat) (slen : Nat) : Decidable (mac_text str slen) := by
  unfold mac_text; infer_instance

/-! ## Decimal numbers on the command line -/

/-- The value of a text of decimal digits (what `atoi` yields for such a text). -/
def atoi_digits (s : List Nat) : Int :=
  ((s.takeWhile (fun c => 48 ≤ c ∧ c ≤ 57)).foldl (fun v c => 10 * v + (c - 48)) 0 : Nat)

/-! ## Concrete packets used in witnesses and counterexamples -/

/-- A packet with option-overload 3 in the options region, a hostname in `file` and a domain
name in `sname`. -/
def pkt_overload : dhcpmsg :=
  { dhcpmsg_zero with
    options := ser [.opt 52 [3], .opt 53 [5]] ++ DHCP_END :: List.replicate 301 0,
    file := ser [.opt 12 [65, 66]] ++ DHCP_END :: List.replicate 123 0,
    sname := ser [.opt 15 [67]] ++ DHCP_END :: List.replicate 60 0 }

/-- A packet whose options region holds option-overload 1, then a 250-byte vendor option,
then a client-id option that declares 200 bytes of data while 51 bytes remain; `file` holds a
hostname option. -/
def pkt_overrun : dhcpmsg :=
  { dhcpmsg_zero with
    options := ser [.opt 52 [1], .opt 60 (List.replicate 250 7)] ++ 61 :: 200 :: List.replicate 51 0,
    file := ser [.opt 12 [65, 66]] ++ DHCP_END :: List.replicate 123 0 }

/-- A packet whose options region holds the hostname option twice, with different data. -/
def pkt_dup : dhcpmsg :=
  { dhcpmsg_zero with
    options := ser [.opt 12 [65], .opt 12 [66]] ++ DHCP_END :: List.replicate 301 0 }

/-- A packet with a message-type option only. -/
def pkt_plain : dhcpmsg :=
  { dhcpmsg_zero with
    options := ser [.opt 53 [5]] ++ DHCP_END :: List.replicate 304 0 }

/-- The acknowledged packet of scenario S1: `yiaddr` 192.0.2.50, message type, server id,
lease 3600, subnet 255.255.255.0, router 192.0.2.1, dns 8.8.8.8 and 1.1.1.1. -/
def pkt_s1 : dhcpmsg :=
  { dhcpmsg_zero with
    yiaddr := [192, 0, 2, 50],
    options := ser [.opt 53 [5], .opt 54 [192, 0, 2, 1], .opt 51 [0, 0, 14, 16],
        .opt 1 [255, 255, 255, 0], .opt 3 [192, 0, 2, 1], .opt 6 [8, 8, 8, 8, 1, 1, 1, 1]]
      ++ DHCP_END :: List.replicate 270 0 }

/-- The state at start-up: worker idle, nothing deconfigured, the cached packet all zero,
nothing written to the worker. -/
def st_init : IfchState :=
  { cs := { ifchWorking := 0, ifDeconfig := 0, ifsPrevState := .IFS_NONE },
    cfg_packet := dhcpmsg_zero, pipe := [] }

/-- A packet with `yiaddr` 192.0.2.50, subnet 255.255.255.0 and broadcast 192.0.2.255. -/
def pkt_with_bcast : dhcpmsg :=
  { dhcpmsg_zero with
    yiaddr := [192, 0, 2, 50],
    options := ser [.opt 1 [255, 255, 255, 0], .opt 28 [192, 0, 2, 255]]
      ++ DHCP_END :: List.replicate 295 0 }

/-- A packet with `yiaddr` 192.0.2.50 and subnet 255.255.255.0, without a broadcast option. -/
def pkt_without_bcast : dhcpmsg :=
  { dhcpmsg_zero with
    yiaddr := [192, 0, 2, 50],
    options := ser [.opt 1 [255, 255, 255, 0]] ++ DHCP_END :: List.replicate 301 0 }

/-- A packet with `yiaddr` 192.0.2.50 and a router option, without a subnet option. -/
def pkt_without_subnet : dhcpmsg :=
  { dhcpmsg_zero with
    yiaddr := [192, 0, 2, 50],
    options := ser [.opt 3 [192, 0, 2, 1]] ++ DHCP_END :: List.replicate 301 0 }

/-- The cached packet is the one of scenario S1, the worker is idle. -/
def st_bound_s1 : IfchState :=
  { cs := { ifchWorking := 0, ifDeconfig := 0, ifsPrevState := .IFS_UP },
    cfg_packet := pkt_s1, pipe := [] }

/-- The packet of scenario S1 with four further options: ntpsrv 192.0.2.7, lprsvr
192.0.2.8, timezone 3600 and ipttl 64. -/
def pkt_s1_more : dhcpmsg :=
  { dhcpmsg_zero with
    yiaddr := [192, 0, 2, 50],
    options := ser [.opt 53 [5], .opt 54 [192, 0, 2, 1], .opt 51 [0, 0, 14, 16],
        .opt 1 [255, 255, 255, 0], .opt 3 [192, 0, 2, 1], .opt 6 [8, 8, 8, 8, 1, 1, 1, 1],
        .opt 42 [192, 0, 2, 7], .opt 9 [192, 0, 2, 8], .opt 2 [0, 0, 14, 16], .opt 23 [64]]
      ++ DHCP_END :: List.replicate 249 0 }

/-- The start-up state with a command batch outstanding (`ifchWorking` = 1). -/
def st_busy : IfchState :=
  { cs := { ifchWorking := 1, ifDeconfig := 0, ifsPrevState := .IFS_UP },
    cfg_packet := dhcpmsg_zero, pipe := [] }

/-- The interface `eth0` with the recorded index 2, link state DOWN, no action invoked. -/
def nl_known : NlState :=
  { cs := { ifchWorking := 0, ifDeconfig := 0, ifsPrevState := .IFS_DOWN },
    client_config := { interface := cstr "eth0", ifindex := 2, arp := [2, 0, 0, 0, 0, 1] },
    actions := [] }

/-- An `RTM_NEWLINK` message for index 2 named `eth1`, up and running. -/
def msg_other_name : nl_link_msg :=
  { nlmsg_type := RTM_NEWLINK, ifi_index := 2, ifi_flags := IFF_UP ||| IFF_RUNNING,
    ifla_ifname := some (cstr "eth1"), ifla_address := some [2, 0, 0, 0, 0, 9] }

/-- An `RTM_NEWLINK` message for index 3 named `eth0`, up and running. -/
def msg_other_index : nl_link_msg :=
  { nlmsg_type := RTM_NEWLINK, ifi_index := 3, ifi_flags := IFF_UP ||| IFF_RUNNING,
    ifla_ifname := some (cstr "eth0"), ifla_address := some [2, 0, 0, 0, 0, 1] }

/-- An `RTM_NEWLINK` message for index 2 named `eth0`, up and running. -/
def msg_up : nl_link_msg :=
  { nlmsg_type := RTM_NEWLINK, ifi_index := 2, ifi_flags := IFF_UP ||| IFF_RUNNING,
    ifla_ifname := some (cstr "eth0"), ifla_address := some [2, 0, 0, 0, 0, 1] }

/-- An `RTM_DELLINK` message for index 2. -/
def msg_del : nl_link_msg :=
  { nlmsg_type := RTM_DELLINK, ifi_index := 2, ifi_flags := 0,
    ifla_ifname := some (cstr "eth0"), ifla_address := none }

/-- A packet whose options region is 307 PAD bytes followed by the byte 53. -/
def pkt_last_byte : dhcpmsg :=
  { dhcpmsg_zero with options := List.replicate 307 0 ++ [53] }

/-- A packet whose options region is 306 PAD bytes followed by an option-overload option
with length 0. -/
def pkt_last_overload : dhcpmsg :=
  { dhcpmsg_zero with options := List.replicate 306 0 ++ [52, 0] }

/-- A packet with option-overload 2 in the options region, option-overload 1 in `sname`,
and a hostname in `file`. -/
def pkt_sname_names_file : dhcpmsg :=
  { dhcpmsg_zero with
    options := ser [.opt 52 [2]] ++ DHCP_END :: List.replicate 304 0,
    file := ser [.opt 12 [65]] ++ DHCP_END :: List.replicate 124 0,
    sname := ser [.opt 52 [1]] ++ DHCP_END :: List.replicate 60 0 }

/-- A packet with option-overload 2 in the options region, a hostname in `file`, and a
domain name in `sname`. -/
def pkt_overload_sname : dhcpmsg :=
  { dhcpmsg_zero with
    options := ser [.opt 52 [2]] ++ DHCP_END :: List.replicate 304 0,
    file := ser [.opt 12 [65]] ++ DHCP_END :: List.replicate 124 0,
    sname := ser [.opt 15 [66]] ++ DHCP_END :: List.replicate 60 0 }

/-- The packet `pkt_plain` with three PAD bytes before its options. -/
def pkt_pad3 : dhcpmsg :=
  { dhcpmsg_zero with
    options := List.replicate 3 DHCP_PADDING
      ++ (ser [.opt 53 [5]] ++ DHCP_END :: List.replicate 301 0) }

/-- A packet that already holds a parameter-request option. -/
def pkt_with_req : dhcpmsg :=
  { dhcpmsg_zero with
    options := ser [.opt 55 [1]] ++ DHCP_END :: List.replicate 304 0 }

/-- A state for `signal_dispatch`: the start-up client state, no call made yet. -/
def sig_init : SigState := { cs := st_init.cs, actions := [] }

/-- An environment for closed evaluations: a 64-byte client id, helpers that accept every
argument, and number parsers that yield 0 (`strtol` consuming one character). -/
def env_example : ArgEnv :=
  { sizeof_clientid := 64,
    copy_cmdarg := fun _ s => some s,
    nk_uidgidbyname := fun _ => some (0, 0),
    inet_addr := fun _ => 0,
    atoi := fun _ => 0,
    strtol := fun _ _ => (0, 1) }

/-- The variables at start-up as far as ndhc.c initialises them (`state_dir` is
"/etc/ndhc", the rest zero or empty); the probe parameters, which another file initialises,
are set to 0 here. -/
def globals_example : ndhc_globals :=
  { clientid := List.replicate 64 0, clientid_past := [], clientid_len := 0,
    background_if_no_lease := 0, gflags_detach := 0, pidfile := [], pidfile_ifch := [],
    hostname := [], interface := cstr "eth0", abort_if_no_lease := 0,
    quit_after_lease := 0, clientAddr := 0, ndhc_uid := 0, ndhc_gid := 0, ifch_uid := 0,
    ifch_gid := 0, sockd_uid := 0, sockd_gid := 0, chroot_dir := [],
    state_dir := cstr "/etc/ndhc", seccomp_enforce := false,
    arp_relentless_def := 0, arp_probe_wait := 0, arp_probe_num := 0, arp_probe_min := 0,
    arp_probe_max := 0, vendor := [], metric := 0, resolv_conf_d := [], allow_hostname := 0,
    printed := [] }

/-- The environment `env_example` with an `atoi` that reads unsigned decimal numbers. -/
def env_digits : ArgEnv := { env_example with atoi := atoi_digits }

/-- A packet whose options region is 300 PAD bytes, END at index 300 and seven zero bytes. -/
def pkt_end_300 : dhcpmsg :=
  { dhcpmsg_zero with
    options := ser (List.replicate 300 Item.pad) ++ DHCP_END :: List.replicate 7 0 }

/-- A packet whose options region is 307 PAD bytes and END at index 307. -/
def pkt_end_307 : dhcpmsg :=
  { dhcpmsg_zero with options := ser (List.replicate 307 Item.pad) ++ [DHCP_END] }

/-- A packet with `yiaddr` 192.0.2.50, no subnet option, and a broadcast option of 2
bytes. -/
def pkt_short_bcast : dhcpmsg :=
  { dhcpmsg_zero with
    yiaddr := [192, 0, 2, 50],
    options := ser [.opt 28 [192, 0]] ++ DHCP_END :: List.replicate 303 0 }

/-! ## Theorems about `get_option` -/

theorem rd_of_region {p : dhcpmsg} {f : Field} {pre l : List Nat}
    (h : region p f = pre ++ l) (i : Nat) : rd p f pre.length i = l.getD i 0 := by
  simp [rd, h, List.getD_eq_getElem?_getD, List.getElem?_append_right]

theorem ser_length_ge (items : List Item) : items.length ≤ (ser items).length := by
  induction items with
  | nil => simp [ser]
  | cons i is ih =>
    cases i <;> simp [ser, Item.bytes] <;> omega

theorem loop_congr (p : dhcpmsg) (c : Int) (fuel : Nat) (f : Field) (rem : Int)
    {a b o1 o2 : Nat} (h : a = b) (ho : o1 = o2) :
    get_option_loop p c fuel f a rem o1 = get_option_loop p c fuel f b rem o2 := by
  rw [h, ho]

theorem loop_items (p : dhcpmsg) (c : Int) (f : Field) (items : List Item)
    (hok : ∀ i ∈ items, i.ok) :
    ∀ (pre rest : List Nat) (fuel ov off : Nat) (rem : Int),
      region p f = pre ++ (ser items ++ rest) → items.length ≤ fuel →
      off = pre.length → rem = ((ser items).length + rest.length : Nat) →
      get_option_loop p c fuel f off rem ov =
        match findOpt c items with
        | some r => some (some ⟨f, off + r.1⟩)
        | none => get_option_loop p c (fuel - items.length) f
            (off + (ser items).length) (rest.length : Nat) (ov ||| ovl items rest) := by
  induction items with
  | nil =>
    intro pre rest fuel ov off rem _ _ _ hrem
    simp [ser, ovl, findOpt, hrem]
  | cons i is ih =>
    intro pre rest fuel ov off rem hreg hfuel hoff hrem
    have hok1 : ∀ j ∈ is, j.ok := fun j hj => hok j (List.mem_cons_of_mem _ hj)
    have hi : i.ok := hok i (List.mem_cons_self _ _)
    obtain ⟨fuel, rfl⟩ : ∃ n, fuel = n + 1 := ⟨fuel - 1, by simp at hfuel; omega⟩
    have hfuel1 : is.length ≤ fuel := by simpa using hfuel
    subst hoff
    cases i with
    | pad =>
      have hreg1 : region p f = (pre ++ [DHCP_PADDING]) ++ (ser is ++ rest) := by
        simp [hreg, ser, Item.bytes]
      have h0 : rd p f pre.length OPT_CODE = DHCP_PADDING := by
        rw [rd_of_region hreg]; simp [ser, Item.bytes, OPT_CODE]
      have hpos : ¬ rem ≤ 0 := by
        simp only [ser, Item.bytes, List.length_append, List.length_cons, List.length_nil] at hrem
        omega
      rw [get_option_loop, if_neg hpos, if_pos h0]
      rw [ih hok1 (pre ++ [DHCP_PADDING]) rest fuel ov (pre.length + 1) (rem - 1) hreg1 hfuel1
        (by simp) (by simp only [ser, Item.bytes, List.length_append, List.length_cons,
          List.length_nil] at hrem; omega)]
      simp only [findOpt, ser, Item.bytes, ovl, List.length_append, List.length_cons,
        List.length_nil, Nat.add_sub_add_right]
      cases findOpt c is with
      | none => dsimp only [Option.map]; exact loop_congr _ _ _ _ _ (by omega) rfl
      | some r => simp; omega
    | opt k d =>
      have hreg1 : region p f = (pre ++ (k :: d.length :: d)) ++ (ser is ++ rest) := by
        simp [hreg, ser, Item.bytes]
      have h0 : rd p f pre.length OPT_CODE = k := by
        rw [rd_of_region hreg]; simp [ser, Item.bytes, OPT_CODE]
      have h1 : rd p f pre.length OPT_LEN = d.length := by
        rw [rd_of_region hreg]; simp [ser, Item.bytes, OPT_LEN]
      have h2 : rd p f pre.length OPT_DATA = (d ++ ser is ++ rest).getD 0 0 := by
        rw [rd_of_region hreg]; simp [ser, Item.bytes, OPT_DATA]
      have hk : k ≠ DHCP_PADDING ∧ k ≠ DHCP_END := hi
      have hrem1 : rem = ((2 + d.length : Nat) : Int) + (((ser is).length + rest.length : Nat) : Int) := by
        simp only [ser, Item.bytes, List.length_append, List.length_cons, List.length_nil] at hrem
        omega
      have hpos : ¬ rem ≤ 0 := by omega
      rw [get_option_loop, if_neg hpos, h0, if_neg hk.1, if_neg hk.2]
      simp only [h1, h2]
      rw [if_neg (by omega)]
      by_cases hkc : (k : Int) = c
      · simp [findOpt, hkc]
      · rw [if_neg hkc]
        rw [ih hok1 (pre ++ (k :: d.length :: d)) rest fuel _ (pre.length + (2 + d.length))
          (rem - ((2 + d.length : Nat) : Int)) hreg1 hfuel1 (by simp; omega) (by omega)]
        simp only [findOpt, if_neg hkc, ser, Item.bytes, ovl, List.length_append, List.length_cons,
          List.length_nil, Nat.add_sub_add_right]
        cases findOpt c is with
        | none =>
          dsimp only [Option.map]
          refine loop_congr _ _ _ _ _ (by omega) ?_
          by_cases h52 : k = DHCP_OPTION_OVERLOAD
          · simp [h52, Nat.lor_assoc]
          · simp [h52]
        | some r => simp; omega

theorem land_lor_of_land {v x : Nat} (y : Nat) (h : v &&& x = v) : v &&& (x ||| y) = v := by
  apply Nat.eq_of_testBit_eq
  intro i
  have hi := congrArg (fun n => n.testBit i) h
  simp only [Nat.testBit_and, Nat.testBit_or] at hi ⊢
  cases hv : v.testBit i <;> simp_all

theorem land_lor_of_land_right {v y : Nat} (x : Nat) (h : v &&& y = v) : v &&& (x ||| y) = v := by
  rw [Nat.lor_comm]; exact land_lor_of_land x h

set_option maxRecDepth 100000 in
theorem overload_first : ∀ x, x < 256 → 1 &&& x = 1 → x &&& FILE_FIELD101 = FILE_FIELD := by
  decide

set_option maxRecDepth 100000 in
theorem overload_second : ∀ x, x < 256 → 2 &&& x = 2 →
    ¬ ((x ||| FILE_FIELD101) &&& FILE_FIELD101 = FILE_FIELD) ∧
    (x ||| FILE_FIELD101) &&& SNAME_FIELD101 = SNAME_FIELD := by
  decide

set_option maxRecDepth 100000 in
theorem overload_third : ∀ x, x < 256 →
    ¬ ((x ||| (FILE_FIELD101 ||| SNAME_FIELD101)) &&& FILE_FIELD101 = FILE_FIELD) ∧
    ¬ ((x ||| (FILE_FIELD101 ||| SNAME_FIELD101)) &&& SNAME_FIELD101 = SNAME_FIELD) := by
  decide

theorem ovl_lt (items : List Item) (rest : List Nat)
    (hb : isBytes (ser items ++ rest)) : ovl items rest < 256 := by
  induction items with
  | nil => simp [ovl]
  | cons i is ih =>
    cases i with
    | pad =>
      apply ih
      intro b hb1
      exact hb b (by simp [ser, Item.bytes]; right; simpa using hb1)
    | opt k d =>
      have h1 : ovl is rest < 256 := by
        apply ih
        intro b hb1
        exact hb b (by simp only [ser, Item.bytes, List.cons_append, List.mem_cons,
          List.append_assoc, List.mem_append] at hb1 ⊢; tauto)
      have h2 : (d ++ ser is ++ rest).getD 0 0 < 256 := by
        cases hl : d ++ ser is ++ rest with
        | nil => simp
        | cons a t =>
          simp only [List.getD_cons_zero]
          apply hb
          have : a ∈ d ++ ser is ++ rest := by rw [hl]; simp
          simp only [ser, Item.bytes, List.cons_append, List.mem_cons,
            List.append_assoc, List.mem_append] at this ⊢
          tauto
      unfold ovl
      split
      · exact Nat.or_lt_two_pow (n := 8) h2 h1
      · exact Nat.or_lt_two_pow (n := 8) (by norm_num) h1

theorem ovl_mem (items : List Item) (rest : List Nat) (v : Nat) (ds : List Nat)
    (h : Item.opt DHCP_OPTION_OVERLOAD (v :: ds) ∈ items) : v &&& ovl items rest = v := by
  induction items with
  | nil => simp at h
  | cons i is ih =>
    rcases List.mem_cons.1 h with h1 | h1
    · subst h1
      simp only [ovl, if_true, List.cons_append, List.getD_cons_zero]
      exact land_lor_of_land _ (Nat.and_self v)
    · cases i with
      | pad => simpa [ovl] using ih h1
      | opt k d =>
        unfold ovl
        exact land_lor_of_land_right _ (ih h1)

theorem loop_end (p : dhcpmsg) (c : Int) (f : Field) (pre t : List Nat) (fuel ov : Nat)
    (hreg : region p f = pre ++ DHCP_END :: t) :
    get_option_loop p c (fuel + 1) f pre.length ((t.length + 1 : Nat) : Int) ov =
      if ov &&& FILE_FIELD101 = FILE_FIELD then
        get_option_loop p c fuel .FILE_FIELD 0 DHCP_FILE_SIZE (ov ||| FILE_FIELD101)
      else if ov &&& SNAME_FIELD101 = SNAME_FIELD then
        get_option_loop p c fuel .SNAME_FIELD 0 DHCP_SNAME_SIZE (ov ||| SNAME_FIELD101)
      else some none := by
  have h0 : rd p f pre.length OPT_CODE = DHCP_END := by
    rw [rd_of_region hreg]; simp [OPT_CODE]
  rw [get_option_loop, if_neg (by omega), h0, if_neg (by decide), if_pos rfl]

theorem findOpt_data (c : Int) (items : List Item) :
    ∀ (pre rest l : List Nat) (r : Nat × List Nat),
      l = pre ++ (ser items ++ rest) → findOpt c items = some r →
      (l.drop (pre.length + r.1)).take (l.getD (pre.length + r.1 - 1) 0) = r.2 := by
  induction items with
  | nil => intro pre rest l r _ h; simp [findOpt] at h
  | cons i is ih =>
    intro pre rest l r hl h
    cases i with
    | pad =>
      simp only [findOpt, Option.map_eq_some'] at h
      obtain ⟨r1, hr1, rfl⟩ := h
      have := ih (pre ++ [DHCP_PADDING]) rest l r1 (by simp [hl, ser, Item.bytes]) hr1
      simp only [List.length_append, List.length_singleton] at this
      simpa [Nat.add_assoc, Nat.add_comm 1] using this
    | opt k d =>
      simp only [findOpt] at h
      split at h
      · cases h
        subst hl
        have e1 : (pre ++ (ser (Item.opt k d :: is) ++ rest)).getD (pre.length + OPT_DATA - 1) 0
            = d.length := by
          rw [List.getD_append_right _ _ _ _ (by simp [OPT_DATA])]
          simp [ser, Item.bytes, OPT_DATA]
        have e2 : (pre ++ (ser (Item.opt k d :: is) ++ rest)).drop (pre.length + OPT_DATA)
            = d ++ (ser is ++ rest) := by
          rw [List.drop_append]
          simp [ser, Item.bytes, OPT_DATA]
        rw [e1, e2]
        simp
      · simp only [Option.map_eq_some'] at h
        obtain ⟨r1, hr1, rfl⟩ := h
        have := ih (pre ++ (k :: d.length :: d)) rest l r1 (by simp [hl, ser, Item.bytes]) hr1
        simp only [List.length_append, List.length_cons] at this
        rw [show pre.length + (r1.1 + (2 + d.length)) = pre.length + (d.length + 1 + 1) + r1.1
          by omega]
        exact this

/-- A scan that starts at the beginning of region `f`, a well-formed option sequence
ending in END, with overload state `ov`: either the code is found in the region, or the
loop arrives at the END byte with the overload bytes of the region accumulated. -/
theorem loop_region (p : dhcpmsg) (c : Int) (f : Field) (items : List Item) (t : List Nat)
    (hreg : region p f = ser items ++ DHCP_END :: t) (hok : ∀ i ∈ items, i.ok)
    (fuel ov : Nat) (rem : Int) (hrem : rem = ((region p f).length : Nat))
    (hfuel : items.length < fuel) :
    get_option_loop p c fuel f 0 rem ov =
      match findOpt c items with
      | some r => some (some ⟨f, r.1⟩)
      | none =>
        let ov1 := ov ||| ovl items (DHCP_END :: t)
        if ov1 &&& FILE_FIELD101 = FILE_FIELD then
          get_option_loop p c (fuel - items.length - 1) .FILE_FIELD 0 DHCP_FILE_SIZE
            (ov1 ||| FILE_FIELD101)
        else if ov1 &&& SNAME_FIELD101 = SNAME_FIELD then
          get_option_loop p c (fuel - items.length - 1) .SNAME_FIELD 0 DHCP_SNAME_SIZE
            (ov1 ||| SNAME_FIELD101)
        else some none := by
  have h := loop_items p c f items hok [] (DHCP_END :: t) fuel ov 0 rem (by simpa using hreg)
    (by omega) rfl (by rw [hrem, hreg]; simp)
  rw [h]
  cases findOpt c items with
  | some r => simp
  | none =>
    dsimp only
    obtain ⟨n, hn⟩ : ∃ n, fuel - items.length = n + 1 := ⟨fuel - items.length - 1, by omega⟩
    have := loop_end p c f (ser items) t n (ov ||| ovl items (DHCP_END :: t)) hreg
    rw [hn]
    simp only [List.length_cons, Nat.zero_add, Nat.add_sub_cancel]
    exact this

set_option maxRecDepth 100000 in
theorem overload_three : ∀ x, x < 256 → 3 &&& x = 3 → 1 &&& x = 1 ∧ 2 &&& x = 2 := by
  decide

theorem get_option_overload_both (p : dhcpmsg) (iO iF iS : List Item) (tO tF tS : List Nat)
    (c : Int)
    (hO : p.options = ser iO ++ DHCP_END :: tO) (hOl : p.options.length = DHCP_OPTIONS_BUFSIZE)
    (hF : p.file = ser iF ++ DHCP_END :: tF) (hFl : p.file.length = DHCP_FILE_SIZE)
    (hS : p.sname = ser iS ++ DHCP_END :: tS) (hSl : p.sname.length = DHCP_SNAME_SIZE)
    (hokO : ∀ i ∈ iO, i.ok) (hokF : ∀ i ∈ iF, i.ok) (hokS : ∀ i ∈ iS, i.ok)
    (hbO : isBytes p.options) (hbF : isBytes p.file) (hbS : isBytes p.sname)
    (hov : Item.opt DHCP_OPTION_OVERLOAD [3] ∈ iO) :
    get_option p c = some ((firstOf3 c iO iF iS).map Prod.fst) ∧
    ∀ r, firstOf3 c iO iF iS = some r → optData p r.1 = r.2 := by
  have lO : iO.length ≤ 307 := by
    have := ser_length_ge iO
    have h := congrArg List.length hO
    simp [hOl, DHCP_OPTIONS_BUFSIZE] at h; omega
  have lF : iF.length ≤ 127 := by
    have := ser_length_ge iF
    have h := congrArg List.length hF
    simp [hFl, DHCP_FILE_SIZE] at h; omega
  have lS : iS.length ≤ 63 := by
    have := ser_length_ge iS
    have h := congrArg List.length hS
    simp [hSl, DHCP_SNAME_SIZE] at h; omega
  constructor
  · unfold get_option
    rw [loop_region p c .OPTION_FIELD iO tO hO hokO _ _ _ (by simp [region, hOl])
      (by simp [get_option_fuel, DHCP_OPTIONS_BUFSIZE]; omega)]
    unfold firstOf3
    cases findOpt c iO with
    | some r => simp
    | none =>
      dsimp only
      have x256 : ovl iO (DHCP_END :: tO) < 256 := ovl_lt _ _ (hO ▸ hbO)
      have x3 := overload_three _ x256 (ovl_mem iO (DHCP_END :: tO) 3 [] hov)
      rw [Nat.zero_or, if_pos (overload_first _ x256 x3.1)]
      rw [loop_region p c .FILE_FIELD iF tF hF hokF _ _ _ (by simp [region, hFl])
        (by simp [get_option_fuel, DHCP_OPTIONS_BUFSIZE, DHCP_FILE_SIZE, DHCP_SNAME_SIZE]; omega)]
      cases findOpt c iF with
      | some r => simp
      | none =>
        dsimp only
        have y256 : ovl iF (DHCP_END :: tF) < 256 := ovl_lt _ _ (hF ▸ hbF)
        have z256 : ovl iO (DHCP_END :: tO) ||| ovl iF (DHCP_END :: tF) < 256 :=
          Nat.or_lt_two_pow (n := 8) x256 y256
        have e : ovl iO (DHCP_END :: tO) ||| FILE_FIELD101 ||| ovl iF (DHCP_END :: tF)
            = (ovl iO (DHCP_END :: tO) ||| ovl iF (DHCP_END :: tF)) ||| FILE_FIELD101 := by
          rw [Nat.lor_assoc, Nat.lor_comm FILE_FIELD101, ← Nat.lor_assoc]
        have h2 := overload_second _ z256 (land_lor_of_land _ x3.2)
        rw [e, if_neg h2.1, if_pos h2.2]
        rw [loop_region p c .SNAME_FIELD iS tS hS hokS _ _ _ (by simp [region, hSl])
          (by simp [get_option_fuel, DHCP_OPTIONS_BUFSIZE, DHCP_FILE_SIZE, DHCP_SNAME_SIZE]; omega)]
        cases findOpt c iS with
        | some r => simp
        | none =>
          dsimp only
          have w256 : ovl iS (DHCP_END :: tS) < 256 := ovl_lt _ _ (hS ▸ hbS)
          have e2 : (ovl iO (DHCP_END :: tO) ||| ovl iF (DHCP_END :: tF)) ||| FILE_FIELD101
                ||| SNAME_FIELD101 ||| ovl iS (DHCP_END :: tS)
              = ((ovl iO (DHCP_END :: tO) ||| ovl iF (DHCP_END :: tF)) ||| ovl iS (DHCP_END :: tS))
                ||| (FILE_FIELD101 ||| SNAME_FIELD101) := by
            simp only [Nat.lor_assoc]
            rw [Nat.lor_comm (ovl iS (DHCP_END :: tS))]
            simp only [Nat.lor_assoc]
          have h3 := overload_third _ (Nat.or_lt_two_pow (n := 8) z256 w256)
          rw [e2, if_neg h3.1, if_neg h3.2]
          simp
  · intro r hr
    unfold firstOf3 at hr
    cases hfO : findOpt c iO with
    | some r1 =>
      simp only [hfO, Option.some.injEq] at hr
      subst hr
      have := findOpt_data c iO [] (DHCP_END :: tO) p.options r1 (by simpa using hO) hfO
      simpa [optData, region] using this
    | none =>
      simp only [hfO] at hr
      cases hfF : findOpt c iF with
      | some r1 =>
        simp only [hfF, Option.some.injEq] at hr
        subst hr
        have := findOpt_data c iF [] (DHCP_END :: tF) p.file r1 (by simpa using hF) hfF
        simpa [optData, region] using this
      | none =>
        simp only [hfF, Option.map_eq_some'] at hr
        obtain ⟨r1, hfS, rfl⟩ := hr
        have := findOpt_data c iS [] (DHCP_END :: tS) p.sname r1 (by simpa using hS) hfS
        simpa [optData, region] using this


theorem ser_append (a b : List Item) : ser (a ++ b) = ser a ++ ser b := by
  induction a with
  | nil => simp [ser]
  | cons i is ih => simp [ser, ih]

theorem findOpt_append_none (c : Int) (a b : List Item) (h : findOpt c a = none) :
    findOpt c (a ++ b) = (findOpt c b).map fun r => (r.1 + (ser a).length, r.2) := by
  induction a with
  | nil => simp [ser]
  | cons i is ih =>
    cases i with
    | pad =>
      simp only [findOpt, Option.map_eq_none'] at h
      show findOpt c (Item.pad :: (is ++ b)) = _
      rw [findOpt, ih h]
      cases findOpt c b with
      | none => rfl
      | some r =>
        simp only [Option.map_some', Option.some.injEq, Prod.mk.injEq, and_true, ser, Item.bytes,
          List.length_append, List.length_cons, List.length_nil]
        omega
    | opt k d =>
      simp only [findOpt] at h
      split at h
      · cases h
      · rename_i hk
        simp only [Option.map_eq_none'] at h
        show findOpt c (Item.opt k d :: (is ++ b)) = _
        rw [findOpt, if_neg hk, ih h]
        cases findOpt c b with
        | none => rfl
        | some r =>
          simp only [Option.map_some', Option.some.injEq, Prod.mk.injEq, and_true, ser, Item.bytes,
            List.length_append, List.length_cons, List.length_nil]
          omega

/-- The first option with code `c` among the well-formed options at the start of the
options region is the one `get_option` returns, whatever follows it. -/
theorem get_option_first (p : dhcpmsg) (c : Int) (pre : List Item) (k : Nat) (d rest : List Nat)
    (hO : p.options = ser pre ++ (k :: d.length :: d) ++ rest)
    (hOl : p.options.length = DHCP_OPTIONS_BUFSIZE)
    (hok : ∀ i ∈ pre, i.ok) (hk0 : k ≠ DHCP_PADDING) (hk1 : k ≠ DHCP_END)
    (hpre : findOpt c pre = none) (hkc : (k : Int) = c) :
    get_option p c = some (some ⟨.OPTION_FIELD, (ser pre).length + OPT_DATA⟩) ∧
    optData p ⟨.OPTION_FIELD, (ser pre).length + OPT_DATA⟩ = d := by
  have hO1 : p.options = [] ++ (ser (pre ++ [Item.opt k d]) ++ rest) := by
    simp [hO, ser_append, ser, Item.bytes]
  have hf : findOpt c (pre ++ [Item.opt k d]) = some ((ser pre).length + OPT_DATA, d) := by
    rw [findOpt_append_none c _ _ hpre]
    simp [findOpt, hkc, Nat.add_comm]
  have hlen : (pre ++ [Item.opt k d]).length ≤ get_option_fuel := by
    have h1 := ser_length_ge (pre ++ [Item.opt k d])
    have h2 := congrArg List.length hO1
    simp only [hOl, List.nil_append, List.length_append] at h2
    simp only [get_option_fuel, DHCP_OPTIONS_BUFSIZE, DHCP_FILE_SIZE, DHCP_SNAME_SIZE] at h2 ⊢
    omega
  constructor
  · unfold get_option
    rw [loop_items p c .OPTION_FIELD (pre ++ [Item.opt k d])
      (by
        intro i hi
        rcases List.mem_append.1 hi with h | h
        · exact hok i h
        · simp only [List.mem_singleton] at h
          subst h
          exact ⟨hk0, hk1⟩)
      [] rest get_option_fuel 0 0 _ hO1 hlen rfl
      (by
        have h2 := congrArg List.length hO1
        simp only [hOl, List.nil_append, List.length_append] at h2
        rw [h2])]
    simp [hf]
  · have := findOpt_data c (pre ++ [Item.opt k d]) [] rest p.options _ hO1 hf
    simpa [optData, region] using this

theorem end_option_loop_items (buf : List Nat) (items : List Item) (hok : ∀ i ∈ items, i.ok) :
    ∀ (pre t : List Nat) (fuel i : Nat),
      buf = pre ++ (ser items ++ DHCP_END :: t) → items.length < fuel → i = pre.length →
      pre.length + (ser items).length < DHCP_OPTIONS_BUFSIZE →
      end_option_loop buf fuel i = some (pre.length + (ser items).length) := by
  induction items with
  | nil =>
    intro pre t fuel i hbuf hfuel hi _
    obtain ⟨fuel, rfl⟩ : ∃ n, fuel = n + 1 := ⟨fuel - 1, by simp at hfuel; omega⟩
    have h0 : buf.getD i 0 = DHCP_END := by
      rw [hbuf, hi, List.getD_append_right _ _ _ _ (Nat.le_refl _)]; simp [ser]
    rw [end_option_loop, if_neg (by rw [h0]; simp)]
    simp [ser, hi]
  | cons it is ih =>
    intro pre t fuel i hbuf hfuel hi hlt
    have hok1 : ∀ j ∈ is, j.ok := fun j hj => hok j (List.mem_cons_of_mem _ hj)
    have hit : it.ok := hok it (List.mem_cons_self _ _)
    obtain ⟨fuel, rfl⟩ : ∃ n, fuel = n + 1 := ⟨fuel - 1, by simp at hfuel; omega⟩
    have hfuel1 : is.length < fuel := by simpa using hfuel
    subst hi
    cases it with
    | pad =>
      have h0 : buf.getD pre.length 0 = DHCP_PADDING := by
        rw [hbuf, List.getD_append_right _ _ _ _ (Nat.le_refl _)]; simp [ser, Item.bytes]
      simp only [ser, Item.bytes, List.length_append, List.length_cons, List.length_nil] at hlt
      rw [end_option_loop, if_pos ⟨by omega, by rw [h0]; decide⟩]
      simp only [h0, ne_eq, not_true_eq_false, if_false]
      rw [ih hok1 (pre ++ [DHCP_PADDING]) t fuel (pre.length + 1)
        (by simp [hbuf, ser, Item.bytes]) hfuel1 (by simp)
        (by simp only [List.length_append, List.length_singleton]; omega)]
      simp only [ser, Item.bytes, List.length_append, List.length_cons, List.length_nil]
      congr 1; omega
    | opt k d =>
      have hk : k ≠ DHCP_PADDING ∧ k ≠ DHCP_END := hit
      have h0 : buf.getD pre.length 0 = k := by
        rw [hbuf, List.getD_append_right _ _ _ _ (Nat.le_refl _)]; simp [ser, Item.bytes]
      have h1 : buf.getD (pre.length + OPT_LEN) 0 = d.length := by
        rw [hbuf, List.getD_append_right _ _ _ _ (by simp)]; simp [ser, Item.bytes, OPT_LEN]
      simp only [ser, Item.bytes, List.length_append, List.length_cons] at hlt
      rw [end_option_loop, if_pos ⟨by omega, by rw [h0]; exact hk.2⟩]
      simp only [h0, h1, ne_eq, hk.1, not_false_eq_true, if_true]
      rw [ih hok1 (pre ++ (k :: d.length :: d)) t fuel _
        (by simp [hbuf, ser, Item.bytes]) hfuel1
        (by simp only [List.length_append, List.length_cons, OPT_DATA]; omega)
        (by simp only [List.length_append, List.length_cons]; omega)]
      simp only [ser, Item.bytes, List.length_append, List.length_cons]
      congr 1; omega

theorem end_option_wf (items : List Item) (t : List Nat) (hok : ∀ i ∈ items, i.ok)
    (hlt : (ser items).length < DHCP_OPTIONS_BUFSIZE - 1) :
    end_option (ser items ++ DHCP_END :: t) = some (ser items).length := by
  have hl := ser_length_ge items
  unfold end_option
  rw [end_option_loop_items _ items hok [] t _ 0 (by simp) (by omega) rfl
    (by simp only [List.length_nil]; omega)]
  simp only [List.length_nil, Nat.zero_add, Option.map_some', if_pos hlt]

theorem host_bytes_four (e : Bool) (v : Nat) :
    ∃ a b c d, host_bytes e 4 v = [a, b, c, d] := by
  cases e
  · exact ⟨v % 256, v / 256 % 256, v / 65536 % 256, v / 16777216 % 256,
      by simp [host_bytes, List.range_succ]⟩
  · exact ⟨v / 16777216 % 256, v / 65536 % 256, v / 256 % 256, v % 256,
      by simp [host_bytes, List.range_succ]⟩

theorem add_option_string_wf (items : List Item) (t : List Nat) (s : List Nat) (l : Nat)
    (hok : ∀ i ∈ items, i.ok) (hs : s.length = l + 2) (hl : s.getD OPT_LEN 0 = l)
    (hlen : (ser items ++ DHCP_END :: t).length = DHCP_OPTIONS_BUFSIZE)
    (hfit : (ser items).length + l + 2 + 1 < DHCP_OPTIONS_BUFSIZE) :
    add_option_string (ser items ++ DHCP_END :: t) s =
      some (((l + 2 : Nat) : Int), ser items ++ s ++ DHCP_END :: t.drop (l + 2)) := by
  have ht : t.length = DHCP_OPTIONS_BUFSIZE - 1 - (ser items).length := by
    simp only [List.length_append, List.length_cons] at hlen; omega
  unfold add_option_string
  rw [end_option_wf items t hok (by omega)]
  simp only [Option.map_some', hl]
  rw [if_neg (by omega)]
  congr 2
  have hm : (List.range (l + 2)).map (fun j => s.getD j 0) = s := by
    apply List.ext_getElem
    · simp [hs]
    · intro n h1 h2
      simp [List.getD_eq_getElem?_getD, List.getElem?_eq_getElem h2]
  have hd : (ser items ++ DHCP_END :: t).drop ((ser items).length + (l + 2))
      = t.drop (l + 1) := by
    rw [List.drop_append]; simp
  have ht1 : l + 1 < t.length := by omega
  have hd2 : t.drop (l + 1) = t[l + 1] :: t.drop (l + 2) := by
    rw [List.drop_eq_getElem_cons ht1]
  unfold memcpy_at
  rw [hm, hd, List.take_left]
  have : (ser items).length + l + 2 = (ser items ++ s).length := by
    simp [hs]; omega
  rw [this, List.set_append_right _ _ (Nat.le_refl _), hd2, Nat.sub_self]
  rfl

/-! ## Lemmas about the command formatting -/

set_option maxRecDepth 100000 in
theorem fmt_u_byte : ∀ b, b < 256 → (fmt_u b).length ≤ 3 ∧ ∀ x ∈ fmt_u b, x ≠ 0 := by
  decide

theorem getD_isBytes {a : List Nat} (h : isBytes a) (i : Nat) : a.getD i 0 < 256 := by
  rw [List.getD_eq_getElem?_getD]
  cases hi : a[i]? with
  | none => simp
  | some x => exact h x (List.getElem?_mem hi)

theorem dotted_length {a : List Nat} (h : isBytes a) : (dotted a).length ≤ 15 := by
  have h0 := (fmt_u_byte _ (getD_isBytes h 0)).1
  have h1 := (fmt_u_byte _ (getD_isBytes h 1)).1
  have h2 := (fmt_u_byte _ (getD_isBytes h 2)).1
  have h3 := (fmt_u_byte _ (getD_isBytes h 3)).1
  simp only [dotted, List.length_append, cstr, String.toList, List.length_map]
  simp only [show ".".data.length = 1 from rfl]
  omega

theorem dotted_no_nul {a : List Nat} (h : isBytes a) : ∀ x ∈ dotted a, x ≠ 0 := by
  have h0 := (fmt_u_byte _ (getD_isBytes h 0)).2
  have h1 := (fmt_u_byte _ (getD_isBytes h 1)).2
  have h2 := (fmt_u_byte _ (getD_isBytes h 2)).2
  have h3 := (fmt_u_byte _ (getD_isBytes h 3)).2
  intro x hx
  simp only [dotted, List.mem_append] at hx
  have hdot : ∀ y ∈ cstr ".", y ≠ 0 := by decide
  rcases hx with (((((hx | hx) | hx) | hx) | hx) | hx) | hx
  · exact h0 x hx
  · exact hdot x hx
  · exact h1 x hx
  · exact hdot x hx
  · exact h2 x hx
  · exact hdot x hx
  · exact h3 x hx

theorem inet_ntop_bytes {a : List Nat} (h : isBytes a) :
    inet_ntop a INET_ADDRSTRLEN = some (dotted a) := by
  have := dotted_length h
  unfold inet_ntop
  simp only [INET_ADDRSTRLEN]
  rw [if_pos (by simpa [dotted] using (by omega : (dotted a).length < 16))]
  rfl

theorem fmt_s_no_nul {s : List Nat} (h : ∀ x ∈ s, x ≠ 0) : fmt_s s = s := by
  unfold fmt_s
  rw [List.takeWhile_eq_self_iff]
  intro x hx
  simpa using h x hx

theorem strlen_no_nul {s : List Nat} (h : ∀ x ∈ s, x ≠ 0) : strlen s = s.length := by
  have := fmt_s_no_nul h
  unfold fmt_s at this
  unfold strlen
  rw [this]

theorem memcmp_iff (a b : List Nat) :
    (b.length ≠ a.length ∨ a.take a.length ≠ b.take a.length) ↔ a ≠ b := by
  constructor
  · rintro (h | h) hab
    · exact h (by rw [hab])
    · exact h (by rw [hab])
  · intro hab
    by_cases hl : b.length = a.length
    · right
      rw [List.take_length, ← hl, List.take_length]
      exact hab
    · exact Or.inl hl

theorem ip4_cmd_props {y s b : List Nat} (hy : isBytes y) (hs : isBytes s) (hb : isBytes b) :
    (ip4_cmd y s b).length ≤ 52 ∧ ∀ x ∈ ip4_cmd y s b, x ≠ 0 := by
  have ly := dotted_length hy
  have ls := dotted_length hs
  have lb := dotted_length hb
  have ny := dotted_no_nul hy
  have ns := dotted_no_nul hs
  have nb := dotted_no_nul hb
  have c1 : ∀ x ∈ cstr "ip4:", x ≠ 0 := by decide
  have c2 : ∀ x ∈ cstr ",", x ≠ 0 := by decide
  have c3 : ∀ x ∈ cstr ";", x ≠ 0 := by decide
  have l1 : (cstr "ip4:").length = 4 := by decide
  have l2 : (cstr ",").length = 1 := by decide
  have l3 : (cstr ";").length = 1 := by decide
  unfold ip4_cmd
  split
  · refine ⟨by simp only [List.length_append, l1, l2, l3]; omega, ?_⟩
    intro x hx
    simp only [List.mem_append] at hx
    rcases hx with (((((hx | hx) | hx) | hx) | hx) | hx) | hx
    · exact c1 x hx
    · exact ny x hx
    · exact c2 x hx
    · exact ns x hx
    · exact c2 x hx
    · exact nb x hx
    · exact c3 x hx
  · refine ⟨by simp only [List.length_append, l1, l2, l3]; omega, ?_⟩
    intro x hx
    simp only [List.mem_append] at hx
    rcases hx with (((hx | hx) | hx) | hx) | hx
    · exact c1 x hx
    · exact ny x hx
    · exact c2 x hx
    · exact ns x hx
    · exact c3 x hx

theorem digitChar_digit : ∀ k, k < 10 → isDigitByte (Nat.digitChar k).toNat := by
  unfold isDigitByte
  decide

theorem toDigitsCore_digits (fuel : Nat) : ∀ (n : Nat) (ds : List Char),
    (∀ c ∈ ds, isDigitByte c.toNat) →
    ∀ c ∈ Nat.toDigitsCore 10 fuel n ds, isDigitByte c.toNat := by
  induction fuel with
  | zero => intro n ds h; simpa [Nat.toDigitsCore] using h
  | succ fuel ih =>
    intro n ds h
    have hd : isDigitByte (Nat.digitChar (n % 10)).toNat :=
      digitChar_digit _ (Nat.mod_lt _ (by decide))
    have hds : ∀ c ∈ Nat.digitChar (n % 10) :: ds, isDigitByte c.toNat := by
      intro c hc
      rcases List.mem_cons.1 hc with rfl | hc
      · exact hd
      · exact h c hc
    unfold Nat.toDigitsCore
    dsimp only
    split
    · exact hds
    · exact ih _ _ hds

theorem toDigitsCore_length (fuel : Nat) : ∀ (n k : Nat) (ds : List Char),
    n < 10 ^ (k + 1) → n < fuel →
    (Nat.toDigitsCore 10 fuel n ds).length ≤ k + 1 + ds.length := by
  induction fuel with
  | zero => intro n k ds _ h; omega
  | succ fuel ih =>
    intro n k ds hn hf
    unfold Nat.toDigitsCore
    dsimp only
    split
    · simp only [List.length_cons]; omega
    · rename_i h0
      cases k with
      | zero =>
        exfalso; apply h0
        simp only [Nat.zero_add, Nat.pow_one] at hn
        omega
      | succ k =>
        have hn1 : n / 10 < 10 ^ (k + 1) := by
          rw [Nat.div_lt_iff_lt_mul (by decide)]
          rw [Nat.pow_succ] at hn
          exact hn
        have hf1 : n / 10 < fuel := by omega
        have := ih (n / 10) k (Nat.digitChar (n % 10) :: ds) hn1 hf1
        simp only [List.length_cons] at this
        omega

theorem fmt_u_digits (n : Nat) : ∀ x ∈ fmt_u n, isDigitByte x := by
  intro x hx
  simp only [fmt_u, List.mem_map] at hx
  obtain ⟨c, hc, rfl⟩ := hx
  exact toDigitsCore_digits _ _ _ (by simp) c hc

theorem fmt_u_length (n k : Nat) (h : n < 10 ^ (k + 1)) : (fmt_u n).length ≤ k + 1 := by
  have := toDigitsCore_length (n + 1) n k [] h (by omega)
  simpa [fmt_u, Nat.toDigits] using this

theorem fmt_u_no_nul (n : Nat) : ∀ x ∈ fmt_u n, x ≠ 0 := by
  intro x hx
  have := fmt_u_digits n x hx
  unfold isDigitByte at this
  omega

theorem fmt_u_no_semicolon (n : Nat) : (59 : Nat) ∉ fmt_u n := by
  intro hx
  have := fmt_u_digits n 59 hx
  unfold isDigitByte at this
  omega

theorem fmt_precision_s_no_nul {t : List Nat} (h : ∀ x ∈ t, x ≠ 0) :
    fmt_precision_s t.length t = t := by
  unfold fmt_precision_s
  rw [List.take_length, List.takeWhile_eq_self_iff]
  intro x hx
  simpa using h x hx

theorem fmt_precision_s_length (n : Nat) (t : List Nat) : (fmt_precision_s n t).length ≤ n := by
  unfold fmt_precision_s
  calc ((t.take n).takeWhile (· ≠ 0)).length ≤ (t.take n).length :=
        (List.takeWhile_sublist _).length_le
    _ ≤ n := by simp [List.length_take]

/-- The result of `ifcmd_raw` when the command fits the buffer. -/
theorem ifcmd_raw_ok (buf : List Nat) (buflen : Nat) (optname optdata : List Nat) (n : Nat)
    (hname : ∀ x ∈ optname, x ≠ 0)
    (hfit : optname.length + n + 3 ≤ buflen) (hn : (n : Int) ≤ INT_MAX) :
    ifcmd_raw buf buflen optname optdata (n : Int) =
      (((optname ++ cstr ":" ++ fmt_precision_s n optdata ++ cstr ";").length : Int),
        optname ++ cstr ":" ++ fmt_precision_s n optdata ++ cstr ";") := by
  have hl := fmt_precision_s_length n optdata
  have hc1 : (cstr ":").length = 1 := by decide
  have hc2 : (cstr ";").length = 1 := by decide
  have hlen : (optname ++ cstr ":" ++ fmt_precision_s n optdata ++ cstr ";").length < buflen := by
    simp only [List.length_append, hc1, hc2]; omega
  unfold ifcmd_raw
  rw [strlen_no_nul hname, if_neg (by omega), if_neg (by omega)]
  simp only [fmt_s_no_nul hname, Int.toNat_ofNat]
  rw [if_neg (by omega)]
  unfold snprintf_buf
  rw [List.take_of_length_le (by omega)]

/-- The result of `ifcmd_raw` for a text without NUL, passed with its `strlen`. -/
theorem ifcmd_raw_text (buf : List Nat) (buflen : Nat) (optname t : List Nat)
    (hname : ∀ x ∈ optname, x ≠ 0) (ht : ∀ x ∈ t, x ≠ 0)
    (hfit : optname.length + t.length + 3 ≤ buflen) (hn : (t.length : Int) ≤ INT_MAX) :
    ifcmd_raw buf buflen optname t (strlen t) =
      (((optname ++ cstr ":" ++ t ++ cstr ";").length : Int),
        optname ++ cstr ":" ++ t ++ cstr ";") := by
  rw [strlen_no_nul ht, ifcmd_raw_ok buf buflen optname t t.length hname hfit hn,
    fmt_precision_s_no_nul ht]

theorem ifchd_cmd_ip_ok (buf : List Nat) (optname optdata : List Nat)
    (hname : ∀ x ∈ optname, x ≠ 0) (hnl : optname.length ≤ 16)
    (hb : isBytes optdata) (h4 : 4 ≤ optdata.length) :
    ifchd_cmd_ip buf 2048 optname optdata optdata.length =
      (((ifch_command optname (dotted optdata)).length : Int),
        ifch_command optname (dotted optdata)) := by
  have hl := dotted_length hb
  unfold ifchd_cmd_ip
  rw [if_neg (by omega), inet_ntop_bytes hb]
  dsimp only
  rw [ifcmd_raw_text buf 2048 optname (dotted optdata) hname (dotted_no_nul hb) (by omega)
    (by simp only [INT_MAX]; omega)]
  rfl

theorem ip4_cmd_classc_props {y b : List Nat} (hy : isBytes y) (hb : isBytes b) :
    (ip4_cmd_classc y b).length ≤ 52 ∧ ∀ x ∈ ip4_cmd_classc y b, x ≠ 0 := by
  have ly := dotted_length hy
  have lb := dotted_length hb
  have ny := dotted_no_nul hy
  have nb := dotted_no_nul hb
  have c1 : ∀ x ∈ cstr "ip4:", x ≠ 0 := by decide
  have c2 : ∀ x ∈ cstr ",", x ≠ 0 := by decide
  have c3 : ∀ x ∈ cstr ";", x ≠ 0 := by decide
  have c4 : ∀ x ∈ cstr "255.255.255.0", x ≠ 0 := by decide
  have l1 : (cstr "ip4:").length = 4 := by decide
  have l2 : (cstr ",").length = 1 := by decide
  have l3 : (cstr ";").length = 1 := by decide
  have l4 : (cstr "255.255.255.0").length = 13 := by decide
  unfold ip4_cmd_classc
  split
  · refine ⟨by simp only [List.length_append, l1, l2, l3, l4]; omega, ?_⟩
    intro x hx
    simp only [List.mem_append] at hx
    rcases hx with (((((hx | hx) | hx) | hx) | hx) | hx) | hx
    · exact c1 x hx
    · exact ny x hx
    · exact c2 x hx
    · exact c4 x hx
    · exact c2 x hx
    · exact nb x hx
    · exact c3 x hx
  · refine ⟨by simp only [List.length_append, l1, l2, l3, l4]; omega, ?_⟩
    intro x hx
    simp only [List.mem_append] at hx
    rcases hx with (((hx | hx) | hx) | hx) | hx
    · exact c1 x hx
    · exact ny x hx
    · exact c2 x hx
    · exact c4 x hx
    · exact c3 x hx

theorem cmd_keys_no_nul :
    (∀ x ∈ CMD_ROUTER, x ≠ 0) ∧ (∀ x ∈ CMD_HOSTNAME, x ≠ 0) ∧ (∀ x ∈ CMD_DOMAIN, x ≠ 0) ∧
    (∀ x ∈ CMD_TIMEZONE, x ≠ 0) ∧ (∀ x ∈ CMD_MTU, x ≠ 0) ∧ (∀ x ∈ CMD_IPTTL, x ≠ 0) := by
  decide

theorem dotted_no_semicolon (a : List Nat) : (59 : Nat) ∉ dotted a := by
  have hdot : (59 : Nat) ∉ cstr "." := by decide
  simp only [dotted, List.mem_append, not_or]
  exact ⟨⟨⟨⟨⟨⟨fmt_u_no_semicolon _, hdot⟩, fmt_u_no_semicolon _⟩, hdot⟩,
    fmt_u_no_semicolon _⟩, hdot⟩, fmt_u_no_semicolon _⟩

theorem ntohs_at_lt {a : List Nat} (h : isBytes a) : ntohs_at a < 10 ^ 5 := by
  have h0 := getD_isBytes h 0
  have h1 := getD_isBytes h 1
  unfold ntohs_at
  generalize a.getD 0 0 = x0 at h0 ⊢
  generalize a.getD 1 0 = x1 at h1 ⊢
  omega

theorem ntohl_at_lt {a : List Nat} (h : isBytes a) : ntohl_at a < 2 ^ 32 := by
  have h0 := getD_isBytes h 0
  have h1 := getD_isBytes h 1
  have h2 := getD_isBytes h 2
  have h3 := getD_isBytes h 3
  unfold ntohl_at
  generalize a.getD 0 0 = x0 at h0 ⊢
  generalize a.getD 1 0 = x1 at h1 ⊢
  generalize a.getD 2 0 = x2 at h2 ⊢
  generalize a.getD 3 0 = x3 at h3 ⊢
  omega

theorem fmt_d_props (v : Int) (hlo : -(2 ^ 31) ≤ v) (hhi : v < 2 ^ 31) :
    (fmt_d v).length ≤ 11 ∧ (∀ x ∈ fmt_d v, x ≠ 0) ∧ (59 : Nat) ∉ fmt_d v := by
  have habs : v.natAbs < 10 ^ (9 + 1) := by
    norm_num at hlo hhi ⊢
    omega
  have hl := fmt_u_length v.natAbs 9 habs
  have hminus : cstr "-" = [45] := by decide
  unfold fmt_d
  split
  · refine ⟨by simp only [List.length_append, hminus, List.length_singleton]; omega, ?_, ?_⟩
    · intro x hx
      simp only [hminus, List.mem_append, List.mem_singleton] at hx
      rcases hx with rfl | hx
      · decide
      · exact fmt_u_no_nul _ x hx
    · simp only [hminus, List.mem_append, List.mem_singleton, not_or]
      exact ⟨by decide, fmt_u_no_semicolon _⟩
  · exact ⟨by omega, fmt_u_no_nul _, fmt_u_no_semicolon _⟩

theorem to_int32_range (x : Int) : -(2 ^ 31) ≤ to_int32 x ∧ to_int32 x < 2 ^ 31 := by
  unfold to_int32
  norm_num
  omega

theorem ifchd_cmd_u16_ok (buf : List Nat) (optname optdata : List Nat)
    (hname : ∀ x ∈ optname, x ≠ 0) (hnl : optname.length ≤ 16)
    (hb : isBytes optdata) (h2 : 2 ≤ optdata.length) :
    ifchd_cmd_u16 buf 2048 optname optdata optdata.length =
      (((ifch_command optname (fmt_u (ntohs_at optdata))).length : Int),
        ifch_command optname (fmt_u (ntohs_at optdata))) := by
  have hl := fmt_u_length (ntohs_at optdata) 4 (ntohs_at_lt hb)
  have hsn : snprintf_buf 16 (fmt_u (ntohs_at optdata)) = fmt_u (ntohs_at optdata) := by
    unfold snprintf_buf
    rw [List.take_of_length_le (by omega)]
  unfold ifchd_cmd_u16
  rw [if_neg (by omega)]
  dsimp only
  rw [if_neg (by omega), hsn,
    ifcmd_raw_text buf 2048 optname _ hname (fmt_u_no_nul _) (by omega)
      (by simp only [INT_MAX]; omega)]
  rfl

theorem ifchd_cmd_s32_ok (buf : List Nat) (optname optdata : List Nat)
    (hname : ∀ x ∈ optname, x ≠ 0) (hnl : optname.length ≤ 16)
    (h4 : 4 ≤ optdata.length) :
    ifchd_cmd_s32 buf 2048 optname optdata optdata.length =
      (((ifch_command optname (fmt_d (to_int32 (ntohl_at optdata)))).length : Int),
        ifch_command optname (fmt_d (to_int32 (ntohl_at optdata)))) := by
  obtain ⟨hlo, hhi⟩ := to_int32_range (ntohl_at optdata)
  obtain ⟨hl, hnul, _⟩ := fmt_d_props _ hlo hhi
  have hsn : snprintf_buf 16 (fmt_d (to_int32 (ntohl_at optdata)))
      = fmt_d (to_int32 (ntohl_at optdata)) := by
    unfold snprintf_buf
    rw [List.take_of_length_le (by omega)]
  unfold ifchd_cmd_s32
  rw [if_neg (by omega)]
  dsimp only
  rw [if_neg (by omega), hsn,
    ifcmd_raw_text buf 2048 optname _ hname hnul (by omega) (by simp only [INT_MAX]; omega)]
  rfl

theorem ifchd_cmd_bytes_ok (buf : List Nat) (optname optdata : List Nat)
    (hname : ∀ x ∈ optname, x ≠ 0) (hnl : optname.length ≤ 5)
    (hlen : optdata.length ≤ 2040) :
    ifchd_cmd_bytes buf 2048 optname optdata optdata.length =
      (((ifch_command optname (optdata.takeWhile (· ≠ 0))).length : Int),
        ifch_command optname (optdata.takeWhile (· ≠ 0))) := by
  unfold ifchd_cmd_bytes
  rw [ifcmd_raw_ok buf 2048 optname optdata optdata.length hname (by omega)
    (by simp only [INT_MAX]; omega)]
  simp only [fmt_precision_s, List.take_length]
  rfl

theorem send_client_ip_congr (g1 g2 : dhcpmsg → Nat → List Nat)
    (hs : ∀ p, g1 p DCODE_SUBNET = g2 p DCODE_SUBNET)
    (hb : ∀ p, g1 p DCODE_BROADCAST = g2 p DCODE_BROADCAST)
    (cfg : dhcpmsg) (out : List Nat) (olen : Nat) (pkt : dhcpmsg) :
    send_client_ip g1 cfg out olen pkt = send_client_ip g2 cfg out olen pkt := by
  simp only [send_client_ip, hs, hb]

theorem send_cmd_congr (g1 g2 : dhcpmsg → Nat → List Nat) (code : Nat)
    (h : ∀ p, g1 p code = g2 p code)
    (cfg : dhcpmsg) (out : List Nat) (olen : Nat) (pkt : Option dhcpmsg) :
    send_cmd g1 cfg out olen pkt code = send_cmd g2 cfg out olen pkt code := by
  cases pkt with
  | none => rfl
  | some p => simp only [send_cmd, h]

/-- A packet whose `yiaddr` and subnet option equal the cached ones and which carries no
broadcast option of at least 4 bytes makes `send_client_ip` return 0 with the buffer
untouched. -/
theorem send_client_ip_silent (gdo : dhcpmsg → Nat → List Nat) (cfg pkt : dhcpmsg)
    (out : List Nat) (olen : Nat) (hy : pkt.yiaddr = cfg.yiaddr)
    (hs : gdo pkt DCODE_SUBNET = gdo cfg DCODE_SUBNET)
    (hb : (gdo pkt DCODE_BROADCAST).length < 4) :
    send_client_ip gdo cfg out olen pkt = (0, out) := by
  have hnb : ¬ 4 ≤ (gdo pkt DCODE_BROADCAST).length := by omega
  unfold send_client_ip
  simp [hy, hs, hnb]

/-- After `ifchange_bind` the flag `ifchWorking` has its old value or is 1. -/
theorem ifchange_bind_working (gdo : dhcpmsg → Nat → List Nat) (st : IfchState)
    (packet : Option dhcpmsg) :
    (ifchange_bind gdo st packet).cs.ifchWorking = st.cs.ifchWorking ∨
      (ifchange_bind gdo st packet).cs.ifchWorking = 1 := by
  cases packet with
  | none => exact Or.inl rfl
  | some pkt =>
    simp only [ifchange_bind]
    split
    · exact Or.inr rfl
    · exact Or.inl rfl

/-- After `ifchange_deconfig` the flag `ifchWorking` has its old value or is 1. -/
theorem ifchange_deconfig_working (st : IfchState) :
    (ifchange_deconfig st).cs.ifchWorking = st.cs.ifchWorking ∨
      (ifchange_deconfig st).cs.ifchWorking = 1 := by
  simp only [ifchange_deconfig]
  split
  · exact Or.inl rfl
  · exact Or.inr rfl

/-! ## Lemmas about link messages -/

theorem nl_process_newlink_eq (st : NlState) (m : nl_link_msg)
    (hidx : m.ifi_index = st.client_config.ifindex) :
    nl_process_newlink st m = .returns (link_applied st m.ifi_flags) := by
  obtain ⟨⟨w, dc, prev⟩, cfg, acts⟩ := st
  simp only at hidx
  simp only [nl_process_newlink, hidx, ne_eq, not_true_eq_false, if_false, link_applied,
    link_state_of_flags, link_action_of_flags]
  by_cases hup : m.ifi_flags &&& IFF_UP = 0
  · simp only [hup, not_true_eq_false, if_false]
    by_cases hp : prev = .IFS_SHUT
    · simp [hp]
    · simp [hp]
  · simp only [hup, not_false_eq_true, if_true]
    by_cases hrun : m.ifi_flags &&& IFF_RUNNING = 0
    · simp only [hrun, not_true_eq_false, if_false]
      by_cases hp : prev = .IFS_DOWN
      · simp [hp]
      · simp [hp]
    · simp only [hrun, not_false_eq_true, if_true]
      by_cases hp : prev = .IFS_UP
      · simp [hp]
      · simp [hp]

theorem link_applied_twice (st : NlState) (flags : Nat) :
    link_applied (link_applied st flags) flags = link_applied st flags := by
  simp [link_applied]

/-! ## Termination of `get_option` -/

theorem get_option_loop_log_fst (p : dhcpmsg) (code : Int) (fuel : Nat) :
    ∀ (f : Field) (off : Nat) (rem : Int) (ov : Nat) (log : ScanLog),
      (get_option_loop_log p code fuel f off rem ov log).map Prod.fst
        = get_option_loop p code fuel f off rem ov := by
  induction fuel with
  | zero => intro f off rem ov log; rfl
  | succ fuel ih =>
    intro f off rem ov log
    rw [get_option_loop_log, get_option_loop]
    split
    · rfl
    · split
      · exact ih _ _ _ _ _
      · split
        · split
          · exact ih _ _ _ _ _
          · split
            · exact ih _ _ _ _ _
            · rfl
        · dsimp only
          split
          · exact ih _ _ _ _ _
          · split
            · rfl
            · split
              · rw [ih]
              · rw [ih]

theorem file_cond_bit {ov : Nat} (h : ov &&& FILE_FIELD101 = FILE_FIELD) :
    ov.testBit 8 = false := by
  have := congrArg (fun n => n.testBit 8) h
  simp only [Nat.testBit_and] at this
  have h1 : FILE_FIELD101.testBit 8 = true := by decide
  have h2 : FILE_FIELD.testBit 8 = false := by decide
  rw [h1, h2] at this
  simpa using this

theorem sname_cond_bit {ov : Nat} (h : ov &&& SNAME_FIELD101 = SNAME_FIELD) :
    ov.testBit 9 = false := by
  have := congrArg (fun n => n.testBit 9) h
  simp only [Nat.testBit_and] at this
  have h1 : SNAME_FIELD101.testBit 9 = true := by decide
  have h2 : SNAME_FIELD.testBit 9 = false := by decide
  rw [h1, h2] at this
  simpa using this

theorem or_file_bits (ov : Nat) :
    (ov ||| FILE_FIELD101).testBit 8 = true ∧
    (ov ||| FILE_FIELD101).testBit 9 = ov.testBit 9 := by
  have h1 : FILE_FIELD101.testBit 8 = true := by decide
  have h2 : FILE_FIELD101.testBit 9 = false := by decide
  simp [Nat.testBit_or, h1, h2]

theorem or_sname_bits (ov : Nat) :
    (ov ||| SNAME_FIELD101).testBit 9 = true ∧
    (ov ||| SNAME_FIELD101).testBit 8 = ov.testBit 8 := by
  have h1 : SNAME_FIELD101.testBit 9 = true := by decide
  have h2 : SNAME_FIELD101.testBit 8 = false := by decide
  simp [Nat.testBit_or, h1, h2]

theorem scan_bound_or_le (rem : Int) (ov x : Nat) :
    scan_bound rem (ov ||| x) ≤ scan_bound rem ov := by
  unfold scan_bound
  simp only [Nat.testBit_or]
  cases ov.testBit 8 <;> cases ov.testBit 9 <;> cases x.testBit 8 <;> cases x.testBit 9 <;>
    simp only [Bool.or_true, Bool.or_false, Bool.true_or, Bool.false_or, if_true, if_false,
      Bool.false_eq_true] <;> omega

theorem count_bit_or_le (ov x k : Nat) :
    (if (ov ||| x).testBit k then 0 else 1) ≤ (if ov.testBit k then 0 else 1) := by
  simp only [Nat.testBit_or]
  cases ov.testBit k <;> cases x.testBit k <;> simp

/-- The loop of `get_option` returns when it has `scan_bound` iterations at its disposal;
from a state in which bit 8 (bit 9) of `overload` is set it never switches to `file`
(`sname`), and from any state it switches to each at most once. -/
theorem get_option_loop_log_total (p : dhcpmsg) (code : Int) (fuel : Nat) :
    ∀ (f : Field) (off : Nat) (rem : Int) (ov : Nat) (log : ScanLog),
      scan_bound rem ov ≤ fuel →
      ∃ r log1, get_option_loop_log p code fuel f off rem ov log = some (r, log1) ∧
        log1.starts.count .FILE_FIELD
          ≤ log.starts.count .FILE_FIELD + (if ov.testBit 8 then 0 else 1) ∧
        log1.starts.count .SNAME_FIELD
          ≤ log.starts.count .SNAME_FIELD + (if ov.testBit 9 then 0 else 1) := by
  induction fuel with
  | zero =>
    intro f off rem ov log h
    unfold scan_bound at h
    omega
  | succ fuel ih =>
    intro f off rem ov log h
    rw [get_option_loop_log]
    by_cases hrem : rem ≤ 0
    · rw [if_pos hrem]
      exact ⟨_, _, rfl, by omega, by omega⟩
    · rw [if_neg hrem]
      dsimp only
      by_cases hpad : rd p f off OPT_CODE = DHCP_PADDING
      · rw [if_pos hpad]
        obtain ⟨r, log1, h1, h2, h3⟩ := ih f (off + 1) (rem - 1) ov
          { log with reads := log.reads ++ [(f, off + OPT_CODE)] }
          (by unfold scan_bound at h ⊢; omega)
        exact ⟨r, log1, h1, h2, h3⟩
      · rw [if_neg hpad]
        by_cases hend : rd p f off OPT_CODE = DHCP_END
        · rw [if_pos hend]
          by_cases hfile : ov &&& FILE_FIELD101 = FILE_FIELD
          · rw [if_pos hfile]
            have hb := file_cond_bit hfile
            obtain ⟨hb8, hb9⟩ := or_file_bits ov
            obtain ⟨r, log1, h1, h2, h3⟩ := ih .FILE_FIELD 0 DHCP_FILE_SIZE
              (ov ||| FILE_FIELD101)
              { reads := log.reads ++ [(f, off + OPT_CODE)],
                starts := log.starts ++ [.FILE_FIELD], overloads := log.overloads, causes := log.causes ++ [(.FILE_FIELD, log.overloads)] }
              (by
                unfold scan_bound at h ⊢
                rw [hb8, hb9]
                rw [hb] at h
                simp only [DHCP_FILE_SIZE, DHCP_SNAME_SIZE] at h ⊢
                split at h <;> simp_all; omega)
            refine ⟨r, log1, h1, ?_, ?_⟩
            · rw [hb8] at h2
              rw [hb]
              simpa using h2
            · rw [hb9] at h3
              simpa using h3
          · rw [if_neg hfile]
            by_cases hsname : ov &&& SNAME_FIELD101 = SNAME_FIELD
            · rw [if_pos hsname]
              have hb := sname_cond_bit hsname
              obtain ⟨hb9, hb8⟩ := or_sname_bits ov
              obtain ⟨r, log1, h1, h2, h3⟩ := ih .SNAME_FIELD 0 DHCP_SNAME_SIZE
                (ov ||| SNAME_FIELD101)
                { reads := log.reads ++ [(f, off + OPT_CODE)],
                  starts := log.starts ++ [.SNAME_FIELD], overloads := log.overloads, causes := log.causes ++ [(.SNAME_FIELD, log.overloads)] }
                (by
                  unfold scan_bound at h ⊢
                  rw [hb8, hb9]
                  rw [hb] at h
                  simp only [DHCP_FILE_SIZE, DHCP_SNAME_SIZE] at h ⊢
                  split at h <;> simp_all <;> omega)
              refine ⟨r, log1, h1, ?_, ?_⟩
              · rw [hb8] at h2
                simpa using h2
              · rw [hb9] at h3
                rw [hb]
                simpa using h3
            · rw [if_neg hsname]
              exact ⟨_, _, rfl, by simp, by simp⟩
        · rw [if_neg hend]
          by_cases hneg : rem - ((2 + rd p f off OPT_LEN : Nat) : Int) < 0
          · rw [if_pos hneg]
            obtain ⟨r, log1, h1, h2, h3⟩ := ih f off
              (rem - ((2 + rd p f off OPT_LEN : Nat) : Int)) ov
              { reads := log.reads ++ [(f, off + OPT_CODE)] ++ [(f, off + OPT_LEN)],
                starts := log.starts, overloads := log.overloads, causes := log.causes }
              (by unfold scan_bound at h ⊢; omega)
            exact ⟨r, log1, h1, h2, h3⟩
          · rw [if_neg hneg]
            by_cases hcode : (rd p f off OPT_CODE : Int) = code
            · rw [if_pos hcode]
              exact ⟨_, _, rfl, by simp, by simp⟩
            · rw [if_neg hcode]
              by_cases hov : rd p f off OPT_CODE = DHCP_OPTION_OVERLOAD
              · rw [if_pos hov]
                have hle := scan_bound_or_le (rem - ((2 + rd p f off OPT_LEN : Nat) : Int)) ov
                  (rd p f off OPT_DATA)
                obtain ⟨r, log1, h1, h2, h3⟩ := ih f (off + (2 + rd p f off OPT_LEN))
                  (rem - ((2 + rd p f off OPT_LEN : Nat) : Int)) (ov ||| rd p f off OPT_DATA)
                  { reads := log.reads ++ [(f, off + OPT_CODE)] ++ [(f, off + OPT_LEN)]
                      ++ [(f, off + OPT_DATA)],
                    starts := log.starts,
                    overloads := log.overloads ++ [rd p f off OPT_DATA], causes := log.causes }
                  (by
                    have : scan_bound (rem - ((2 + rd p f off OPT_LEN : Nat) : Int)) ov
                        < scan_bound rem ov := by
                      unfold scan_bound; omega
                    omega)
                have c8 := count_bit_or_le ov (rd p f off OPT_DATA) 8
                have c9 := count_bit_or_le ov (rd p f off OPT_DATA) 9
                exact ⟨r, log1, h1, by simp only at h2 ⊢; omega, by simp only at h3 ⊢; omega⟩
              · rw [if_neg hov]
                obtain ⟨r, log1, h1, h2, h3⟩ := ih f (off + (2 + rd p f off OPT_LEN))
                  (rem - ((2 + rd p f off OPT_LEN : Nat) : Int)) ov
                  { reads := log.reads ++ [(f, off + OPT_CODE)] ++ [(f, off + OPT_LEN)],
                    starts := log.starts, overloads := log.overloads, causes := log.causes }
                  (by unfold scan_bound at h ⊢; omega)
                exact ⟨r, log1, h1, h2, h3⟩

theorem get_option_loop_mono (p : dhcpmsg) (code : Int) (fuel : Nat) :
    ∀ (f : Field) (off : Nat) (rem : Int) (ov : Nat) (r : Option OptPtr) (k : Nat),
      get_option_loop p code fuel f off rem ov = some r →
      get_option_loop p code (fuel + k) f off rem ov = some r := by
  induction fuel with
  | zero => intro f off rem ov r k h; simp [get_option_loop] at h
  | succ fuel ih =>
    intro f off rem ov r k h
    rw [show fuel + 1 + k = (fuel + k) + 1 by omega]
    rw [get_option_loop] at h ⊢
    split
    · rename_i h1; rw [if_pos h1] at h; exact h
    · rename_i h1; rw [if_neg h1] at h
      split
      · rename_i h2; rw [if_pos h2] at h; exact ih _ _ _ _ _ _ h
      · rename_i h2; rw [if_neg h2] at h
        split
        · rename_i h3; rw [if_pos h3] at h
          split
          · rename_i h4; rw [if_pos h4] at h; exact ih _ _ _ _ _ _ h
          · rename_i h4; rw [if_neg h4] at h
            split
            · rename_i h5; rw [if_pos h5] at h; exact ih _ _ _ _ _ _ h
            · rename_i h5; rw [if_neg h5] at h; exact h
        · rename_i h3; rw [if_neg h3] at h
          dsimp only at h ⊢
          split
          · rename_i h4; rw [if_pos h4] at h; exact ih _ _ _ _ _ _ h
          · rename_i h4; rw [if_neg h4] at h
            split
            · rename_i h5; rw [if_pos h5] at h; exact h
            · rename_i h5; rw [if_neg h5] at h; exact ih _ _ _ _ _ _ h

theorem get_option_loop_total (p : dhcpmsg) (code : Int) (fuel : Nat) (f : Field) (off : Nat)
    (rem : Int) (ov : Nat) (h : scan_bound rem ov ≤ fuel) :
    ∃ r, get_option_loop p code fuel f off rem ov = some r := by
  obtain ⟨r, log1, h1, _, _⟩ :=
    get_option_loop_log_total p code fuel f off rem ov { reads := [], starts := [], overloads := [], causes := [] } h
  refine ⟨r, ?_⟩
  rw [← get_option_loop_log_fst p code fuel f off rem ov { reads := [], starts := [], overloads := [], causes := [] }, h1]
  rfl

/-- Two runs of the loop from the same state with enough fuel agree. -/
theorem get_option_loop_fuel_irrel (p : dhcpmsg) (code : Int) (n m : Nat) (f : Field)
    (off : Nat) (rem : Int) (ov : Nat) (hn : scan_bound rem ov ≤ n)
    (hm : scan_bound rem ov ≤ m) :
    get_option_loop p code n f off rem ov = get_option_loop p code m f off rem ov := by
  obtain ⟨r, hr⟩ := get_option_loop_total p code (scan_bound rem ov) f off rem ov (Nat.le_refl _)
  have e1 := get_option_loop_mono p code _ f off rem ov r (n - scan_bound rem ov) hr
  have e2 := get_option_loop_mono p code _ f off rem ov r (m - scan_bound rem ov) hr
  rw [show scan_bound rem ov + (n - scan_bound rem ov) = n by omega] at e1
  rw [show scan_bound rem ov + (m - scan_bound rem ov) = m by omega] at e2
  rw [e1, e2]

theorem file_cond_bit0 {ov : Nat} (h : ov &&& FILE_FIELD101 = FILE_FIELD) :
    ov.testBit 0 = true := by
  have := congrArg (fun n => n.testBit 0) h
  simp only [Nat.testBit_and] at this
  have h1 : FILE_FIELD101.testBit 0 = true := by decide
  have h2 : FILE_FIELD.testBit 0 = true := by decide
  rw [h1, h2] at this
  simpa using this

theorem sname_cond_bit1 {ov : Nat} (h : ov &&& SNAME_FIELD101 = SNAME_FIELD) :
    ov.testBit 1 = true := by
  have := congrArg (fun n => n.testBit 1) h
  simp only [Nat.testBit_and] at this
  have h1 : SNAME_FIELD101.testBit 1 = true := by decide
  have h2 : SNAME_FIELD.testBit 1 = true := by decide
  rw [h1, h2] at this
  simpa using this

/-- A switch to `file` (`sname`) is caused by a byte with bit 0 (bit 1) set that was ORed
into `overload` before the switch. -/
theorem get_option_loop_log_cause (p : dhcpmsg) (code : Int) (fuel : Nat) :
    ∀ (f : Field) (off : Nat) (rem : Int) (ov : Nat) (log : ScanLog) (r : Option OptPtr)
      (log1 : ScanLog),
      (ov.testBit 0 = true → ov.testBit 8 = true ∨ ∃ v ∈ log.overloads, v.testBit 0 = true) →
      (ov.testBit 1 = true → ov.testBit 9 = true ∨ ∃ v ∈ log.overloads, v.testBit 1 = true) →
      get_option_loop_log p code fuel f off rem ov log = some (r, log1) →
      (∀ c ∈ log1.causes, c ∈ log.causes ∨
        (c.1 = .FILE_FIELD ∧ ∃ v ∈ c.2, v.testBit 0 = true) ∨
        (c.1 = .SNAME_FIELD ∧ ∃ v ∈ c.2, v.testBit 1 = true)) ∧
      (log.starts = log.causes.map Prod.fst → log1.starts = log1.causes.map Prod.fst) := by
  induction fuel with
  | zero => intro f off rem ov log r log1 _ _ h; simp [get_option_loop_log] at h
  | succ fuel ih =>
    intro f off rem ov log r log1 i0 i1 h
    rw [get_option_loop_log] at h
    by_cases hrem : rem ≤ 0
    · rw [if_pos hrem] at h
      simp only [Option.some.injEq, Prod.mk.injEq] at h
      obtain ⟨_, rfl⟩ := h
      exact ⟨fun c hc => Or.inl hc, id⟩
    · rw [if_neg hrem] at h
      dsimp only at h
      by_cases hpad : rd p f off OPT_CODE = DHCP_PADDING
      · rw [if_pos hpad] at h
        exact (by have hh := ih _ _ _ _ _ _ _ (by exact i0) (by exact i1) h; exact hh)
      · rw [if_neg hpad] at h
        by_cases hend : rd p f off OPT_CODE = DHCP_END
        · rw [if_pos hend] at h
          by_cases hfile : ov &&& FILE_FIELD101 = FILE_FIELD
          · rw [if_pos hfile] at h
            have hb0 := file_cond_bit0 hfile
            have hb8 := file_cond_bit hfile
            obtain ⟨n8, n9⟩ := or_file_bits ov
            have n1 : (ov ||| FILE_FIELD101).testBit 1 = ov.testBit 1 := by
              have : FILE_FIELD101.testBit 1 = false := by decide
              rw [Nat.testBit_or, this, Bool.or_false]
            have hv : ∃ v ∈ log.overloads, v.testBit 0 = true := by
              rcases i0 hb0 with h8 | hv
              · rw [hb8] at h8; cases h8
              · exact hv
            obtain ⟨c1, c2⟩ := ih _ _ _ _ _ _ _ (fun _ => Or.inl n8)
              (by rw [n1, n9]; exact i1) h
            refine ⟨?_, fun hs => c2 (by simp [hs])⟩
            intro c hc
            rcases c1 c hc with h' | h'
            · simp only [List.mem_append, List.mem_singleton] at h'
              rcases h' with h' | h'
              · exact Or.inl h'
              · subst h'; exact Or.inr (Or.inl ⟨rfl, hv⟩)
            · exact Or.inr h'
          · rw [if_neg hfile] at h
            by_cases hsname : ov &&& SNAME_FIELD101 = SNAME_FIELD
            · rw [if_pos hsname] at h
              have hb1 := sname_cond_bit1 hsname
              have hb9 := sname_cond_bit hsname
              obtain ⟨n9, n8⟩ := or_sname_bits ov
              have n0 : (ov ||| SNAME_FIELD101).testBit 0 = ov.testBit 0 := by
                have : SNAME_FIELD101.testBit 0 = false := by decide
                rw [Nat.testBit_or, this, Bool.or_false]
              have hv : ∃ v ∈ log.overloads, v.testBit 1 = true := by
                rcases i1 hb1 with h9 | hv
                · rw [hb9] at h9; cases h9
                · exact hv
              obtain ⟨c1, c2⟩ := ih _ _ _ _ _ _ _ (by rw [n0, n8]; exact i0)
                (fun _ => Or.inl n9) h
              refine ⟨?_, fun hs => c2 (by simp [hs])⟩
              intro c hc
              rcases c1 c hc with h' | h'
              · simp only [List.mem_append, List.mem_singleton] at h'
                rcases h' with h' | h'
                · exact Or.inl h'
                · subst h'; exact Or.inr (Or.inr ⟨rfl, hv⟩)
              · exact Or.inr h'
            · rw [if_neg hsname] at h
              simp only [Option.some.injEq, Prod.mk.injEq] at h
              obtain ⟨_, rfl⟩ := h
              exact ⟨fun c hc => Or.inl hc, id⟩
        · rw [if_neg hend] at h
          by_cases hneg : rem - ((2 + rd p f off OPT_LEN : Nat) : Int) < 0
          · rw [if_pos hneg] at h
            exact (by have hh := ih _ _ _ _ _ _ _ (by exact i0) (by exact i1) h; exact hh)
          · rw [if_neg hneg] at h
            by_cases hcode : (rd p f off OPT_CODE : Int) = code
            · rw [if_pos hcode] at h
              simp only [Option.some.injEq, Prod.mk.injEq] at h
              obtain ⟨_, rfl⟩ := h
              exact ⟨fun c hc => Or.inl hc, id⟩
            · rw [if_neg hcode] at h
              by_cases hov : rd p f off OPT_CODE = DHCP_OPTION_OVERLOAD
              · rw [if_pos hov] at h
                have key : ∀ k j : Nat,
                    (ov.testBit k = true → ov.testBit j = true ∨
                      ∃ v ∈ log.overloads, v.testBit k = true) →
                    ((ov ||| rd p f off OPT_DATA).testBit k = true →
                      (ov ||| rd p f off OPT_DATA).testBit j = true ∨
                      ∃ v ∈ log.overloads ++ [rd p f off OPT_DATA], v.testBit k = true) := by
                  intro k j hi hk
                  simp only [Nat.testBit_or, Bool.or_eq_true] at hk ⊢
                  rcases hk with hk | hk
                  · rcases hi hk with h' | ⟨v, hv, hvb⟩
                    · exact Or.inl (Or.inl h')
                    · exact Or.inr ⟨v, List.mem_append_left _ hv, hvb⟩
                  · exact Or.inr ⟨_, by simp, hk⟩
                exact (by have hh := ih _ _ _ _ _ _ _ (key 0 8 i0) (key 1 9 i1) h; exact hh)
              · rw [if_neg hov] at h
                exact (by have hh := ih _ _ _ _ _ _ _ (by exact i0) (by exact i1) h; exact hh)

/-- The function `get_option` returns on every packet; its record shows at most one switch to
each of `file` and `sname`, and every switch has a cause among the bytes ORed before it. -/
theorem get_option_log_total (p : dhcpmsg) (code : Int) :
    ∃ r log, get_option_log p code = some (r, log) ∧ get_option p code = some r ∧
      log.starts.count .FILE_FIELD ≤ 1 ∧ log.starts.count .SNAME_FIELD ≤ 1 ∧
      log.starts = log.causes.map Prod.fst ∧
      ∀ c ∈ log.causes,
        (c.1 = .FILE_FIELD ∧ ∃ v ∈ c.2, v.testBit 0 = true) ∨
        (c.1 = .SNAME_FIELD ∧ ∃ v ∈ c.2, v.testBit 1 = true) := by
  obtain ⟨r, log1, h1, h2, h3⟩ := get_option_loop_log_total p code get_option_fuel
    .OPTION_FIELD 0 DHCP_OPTIONS_BUFSIZE 0
    { reads := [], starts := [], overloads := [], causes := [] } (by decide)
  have hc := get_option_loop_log_cause p code get_option_fuel .OPTION_FIELD 0
    DHCP_OPTIONS_BUFSIZE 0 { reads := [], starts := [], overloads := [], causes := [] } r log1
    (by intro h; simp at h) (by intro h; simp at h) h1
  refine ⟨r, log1, h1, ?_, by simpa using h2, by simpa using h3, hc.2 rfl, ?_⟩
  · have := get_option_loop_log_fst p code get_option_fuel .OPTION_FIELD 0
      DHCP_OPTIONS_BUFSIZE 0 { reads := [], starts := [], overloads := [], causes := [] }
    rw [h1] at this
    exact this.symm
  · intro c hc1
    rcases hc.1 c hc1 with h' | h'
    · simp at h'
    · exact h'

theorem ovl_none (items : List Item) (rest : List Nat)
    (h : ∀ d, Item.opt DHCP_OPTION_OVERLOAD d ∉ items) : ovl items rest = 0 := by
  induction items with
  | nil => rfl
  | cons it is ih =>
    have ih1 := ih (fun d hd => h d (List.mem_cons_of_mem _ hd))
    cases it with
    | pad => simpa [ovl] using ih1
    | opt k d =>
      have hk : k ≠ DHCP_OPTION_OVERLOAD := by
        intro hk; subst hk; exact h d (List.mem_cons_self _ _)
      simp [ovl, hk, ih1]

theorem ovl_all (items : List Item) (rest : List Nat) (v : Nat)
    (h : ∀ d, Item.opt DHCP_OPTION_OVERLOAD d ∈ items → d = [v]) :
    ovl items rest = 0 ∨ ovl items rest = v := by
  induction items with
  | nil => exact Or.inl rfl
  | cons it is ih =>
    have ih1 := ih (fun d hd => h d (List.mem_cons_of_mem _ hd))
    cases it with
    | pad => simpa [ovl] using ih1
    | opt k d =>
      by_cases hk : k = DHCP_OPTION_OVERLOAD
      · subst hk
        have hd := h d (List.mem_cons_self _ _)
        subst hd
        rcases ih1 with h0 | h0 <;> simp [ovl, h0]
      · simpa [ovl, hk] using ih1

theorem ser_replicate_pad (k : Nat) :
    ser (List.replicate k Item.pad) = List.replicate k DHCP_PADDING := by
  induction k with
  | zero => rfl
  | succ k ih => simp [List.replicate_succ, ser, Item.bytes, ih]

theorem findOpt_pads (c : Int) (k : Nat) (items : List Item) :
    findOpt c (List.replicate k Item.pad ++ items)
      = (findOpt c items).map (fun r => (r.1 + k, r.2)) := by
  induction k with
  | zero => simp
  | succ k ih =>
    rw [List.replicate_succ, List.cons_append, findOpt, ih, Option.map_map]
    cases findOpt c items with
    | none => rfl
    | some r => simp [Nat.add_assoc]

theorem ovl_pads (k : Nat) (items : List Item) (rest : List Nat) :
    ovl (List.replicate k Item.pad ++ items) rest = ovl items rest := by
  induction k with
  | zero => simp
  | succ k ih => simpa [List.replicate_succ, ovl] using ih

theorem ovl_rest (items : List Item) (x : Nat) (t1 t2 : List Nat) :
    ovl items (x :: t1) = ovl items (x :: t2) := by
  induction items with
  | nil => rfl
  | cons it is ih =>
    cases it with
    | pad => simpa [ovl] using ih
    | opt k d =>
      simp only [ovl, ih]
      congr 2
      cases h : d ++ ser is with
      | nil => simp
      | cons a l => simp

/-- Once the loop of `get_option` scans `file` or `sname`, the options region plays no part:
the result is the same on two packets with the same `file` and `sname`, and it does not point
into the options region. -/
theorem loop_off_options (p1 p2 : dhcpmsg) (c : Int) (hF : p2.file = p1.file)
    (hS : p2.sname = p1.sname) (fuel : Nat) :
    ∀ (f : Field) (off : Nat) (rem : Int) (ov : Nat), f ≠ .OPTION_FIELD →
      get_option_loop p2 c fuel f off rem ov = get_option_loop p1 c fuel f off rem ov ∧
      ∀ q, get_option_loop p1 c fuel f off rem ov = some (some q) → q.field ≠ .OPTION_FIELD := by
  induction fuel with
  | zero => intro f off rem ov _; simp [get_option_loop]
  | succ fuel ih =>
    intro f off rem ov hf
    have hrd : ∀ i, rd p2 f off i = rd p1 f off i := by
      intro i
      cases f with
      | OPTION_FIELD => exact absurd rfl hf
      | FILE_FIELD => simp [rd, region, hF]
      | SNAME_FIELD => simp [rd, region, hS]
    rw [get_option_loop, get_option_loop]
    simp only [hrd]
    split
    · simp
    · split
      · exact ih _ _ _ _ hf
      · split
        · split
          · exact ih _ _ _ _ (by simp)
          · split
            · exact ih _ _ _ _ (by simp)
            · simp
        · split
          · exact ih _ _ _ _ hf
          · split
            · refine ⟨rfl, ?_⟩
              intro q hq
              simp only [Option.some.injEq] at hq
              subst hq
              exact hf
            · exact ih _ _ _ _ hf

/-! ## Lemmas on `end_option`, `add_option_string`, `add_requests`, the cached packet and the option switch -/

/-- The loop of `end_option` stops: every iteration advances `i`, and it ends as soon as
`i` reaches `DHCP_OPTIONS_BUFSIZE`. -/
theorem end_option_loop_total (buf : List Nat) (fuel : Nat) :
    ∀ i, DHCP_OPTIONS_BUFSIZE - i < fuel → ∃ r, end_option_loop buf fuel i = some r := by
  induction fuel with
  | zero => intro i h; omega
  | succ fuel ih =>
    intro i h
    rw [end_option_loop]
    split
    · rename_i hc
      apply ih
      have := hc.1
      split <;> omega
    · exact ⟨i, rfl⟩

theorem end_option_total (buf : List Nat) :
    ∃ r, end_option buf = some r ∧ r ≤ DHCP_OPTIONS_BUFSIZE - 1 := by
  obtain ⟨i, hi⟩ := end_option_loop_total buf (DHCP_OPTIONS_BUFSIZE + 1) 0 (by omega)
  unfold end_option
  rw [hi]
  refine ⟨_, rfl, ?_⟩
  dsimp only
  split <;> omega

theorem end_option_wf_le (items : List Item) (t : List Nat) (hok : ∀ i ∈ items, i.ok)
    (hle : (ser items).length ≤ DHCP_OPTIONS_BUFSIZE - 1) :
    end_option (ser items ++ DHCP_END :: t) = some (ser items).length := by
  have hl := ser_length_ge items
  have h308 : DHCP_OPTIONS_BUFSIZE = 308 := rfl
  unfold end_option
  rw [end_option_loop_items _ items hok [] t _ 0 (by simp) (by omega) rfl
    (by simp only [List.length_nil]; omega)]
  simp only [List.length_nil, Nat.zero_add, Option.map_some']
  congr 1
  split <;> omega

theorem range_map_getD (s : List Nat) (n : Nat) (hs : s.length = n) :
    (List.range n).map (fun j => s.getD j 0) = s := by
  apply List.ext_getElem
  · simp [hs]
  · intro k h1 h2
    simp [List.getD_eq_getElem?_getD, List.getElem?_eq_getElem h2]

/-- The buffer `add_option_string` leaves when the string fits: the bytes below `e`, the
string, END, and the bytes from `e + l + 3` on. -/
theorem add_option_string_eq (buf s : List Nat) (l e : Nat)
    (hbuf : buf.length = DHCP_OPTIONS_BUFSIZE) (hs : s.length = l + 2)
    (hl : s.getD OPT_LEN 0 = l) (he : end_option buf = some e)
    (hfit : e + l + 3 < DHCP_OPTIONS_BUFSIZE) :
    add_option_string buf s =
      some (((l + 2 : Nat) : Int), buf.take e ++ s ++ DHCP_END :: buf.drop (e + l + 3)) := by
  unfold add_option_string
  rw [he]
  simp only [Option.map_some', hl]
  rw [if_neg (by omega)]
  congr 2
  unfold memcpy_at
  rw [range_map_getD s (l + 2) hs]
  have hlen : (buf.take e ++ s).length = e + l + 2 := by
    simp only [List.length_append, List.length_take, hs, hbuf]; omega
  obtain ⟨x, hd⟩ : ∃ x, buf.drop (e + (l + 2)) = x :: buf.drop (e + l + 3) :=
    ⟨buf[e + l + 2], by
      rw [show e + (l + 2) = e + l + 2 by omega, List.drop_eq_getElem_cons (by omega)]⟩
  rw [hd, ← hlen, List.set_append_right _ _ (Nat.le_refl _), Nat.sub_self]
  rfl

theorem exists_nine (l : List Nat) (h : 9 ≤ l.length) :
    ∃ a0 a1 a2 a3 a4 a5 a6 a7 a8 t, l = a0 :: a1 :: a2 :: a3 :: a4 :: a5 :: a6 :: a7 :: a8 :: t := by
  match l, h with
  | a0 :: a1 :: a2 :: a3 :: a4 :: a5 :: a6 :: a7 :: a8 :: t, _ =>
    exact ⟨a0, a1, a2, a3, a4, a5, a6, a7, a8, t, rfl⟩

/-- The options bytes `add_requests` leaves when the END byte is at `A.length` and nine
bytes are available from there. -/
theorem add_requests_eq (p : dhcpmsg) (A B : List Nat) (hO : p.options = A ++ B)
    (hB : 9 ≤ B.length) (he : end_option p.options = some A.length) :
    add_requests p = some { p with options :=
      A ++ [DHCP_PARAM_REQ, 6, DHCP_SUBNET, DHCP_ROUTER, DHCP_DNS_SERVER, DHCP_HOST_NAME,
        DHCP_DOMAIN_NAME, DHCP_BROADCAST, DHCP_END] ++ B.drop 9 } := by
  obtain ⟨a0, a1, a2, a3, a4, a5, a6, a7, a8, t, rfl⟩ := exists_nine B hB
  unfold add_requests
  rw [he, hO]
  simp only [Option.map_some', req_opts, add_requests_loop, DHCP_SUBNET, DHCP_ROUTER,
    DHCP_DNS_SERVER, DHCP_HOST_NAME, DHCP_DOMAIN_NAME, DHCP_BROADCAST, OPT_CODE, OPT_LEN,
    OPT_DATA, Nat.add_zero, ne_eq, OfNat.ofNat_ne_zero, not_false_eq_true, if_true,
    not_true_eq_false, if_false, Nat.add_assoc, Nat.reduceAdd, Nat.zero_add,
    List.set_append_right _ _ (Nat.le_add_right _ _), Nat.add_sub_cancel_left,
    List.set_append_right _ _ (Nat.le_refl _), Nat.sub_self, List.set_cons_zero,
    List.set_cons_succ, List.drop_succ_cons, List.drop_zero]
  simp

theorem ifchange_bind_cfg (gdo : dhcpmsg → Nat → List Nat) (st : IfchState) (P : dhcpmsg) :
    (ifchange_bind gdo st (some P)).cfg_packet = P ∧
    (ifchange_bind gdo st (some P)).cs.ifDeconfig = 0 := by
  unfold ifchange_bind
  exact ⟨rfl, rfl⟩

theorem ifchange_deconfig_cfg (st : IfchState)
    (h : st.cs.ifDeconfig ≠ 0 → st.cfg_packet = dhcpmsg_zero) :
    (ifchange_deconfig st).cfg_packet = dhcpmsg_zero := by
  unfold ifchange_deconfig
  by_cases hd : st.cs.ifDeconfig ≠ 0
  · rw [if_pos hd]; exact h hd
  · rw [if_neg hd]

/-- The cached packet follows the applied lease along every sequence of calls. -/
theorem ifch_run_cfg (gdo : dhcpmsg → Nat → List Nat) (calls : List IfchCall) :
    ∀ (st : IfchState) (a : Option dhcpmsg),
      st.cfg_packet = a.getD dhcpmsg_zero →
      (st.cs.ifDeconfig ≠ 0 → st.cfg_packet = dhcpmsg_zero) →
      (ifch_run gdo st calls).cfg_packet = (calls.foldl lease_step a).getD dhcpmsg_zero := by
  induction calls with
  | nil => intro st a h _; exact h
  | cons c cs ih =>
    intro st a h hd
    simp only [ifch_run, List.foldl_cons]
    cases c with
    | bind packet =>
      cases packet with
      | none => exact ih st a h hd
      | some P =>
        refine ih _ _ (ifchange_bind_cfg gdo st P).1 ?_
        intro h0
        exact absurd (ifchange_bind_cfg gdo st P).2 h0
    | deconfig =>
      have hz := ifchange_deconfig_cfg st hd
      exact ih _ _ hz (fun _ => hz)

theorem lease_applied_mem (calls : List IfchCall) :
    ∀ (a : Option dhcpmsg) (P : dhcpmsg), calls.foldl lease_step a = some P →
      a = some P ∨ IfchCall.bind (some P) ∈ calls := by
  induction calls with
  | nil => intro a P h; exact Or.inl h
  | cons c cs ih =>
    intro a P h
    rw [List.foldl_cons] at h
    rcases ih _ _ h with h1 | h1
    · cases c with
      | bind packet =>
        cases packet with
        | none => exact Or.inl h1
        | some Q =>
          simp only [lease_step, Option.some.injEq] at h1
          subst h1
          exact Or.inr (List.mem_cons_self _ _)
      | deconfig => simp [lease_step] at h1
    · exact Or.inr (List.mem_cons_of_mem _ h1)

/-- A value that is none of the option characters takes the `default:` branch. -/
theorem parse_option_default (env : ArgEnv) (c : Int) (optarg : List Nat) (g : ndhc_globals)
    (h : c ∉ known_options) : parse_option env c optarg g = show_usage g := by
  have h1 : ∀ x ∈ known_options, ¬ c = x := fun x hx e => h (e ▸ hx)
  have h2 : ∀ x ∈ known_options, ∀ y ∈ known_options, ¬ (c = x ∨ c = y) :=
    fun x hx y hy e => e.elim (h1 x hx) (h1 y hy)
  unfold parse_option
  rw [if_neg (h1 (chr 'c') (by decide)), if_neg (h1 (chr 'b') (by decide)),
    if_neg (h1 (chr 'p') (by decide)), if_neg (h1 (chr 'P') (by decide)),
    if_neg (h1 (chr 'h') (by decide)), if_neg (h1 (chr 'i') (by decide)),
    if_neg (h1 (chr 'n') (by decide)), if_neg (h1 (chr 'q') (by decide)),
    if_neg (h1 (chr 'r') (by decide)), if_neg (h1 (chr 'u') (by decide)),
    if_neg (h1 (chr 'U') (by decide)), if_neg (h1 (chr 'D') (by decide)),
    if_neg (h1 (chr 'C') (by decide)), if_neg (h1 (chr 's') (by decide)),
    if_neg (h1 (chr 'S') (by decide)), if_neg (h1 (chr 'd') (by decide)),
    if_neg (h2 (chr 'w') (by decide) (chr 'W') (by decide)),
    if_neg (h2 (chr 'm') (by decide) (chr 'M') (by decide)),
    if_neg (h1 (chr 'v') (by decide)), if_neg (h1 (chr 'V') (by decide)),
    if_neg (h1 (chr 't') (by decide)), if_neg (h1 (chr 'R') (by decide)),
    if_neg (h1 (chr 'H') (by decide))]

/-- The options after a prefix that does not end the process are handled from the state
the prefix leaves. -/
theorem parse_program_options_append (env : ArgEnv) (pre rest : List (Int × List Nat)) :
    ∀ g, (∀ x ∈ pre, x.1 ≠ -1) →
      parse_program_options env (pre ++ rest) g =
        match parse_program_options env pre g with
        | .returns g1 => parse_program_options env rest g1
        | o => o := by
  induction pre with
  | nil => intro g _; rfl
  | cons x pre ih =>
    intro g h
    obtain ⟨c, optarg⟩ := x
    have hc : c ≠ -1 := h (c, optarg) (List.mem_cons_self _ _)
    have hpre : ∀ x ∈ pre, x.1 ≠ -1 := fun x hx => h x (List.mem_cons_of_mem _ hx)
    simp only [List.cons_append, parse_program_options, if_neg hc]
    cases parse_option env c optarg g with
    | returns g1 => exact ih g1 hpre
    | exits s g1 => rfl
    | suicide g1 => rfl

theorem range_map_getD_take (s : List Nat) (n : Nat) (hn : n ≤ s.length) :
    (List.range n).map (fun j => s.getD j 0) = s.take n := by
  apply List.ext_getElem
  · simp [hn]
  · intro k h1 h2
    simp only [List.length_map, List.length_range] at h1
    simp [List.getD_eq_getElem?_getD, List.getElem?_eq_getElem (show k < s.length by omega)]

/-- Outside the bytes `[off, off + n)` the call `memcpy(buf + off, src, n)` changes
nothing. -/
theorem memcpy_at_getD (buf src : List Nat) (off n i : Nat) (hfit : off + n ≤ buf.length)
    (hi : i < off ∨ off + n ≤ i) :
    (memcpy_at buf off src n).getD i 0 = buf.getD i 0 := by
  unfold memcpy_at
  have hA : (buf.take off).length = off := by
    rw [List.length_take]; omega
  have hM : ((List.range n).map (fun j => src.getD j 0)).length = n := by simp
  generalize (List.range n).map (fun j => src.getD j 0) = M at hM
  simp only [List.getD_eq_getElem?_getD]
  congr 1
  rcases hi with hi | hi
  · rw [List.append_assoc, List.getElem?_append_left (by omega), List.getElem?_take_of_lt hi]
  · rw [List.getElem?_append_right (by simp only [List.length_append, hA, hM]; omega),
      List.getElem?_drop]
    congr 1
    simp only [List.length_append, hA, hM]
    omega

theorem memcpy_at_length (buf src : List Nat) (off n : Nat) (hfit : off + n ≤ buf.length) :
    (memcpy_at buf off src n).length = buf.length := by
  unfold memcpy_at
  simp only [List.length_append, List.length_take, List.length_map, List.length_range,
    List.length_drop]
  omega

theorem add_requests_loop_len (e : Nat) (opts : List Nat) :
    (add_requests_loop e req_opts 0 opts).2 = 6 := by
  simp [add_requests_loop, req_opts, DHCP_SUBNET, DHCP_ROUTER, DHCP_DNS_SERVER,
    DHCP_HOST_NAME, DHCP_DOMAIN_NAME, DHCP_BROADCAST]

theorem add_requests_loop_writes_eq (e : Nat) :
    add_requests_loop_writes e req_opts 0 = [e + 2, e + 3, e + 4, e + 5, e + 6, e + 7] := by
  simp [add_requests_loop_writes, req_opts, DHCP_SUBNET, DHCP_ROUTER, DHCP_DNS_SERVER,
    DHCP_HOST_NAME, DHCP_DOMAIN_NAME, DHCP_BROADCAST, OPT_DATA, Nat.add_assoc]

/-- A packet that lacks the option makes `send_cmd` return 0 with the buffer untouched. -/
theorem send_cmd_lacks (gdo : dhcpmsg → Nat → List Nat) (cfg : dhcpmsg) (out : List Nat)
    (olen : Nat) (P : dhcpmsg) (X : Nat) (h : (gdo P X).length = 0) :
    send_cmd gdo cfg out olen (some P) X = (0, out) := by
  simp only [send_cmd, h, if_true]

/-- What `send_cmd` does depends on the cached packet only through its option `code`. -/
theorem send_cmd_cfg_congr (gdo : dhcpmsg → Nat → List Nat) (cfg1 cfg2 : dhcpmsg)
    (out : List Nat) (olen : Nat) (pkt : Option dhcpmsg) (code : Nat)
    (h : gdo cfg1 code = gdo cfg2 code) :
    send_cmd gdo cfg1 out olen pkt code = send_cmd gdo cfg2 out olen pkt code := by
  cases pkt with
  | none => rfl
  | some p => simp only [send_cmd, h]

/-- What `send_client_ip` does depends on the cached packet only through `yiaddr` and the
subnet and broadcast options. -/
theorem send_client_ip_cfg_congr (gdo : dhcpmsg → Nat → List Nat) (cfg1 cfg2 : dhcpmsg)
    (out : List Nat) (olen : Nat) (pkt : dhcpmsg) (hy : cfg1.yiaddr = cfg2.yiaddr)
    (hs : gdo cfg1 DCODE_SUBNET = gdo cfg2 DCODE_SUBNET)
    (hb : gdo cfg1 DCODE_BROADCAST = gdo cfg2 DCODE_BROADCAST) :
    send_client_ip gdo cfg1 out olen pkt = send_client_ip gdo cfg2 out olen pkt := by
  simp only [send_client_ip, hy, hs, hb]

/-- The options `-m` and `-M` store the new value and the other bound as (smaller, larger). -/
theorem parse_option_probe (env : ArgEnv) (c : Int) (optarg : List Nat) (g : ndhc_globals)
    (hc : c = chr 'm' ∨ c = chr 'M') :
    ∃ g1, parse_option env c optarg g = .returns g1 ∧
      g1.arp_probe_min ≤ g1.arp_probe_max ∧
      (c = chr 'm' → g1.arp_probe_min = min (env.atoi optarg) g.arp_probe_max ∧
        g1.arp_probe_max = max (env.atoi optarg) g.arp_probe_max) ∧
      (c = chr 'M' → g1.arp_probe_min = min g.arp_probe_min (env.atoi optarg) ∧
        g1.arp_probe_max = max g.arp_probe_min (env.atoi optarg)) := by
  have hm : chr 'm' ≠ chr 'M' := by decide
  have hne : ∀ x ∈ ("cbpPhinqruUDCsSd".toList.map chr), ¬ c = x := by
    intro x hx e
    subst e
    rcases hc with h | h <;> (rw [h] at hx; revert hx; decide)
  have hw : ¬ (c = chr 'w' ∨ c = chr 'W') := by
    intro e
    rcases hc with h | h <;> (rw [h] at e; revert e; decide)
  unfold parse_option
  rw [if_neg (hne (chr 'c') (by decide)), if_neg (hne (chr 'b') (by decide)),
    if_neg (hne (chr 'p') (by decide)), if_neg (hne (chr 'P') (by decide)),
    if_neg (hne (chr 'h') (by decide)), if_neg (hne (chr 'i') (by decide)),
    if_neg (hne (chr 'n') (by decide)), if_neg (hne (chr 'q') (by decide)),
    if_neg (hne (chr 'r') (by decide)), if_neg (hne (chr 'u') (by decide)),
    if_neg (hne (chr 'U') (by decide)), if_neg (hne (chr 'D') (by decide)),
    if_neg (hne (chr 'C') (by decide)), if_neg (hne (chr 's') (by decide)),
    if_neg (hne (chr 'S') (by decide)), if_neg (hne (chr 'd') (by decide)),
    if_neg hw, if_pos hc]
  rcases hc with h | h
  · subst h
    simp only [if_true]
    by_cases hgt : env.atoi optarg > g.arp_probe_max
    · rw [if_pos hgt]
      refine ⟨_, rfl, ?_, fun _ => ⟨?_, ?_⟩, fun e => absurd e hm⟩
      · simp only; omega
      · simp only; omega
      · simp only; omega
    · rw [if_neg hgt]
      refine ⟨_, rfl, ?_, fun _ => ⟨?_, ?_⟩, fun e => absurd e hm⟩
      · simp only; omega
      · simp only; omega
      · simp only; omega
  · subst h
    simp only [if_neg hm.symm]
    by_cases hgt : g.arp_probe_min > env.atoi optarg
    · rw [if_pos hgt]
      refine ⟨_, rfl, ?_, fun e => absurd e hm.symm, fun _ => ⟨?_, ?_⟩⟩
      · simp only; omega
      · simp only; omega
      · simp only; omega
    · rw [if_neg hgt]
      refine ⟨_, rfl, ?_, fun e => absurd e hm.symm, fun _ => ⟨?_, ?_⟩⟩
      · simp only; omega
      · simp only; omega
      · simp only; omega

theorem get_clientid_string_probe (env : ArgEnv) (g : ndhc_globals) (str : List Nat)
    (slen : Nat) :
    (get_clientid_string env g str slen).2.arp_probe_min = g.arp_probe_min ∧
    (get_clientid_string env g str slen).2.arp_probe_max = g.arp_probe_max := by
  unfold get_clientid_string
  split
  · exact ⟨rfl, rfl⟩
  · split <;> exact ⟨rfl, rfl⟩

theorem with_cmdarg_probe (env : ArgEnv) (g g1 : ndhc_globals) (argname : String)
    (optarg : List Nat) (store : List Nat → ndhc_globals)
    (h : with_cmdarg env g argname optarg store = .returns g1)
    (hs : ∀ s, (store s).arp_probe_min = g.arp_probe_min ∧
      (store s).arp_probe_max = g.arp_probe_max) :
    g1.arp_probe_min = g.arp_probe_min ∧ g1.arp_probe_max = g.arp_probe_max := by
  unfold with_cmdarg at h
  split at h
  · injection h with h
    subst h
    exact hs _
  · cases h

/-- Every option other than `-m` and `-M` leaves `arp_probe_min` and `arp_probe_max` as they
are. -/
theorem parse_option_keeps_probe (env : ArgEnv) (c : Int) (optarg : List Nat)
    (g g1 : ndhc_globals) (hc : ¬ (c = chr 'm' ∨ c = chr 'M'))
    (h : parse_option env c optarg g = .returns g1) :
    g1.arp_probe_min = g.arp_probe_min ∧ g1.arp_probe_max = g.arp_probe_max := by
  unfold parse_option at h
  by_cases h1 : c = chr 'c'
  · rw [if_pos h1] at h
    injection h with h; subst h; exact get_clientid_string_probe _ _ _ _
  rw [if_neg h1] at h
  by_cases h2 : c = chr 'b'
  · rw [if_pos h2] at h
    injection h with h; subst h; exact ⟨rfl, rfl⟩
  rw [if_neg h2] at h
  by_cases h3 : c = chr 'p'
  · rw [if_pos h3] at h
    exact with_cmdarg_probe _ _ _ _ _ _ h (fun s => ⟨rfl, rfl⟩)
  rw [if_neg h3] at h
  by_cases h4 : c = chr 'P'
  · rw [if_pos h4] at h
    exact with_cmdarg_probe _ _ _ _ _ _ h (fun s => ⟨rfl, rfl⟩)
  rw [if_neg h4] at h
  by_cases h5 : c = chr 'h'
  · rw [if_pos h5] at h
    exact with_cmdarg_probe _ _ _ _ _ _ h (fun s => ⟨rfl, rfl⟩)
  rw [if_neg h5] at h
  by_cases h6 : c = chr 'i'
  · rw [if_pos h6] at h
    exact with_cmdarg_probe _ _ _ _ _ _ h (fun s => ⟨rfl, rfl⟩)
  rw [if_neg h6] at h
  by_cases h7 : c = chr 'n'
  · rw [if_pos h7] at h
    injection h with h; subst h; exact ⟨rfl, rfl⟩
  rw [if_neg h7] at h
  by_cases h8 : c = chr 'q'
  · rw [if_pos h8] at h
    injection h with h; subst h; exact ⟨rfl, rfl⟩
  rw [if_neg h8] at h
  by_cases h9 : c = chr 'r'
  · rw [if_pos h9] at h
    injection h with h; subst h; exact ⟨rfl, rfl⟩
  rw [if_neg h9] at h
  by_cases h10 : c = chr 'u'
  · rw [if_pos h10] at h
    split at h <;> first | (injection h with h; subst h; exact ⟨rfl, rfl⟩) | cases h
  rw [if_neg h10] at h
  by_cases h11 : c = chr 'U'
  · rw [if_pos h11] at h
    split at h <;> first | (injection h with h; subst h; exact ⟨rfl, rfl⟩) | cases h
  rw [if_neg h11] at h
  by_cases h12 : c = chr 'D'
  · rw [if_pos h12] at h
    split at h <;> first | (injection h with h; subst h; exact ⟨rfl, rfl⟩) | cases h
  rw [if_neg h12] at h
  by_cases h13 : c = chr 'C'
  · rw [if_pos h13] at h
    exact with_cmdarg_probe _ _ _ _ _ _ h (fun s => ⟨rfl, rfl⟩)
  rw [if_neg h13] at h
  by_cases h14 : c = chr 's'
  · rw [if_pos h14] at h
    exact with_cmdarg_probe _ _ _ _ _ _ h (fun s => ⟨rfl, rfl⟩)
  rw [if_neg h14] at h
  by_cases h15 : c = chr 'S'
  · rw [if_pos h15] at h
    injection h with h; subst h; exact ⟨rfl, rfl⟩
  rw [if_neg h15] at h
  by_cases h16 : c = chr 'd'
  · rw [if_pos h16] at h
    injection h with h; subst h; exact ⟨rfl, rfl⟩
  rw [if_neg h16] at h
  by_cases hw : c = chr 'w' ∨ c = chr 'W'
  · rw [if_pos hw] at h
    dsimp only at h
    split at h
    · injection h with h; subst h; exact ⟨rfl, rfl⟩
    · split at h <;> (injection h with h; subst h; exact ⟨rfl, rfl⟩)
  rw [if_neg hw, if_neg hc] at h
  by_cases hv : c = chr 'v'
  · rw [if_pos hv] at h; cases h
  rw [if_neg hv] at h
  by_cases hV : c = chr 'V'
  · rw [if_pos hV] at h
    exact with_cmdarg_probe _ _ _ _ _ _ h (fun s => ⟨rfl, rfl⟩)
  rw [if_neg hV] at h
  by_cases ht : c = chr 't'
  · rw [if_pos ht] at h
    dsimp only at h
    split at h
    · cases h
    · split at h
      · cases h
      · injection h with h; subst h; exact ⟨rfl, rfl⟩
  rw [if_neg ht] at h
  by_cases hR : c = chr 'R'
  · rw [if_pos hR] at h
    exact with_cmdarg_probe _ _ _ _ _ _ h (fun s => ⟨rfl, rfl⟩)
  rw [if_neg hR] at h
  by_cases hH : c = chr 'H'
  · rw [if_pos hH] at h
    injection h with h; subst h; exact ⟨rfl, rfl⟩
  rw [if_neg hH] at h
  unfold show_usage at h
  cases h

/-- Once `arp_probe_min ≤ arp_probe_max` holds, it holds after every further option. -/
theorem parse_program_options_keeps_order (env : ArgEnv) (rs : List (Int × List Nat)) :
    ∀ g g1 : ndhc_globals, g.arp_probe_min ≤ g.arp_probe_max →
      parse_program_options env rs g = .returns g1 →
      g1.arp_probe_min ≤ g1.arp_probe_max := by
  induction rs with
  | nil =>
    intro g g1 hg h
    simp only [parse_program_options] at h
    injection h with h
    subst h
    exact hg
  | cons x rs ih =>
    intro g g1 hg h
    obtain ⟨c, optarg⟩ := x
    simp only [parse_program_options] at h
    by_cases hc1 : c = -1
    · rw [if_pos hc1] at h
      injection h with h
      subst h
      exact hg
    · rw [if_neg hc1] at h
      cases hp : parse_option env c optarg g with
      | returns g2 =>
        rw [hp] at h
        refine ih g2 g1 ?_ h
        by_cases hm : c = chr 'm' ∨ c = chr 'M'
        · obtain ⟨g3, h3, hle, _, _⟩ := parse_option_probe env c optarg g hm
          rw [hp] at h3
          injection h3 with h3
          subst h3
          exact hle
        · obtain ⟨e1, e2⟩ := parse_option_keeps_probe env c optarg g g2 hm hp
          rw [e1, e2]
          exact hg
      | exits s g2 => rw [hp] at h; cases h
      | suicide g2 => rw [hp] at h; cases h

theorem isxdigit_iff (c : Nat) : isxdigit c = true ↔ is_hex_char c := by
  unfold isxdigit is_hex_char
  simp only [Bool.or_eq_true, Bool.and_eq_true, decide_eq_true_eq]
  have : "0123456789abcdefABCDEF".toList.map Char.toNat
      = [48, 49, 50, 51, 52, 53, 54, 55, 56, 57, 97, 98, 99, 100, 101, 102,
          65, 66, 67, 68, 69, 70] := by decide
  rw [this]
  simp only [List.mem_cons, List.mem_singleton, List.mem_nil_iff, or_false]
  omega

theorem and_chain_log_fst (str : List Nat) (tests : List (Nat × (Nat → Bool))) :
    (and_chain_log str tests).1 = tests.all (fun x => x.2 (str.getD x.1 0)) := by
  induction tests with
  | nil => rfl
  | cons x rest ih =>
    obtain ⟨i, t⟩ := x
    unfold and_chain_log
    by_cases h : t (str.getD i 0) = true
    · rw [if_pos h, List.all_cons]
      dsimp only
      rw [h, Bool.true_and]
      exact ih
    · rw [if_neg h, List.all_cons]
      simp only [Bool.not_eq_true] at h
      dsimp only
      rw [h, Bool.false_and]

theorem and_chain_log_reads (str : List Nat) (tests : List (Nat × (Nat → Bool))) :
    ∀ i ∈ (and_chain_log str tests).2, i ∈ tests.map Prod.fst := by
  induction tests with
  | nil => intro i hi; simp [and_chain_log] at hi
  | cons x rest ih =>
    obtain ⟨j, t⟩ := x
    intro i hi
    unfold and_chain_log at hi
    by_cases h : t (str.getD j 0) = true
    · simp only [h, if_true, List.mem_cons] at hi
      rcases hi with hi | hi
      · simp [hi]
      · simp [ih i hi]
    · simp only [h, Bool.false_eq_true, if_false, List.mem_singleton] at hi
      simp [hi]

theorem is_string_hwaddr_log_fst (str : List Nat) (slen : Nat) :
    (is_string_hwaddr_log str slen).1 = is_string_hwaddr str slen := by
  unfold is_string_hwaddr_log is_string_hwaddr
  by_cases h : slen = 17
  · simp only [h, if_true, and_chain_log_fst, true_and]
    simp only [is_string_hwaddr_tests, List.all_cons, List.all_nil, Bool.and_true,
      Bool.and_eq_true, beq_iff_eq, and_assoc]
  · simp [h]

theorem is_string_hwaddr_eq_one (str : List Nat) (slen : Nat) :
    is_string_hwaddr str slen = 1 ↔ mac_text str slen := by
  unfold is_string_hwaddr mac_text
  simp only [List.mem_cons, List.mem_singleton, List.mem_nil_iff, or_false, forall_eq_or_imp,
    forall_eq, ← isxdigit_iff]
  have hc : (':').toNat = 58 := rfl
  rw [hc]
  constructor
  · intro h
    split at h
    · rename_i hcond
      obtain ⟨h0, h1, h2, h3, h4, h5, h6, h7, h8, h9, h10, h11, h12, h13, h14, h15, h16,
        h17⟩ := hcond
      exact ⟨h0, ⟨h1, h2, h3, h4, h5⟩, h6, h7, h8, h9, h10, h11, h12, h13, h14, h15, h16, h17⟩
    · cases h
  · rintro ⟨h0, ⟨h1, h2, h3, h4, h5⟩, h6, h7, h8, h9, h10, h11, h12, h13, h14, h15, h16, h17⟩
    rw [if_pos ⟨h0, h1, h2, h3, h4, h5, h6, h7, h8, h9, h10, h11, h12, h13, h14, h15, h16,
      h17⟩]

theorem is_string_hwaddr_zero_one (str : List Nat) (slen : Nat) :
    is_string_hwaddr str slen = 1 ∨ is_string_hwaddr str slen = 0 := by
  unfold is_string_hwaddr
  split
  · exact Or.inl rfl
  · exact Or.inr rfl

/-! ## Claims about `get_option` -/

/-- C1: when the options region is a well-formed option sequence that contains the
option-overload option `[52, 1, 3]` and ends in END, and `file` and `sname` are well-formed
sequences ending in END, `get_option(packet, c)` returns the pointer to the data of `c` in the
options region if `c` occurs there, otherwise the one in `file`, otherwise the one in
`sname`, and NULL exactly when `c` occurs in none of them; the pointer designates the data
of that option.  (This holds for every `c`, the codes 0, 255 and 52 included.) -/
theorem get_option_overload_file_sname (p : dhcpmsg) (iO iF iS : List Item)
    (tO tF tS : List Nat) (c : Int)
    (hO : p.options = ser iO ++ DHCP_END :: tO) (hOl : p.options.length = DHCP_OPTIONS_BUFSIZE)
    (hF : p.file = ser iF ++ DHCP_END :: tF) (hFl : p.file.length = DHCP_FILE_SIZE)
    (hS : p.sname = ser iS ++ DHCP_END :: tS) (hSl : p.sname.length = DHCP_SNAME_SIZE)
    (hokO : ∀ i ∈ iO, i.ok) (hokF : ∀ i ∈ iF, i.ok) (hokS : ∀ i ∈ iS, i.ok)
    (hbO : isBytes p.options) (hbF : isBytes p.file) (hbS : isBytes p.sname)
    (hov : Item.opt DHCP_OPTION_OVERLOAD [3] ∈ iO) :
    get_option p c = some ((firstOf3 c iO iF iS).map Prod.fst) ∧
    ∀ r, firstOf3 c iO iF iS = some r → optData p r.1 = r.2 :=
  get_option_overload_both p iO iF iS tO tF tS c hO hOl hF hFl hS hSl hokO hokF hokS
    hbO hbF hbS hov

set_option maxRecDepth 100000 in
/-- Witness for C1: the domain name that lies only in `sname` is found. -/
theorem get_option_overload_file_sname_witness :
    get_option pkt_overload 15 = some (some ⟨.SNAME_FIELD, 2⟩) ∧
    optData pkt_overload ⟨.SNAME_FIELD, 2⟩ = [67] := by
  have h := get_option_overload_file_sname pkt_overload
    [.opt 52 [3], .opt 53 [5]] [.opt 12 [65, 66]] [.opt 15 [67]]
    (List.replicate 301 0) (List.replicate 123 0) (List.replicate 60 0) 15
    rfl (by decide) rfl (by decide) rfl (by decide) (by decide) (by decide) (by decide)
    (by decide) (by decide) (by decide) (by decide)
  exact ⟨h.1, h.2 (⟨.SNAME_FIELD, 2⟩, [67]) rfl⟩

set_option maxRecDepth 100000 in
/-- Counterexample to C2: the options region names `file` in an option-overload option and
ends with an option whose declared length (200) overruns the 51 bytes that remain; `file` is
well formed and holds code 12; yet `get_option` returns NULL for code 12. -/
theorem get_option_overrun_counterexample :
    pkt_overrun.options
      = ser [.opt 52 [1], .opt 60 (List.replicate 250 7)] ++ 61 :: 200 :: List.replicate 51 0 ∧
    pkt_overrun.options.length = DHCP_OPTIONS_BUFSIZE ∧
    pkt_overrun.file = ser [.opt 12 [65, 66]] ++ DHCP_END :: List.replicate 123 0 ∧
    pkt_overrun.file.length = DHCP_FILE_SIZE ∧
    get_option pkt_overrun 12 = some none := by
  refine ⟨rfl, by decide, rfl, by decide, by decide⟩

/-- C2 (amended): when `get_option` meets, in the options region, an option whose declared
length overruns the bytes that remain, the lookup ends there: the result is the option found
before it, and NULL when there is none, whatever `file` and `sname` hold. -/
theorem get_option_overrun (p : dhcpmsg) (c : Int) (items : List Item) (k l : Nat)
    (rest : List Nat)
    (hO : p.options = ser items ++ k :: l :: rest)
    (hOl : p.options.length = DHCP_OPTIONS_BUFSIZE)
    (hok : ∀ i ∈ items, i.ok) (hk0 : k ≠ DHCP_PADDING) (hk1 : k ≠ DHCP_END)
    (hover : rest.length < l) :
    get_option p c = some ((findOpt c items).map fun r => ⟨.OPTION_FIELD, r.1⟩) := by
  have hlen : (ser items).length + (rest.length + 2) = 308 := by
    have h2 := congrArg List.length hO
    simp only [hOl, List.length_append, List.length_cons, DHCP_OPTIONS_BUFSIZE] at h2
    omega
  have hil := ser_length_ge items
  unfold get_option
  rw [loop_items p c .OPTION_FIELD items hok [] (k :: l :: rest) get_option_fuel 0 0 _
    (by simpa using hO)
    (by simp only [get_option_fuel, DHCP_OPTIONS_BUFSIZE, DHCP_FILE_SIZE, DHCP_SNAME_SIZE]; omega)
    rfl
    (by simp only [List.length_cons, DHCP_OPTIONS_BUFSIZE]; omega)]
  cases findOpt c items with
  | some r => simp
  | none =>
    dsimp only [Option.map]
    obtain ⟨n, hn⟩ : ∃ n, get_option_fuel - items.length = n + 2 :=
      ⟨get_option_fuel - items.length - 2, by
        simp only [get_option_fuel, DHCP_OPTIONS_BUFSIZE, DHCP_FILE_SIZE, DHCP_SNAME_SIZE]; omega⟩
    have hreg : region p .OPTION_FIELD = ser items ++ k :: l :: rest := hO
    have h0 : rd p .OPTION_FIELD (ser items).length OPT_CODE = k := by
      rw [rd_of_region hreg]; simp [OPT_CODE]
    have h1 : rd p .OPTION_FIELD (ser items).length OPT_LEN = l := by
      rw [rd_of_region hreg]; simp [OPT_LEN]
    rw [hn, Nat.zero_add, get_option_loop,
      if_neg (by simp only [List.length_cons]; omega), h0, if_neg hk0, if_neg hk1]
    simp only [h1]
    rw [if_pos (by simp only [List.length_cons]; omega), get_option_loop,
      if_pos (by simp only [List.length_cons]; omega)]

set_option maxRecDepth 100000 in
/-- Witness for C2 (amended), on the packet of the counterexample. -/
theorem get_option_overrun_witness : get_option pkt_overrun 12 = some none :=
  get_option_overrun pkt_overrun 12 [.opt 52 [1], .opt 60 (List.replicate 250 7)] 61 200
    (List.replicate 51 0) rfl (by decide) (by decide) (by decide) (by decide) (by decide)

set_option maxRecDepth 100000 in
/-- Counterexample to C3: code 12 occurs twice in the options region, first with data
`[65]`, last with data `[66]`; `get_option` returns the pointer to the first occurrence,
whose data is `[65]`, not the data of the last one. -/
theorem get_option_duplicate_counterexample :
    pkt_dup.options = ser [.opt 12 [65], .opt 12 [66]] ++ DHCP_END :: List.replicate 301 0 ∧
    get_option pkt_dup 12 = some (some ⟨.OPTION_FIELD, 2⟩) ∧
    optData pkt_dup ⟨.OPTION_FIELD, 2⟩ = [65] ∧
    optData pkt_dup ⟨.OPTION_FIELD, 2⟩ ≠ [66] := by
  refine ⟨rfl, by decide, by decide, by decide⟩

/-- C3 (amended): when option code `c` occurs, once or more often, among the well-formed
options at the start of the options region, `get_option(packet, c)` returns the data of the
first occurrence of `c`: whatever follows that occurrence (further occurrences of `c`
included) has no influence. -/
theorem get_option_first_occurrence (p : dhcpmsg) (c : Nat) (pre post : List Item)
    (d rest : List Nat)
    (hO : p.options = ser (pre ++ Item.opt c d :: post) ++ rest)
    (hOl : p.options.length = DHCP_OPTIONS_BUFSIZE)
    (hok : ∀ i ∈ pre, i.ok) (hc0 : c ≠ DHCP_PADDING) (hc1 : c ≠ DHCP_END)
    (hpre : findOpt c pre = none) :
    get_option p c = some (some ⟨.OPTION_FIELD, (ser pre).length + OPT_DATA⟩) ∧
    optData p ⟨.OPTION_FIELD, (ser pre).length + OPT_DATA⟩ = d :=
  get_option_first p c pre c d (ser post ++ rest)
    (by rw [hO, ser_append]; simp [ser, Item.bytes]) hOl hok hc0 hc1 hpre rfl

set_option maxRecDepth 100000 in
/-- Witness for C3 (amended), on the packet of the counterexample. -/
theorem get_option_first_occurrence_witness :
    get_option pkt_dup 12 = some (some ⟨.OPTION_FIELD, 2⟩) ∧
    optData pkt_dup ⟨.OPTION_FIELD, 2⟩ = [65] :=
  get_option_first_occurrence pkt_dup 12 [] [.opt 12 [66]] [65]
    (DHCP_END :: List.replicate 301 0) rfl (by decide) (by decide) (by decide) (by decide) rfl

/-- C4: lease round trip.  For every 32-bit value `v`, either byte order of the host, and
every options buffer that is a well-formed option sequence without option 0x33 whose END is
at index `e` with `e + 6 + 1 < 308`: `add_simple_option(buf, 0x33, v)` returns 6 and writes
`0x33, 0x04`, the four bytes of `v` as they lie in memory, and END at `e`; `get_option` on
the resulting packet for code 0x33 returns the pointer to index `e + 2`, which designates
exactly those four bytes. -/
theorem add_simple_option_lease_roundtrip (bigEndian : Bool) (p : dhcpmsg) (items : List Item)
    (t : List Nat) (v : Nat) (hv : v < 2 ^ 32)
    (hO : p.options = ser items ++ DHCP_END :: t)
    (hOl : p.options.length = DHCP_OPTIONS_BUFSIZE)
    (hok : ∀ i ∈ items, i.ok) (hno : findOpt 0x33 items = none)
    (he : (ser items).length + 6 + 1 < DHCP_OPTIONS_BUFSIZE) :
    add_simple_option bigEndian p.options 0x33 v
      = some (6, ser items ++ (0x33 :: 4 :: host_bytes bigEndian 4 v)
          ++ DHCP_END :: t.drop 6) ∧
    get_option { p with options := ser items ++ (0x33 :: 4 :: host_bytes bigEndian 4 v)
          ++ DHCP_END :: t.drop 6 } 0x33
      = some (some ⟨.OPTION_FIELD, (ser items).length + 2⟩) ∧
    optData { p with options := ser items ++ (0x33 :: 4 :: host_bytes bigEndian 4 v)
          ++ DHCP_END :: t.drop 6 } ⟨.OPTION_FIELD, (ser items).length + 2⟩
      = host_bytes bigEndian 4 v := by
  obtain ⟨a, b, c, d, hb⟩ := host_bytes_four bigEndian v
  have ht : t.length = DHCP_OPTIONS_BUFSIZE - 1 - (ser items).length := by
    have := congrArg List.length hO
    simp only [hOl, List.length_append, List.length_cons] at this; omega
  have hlength : options.foldl
      (fun length o => if o.code = 0x33 then option_lengths o.flags else length) 0 = 4 := by
    decide
  refine ⟨?_, ?_⟩
  · have h := add_option_string_wf items t (0x33 :: 4 :: host_bytes bigEndian 4 v) 4 hok
      (by simp [hb]) (by simp [OPT_LEN]) (by rw [← hO]; exact hOl) (by omega)
    unfold add_simple_option
    simp only [hlength, Nat.mod_eq_of_lt hv]
    rw [hO]
    simpa using h
  · have hd : (host_bytes bigEndian 4 v).length = 4 := by simp [hb]
    have := get_option_first
      { p with options := ser items ++ (0x33 :: 4 :: host_bytes bigEndian 4 v)
          ++ DHCP_END :: t.drop 6 } 0x33 items 0x33 (host_bytes bigEndian 4 v)
      (DHCP_END :: t.drop 6) (by simp [hd])
      (by simp only [List.length_append, List.length_cons, List.length_drop, hd, ht]
          simp only [DHCP_OPTIONS_BUFSIZE] at he ⊢; omega)
      hok (by decide) (by decide) hno rfl
    exact this

set_option maxRecDepth 100000 in
/-- Witness for C4: the lease time 3600 added on a little-endian host to a buffer that holds
a message-type option. -/
theorem add_simple_option_lease_roundtrip_witness :
    add_simple_option false pkt_plain.options 0x33 3600
      = some (6, ser [.opt 53 [5]] ++ [0x33, 4, 16, 14, 0, 0]
          ++ DHCP_END :: List.replicate 298 0) ∧
    get_option { pkt_plain with options := ser [.opt 53 [5]] ++ [0x33, 4, 16, 14, 0, 0]
          ++ DHCP_END :: List.replicate 298 0 } 0x33
      = some (some ⟨.OPTION_FIELD, 5⟩) ∧
    optData { pkt_plain with options := ser [.opt 53 [5]] ++ [0x33, 4, 16, 14, 0, 0]
          ++ DHCP_END :: List.replicate 298 0 } ⟨.OPTION_FIELD, 5⟩
      = [16, 14, 0, 0] :=
  add_simple_option_lease_roundtrip false pkt_plain [.opt 53 [5]] (List.replicate 304 0) 3600
    (by decide) rfl (by decide) (by decide) (by decide) (by decide)


/-! ## Claims about the configuration applier and the event loop -/

set_option maxRecDepth 100000 in
/-- C5: scenario S1 evaluated on the code.  From the all-zero cached packet, `ifchange_bind`
on the packet with `yiaddr` 192.0.2.50, subnet 255.255.255.0, router 192.0.2.1 and dns
8.8.8.8, 1.1.1.1 (no hostname, domain, mtu, wins or broadcast option) makes one write to the
worker, and the bytes written are
`ip4:192.0.2.50,255.255.255.0;routr:192.0.2.1;dns:dns:8.8.8.8,1.1.1.1;;`: the dns command
carries its key and its terminator twice, so the stream is not the one of the scenario. -/
theorem ifchange_bind_scenario_s1 :
    get_dhcp_opt_of_get_option pkt_s1 DCODE_SUBNET = [255, 255, 255, 0] ∧
    get_dhcp_opt_of_get_option pkt_s1 DCODE_ROUTER = [192, 0, 2, 1] ∧
    get_dhcp_opt_of_get_option pkt_s1 DCODE_DNS = [8, 8, 8, 8, 1, 1, 1, 1] ∧
    (ifchange_bind get_dhcp_opt_of_get_option st_init (some pkt_s1)).pipe
      = [cstr "ip4:192.0.2.50,255.255.255.0;routr:192.0.2.1;dns:dns:8.8.8.8,1.1.1.1;;"] ∧
    (ifchange_bind get_dhcp_opt_of_get_option st_init (some pkt_s1)).pipe
      ≠ [cstr "ip4:192.0.2.50,255.255.255.0;routr:192.0.2.1;dns:8.8.8.8,1.1.1.1;"] := by
  refine ⟨by decide, by decide, by decide, by decide, by decide⟩

/-- C6: unchanged configuration is not retransmitted.  For every option extractor, every
state and every packet `P`: after `ifchange_bind(cs, P)`, `send_client_ip` and `send_cmd`
(for every option code) return 0 on `P` and leave the command buffer as it was, and a second
`ifchange_bind(cs, P)` leaves the whole state as it was: nothing is written to the worker
pipe and `ifchWorking` is not touched.  The same holds from any state whose cached packet
is `P`. -/
theorem ifchange_bind_same_packet_silent (gdo : dhcpmsg → Nat → List Nat) (st : IfchState)
    (P : dhcpmsg) :
    (∀ out olen, send_client_ip gdo (ifchange_bind gdo st (some P)).cfg_packet out olen P
      = (0, out)) ∧
    (∀ out olen code, send_cmd gdo (ifchange_bind gdo st (some P)).cfg_packet out olen
      (some P) code = (0, out)) ∧
    ifchange_bind gdo (ifchange_bind gdo st (some P)) (some P) = ifchange_bind gdo st (some P) ∧
    (ifchange_bind gdo (ifchange_bind gdo st (some P)) (some P)).pipe
      = (ifchange_bind gdo st (some P)).pipe ∧
    (ifchange_bind gdo (ifchange_bind gdo st (some P)) (some P)).cs.ifchWorking
      = (ifchange_bind gdo st (some P)).cs.ifchWorking ∧
    (∀ st1 : IfchState, st1.cfg_packet = P →
      (ifchange_bind gdo st1 (some P)).pipe = st1.pipe ∧
      (ifchange_bind gdo st1 (some P)).cs.ifchWorking = st1.cs.ifchWorking) := by
  have hcfg : (ifchange_bind gdo st (some P)).cfg_packet = P := rfl
  have hdec : (ifchange_bind gdo st (some P)).cs.ifDeconfig = 0 := rfl
  have h1 : ∀ out olen, send_client_ip gdo P out olen P = (0, out) := by
    intro out olen
    simp [send_client_ip]
  have h2 : ∀ out olen code, send_cmd gdo P out olen (some P) code = (0, out) := by
    intro out olen code
    simp [send_cmd]
  have h3 : ifchange_bind gdo (ifchange_bind gdo st (some P)) (some P)
      = ifchange_bind gdo st (some P) := by
    generalize hst1 : ifchange_bind gdo st (some P) = st1 at hcfg hdec
    obtain ⟨⟨w, dc, ifs⟩, cfg, pipe⟩ := st1
    simp only at hcfg hdec
    subst hcfg hdec
    simp [ifchange_bind, h1, h2]
  refine ⟨?_, ?_, h3, ?_, ?_, ?_⟩
  · rw [hcfg]; exact h1
  · rw [hcfg]; exact h2
  · rw [h3]
  · rw [h3]
  · intro st1 hst1
    subst hst1
    simp [ifchange_bind, h1, h2]

/-- C7: when `cs.ifDeconfig` is 0, `ifchange_deconfig` makes exactly one write to the
worker, of the 28 bytes `ip4:0.0.0.0,255.255.255.255;`, sets `cs.ifDeconfig` to 1 and
`cs.ifchWorking` to 1, and leaves every byte of the cached configuration packet zero. -/
theorem ifchange_deconfig_writes (st : IfchState) (h : st.cs.ifDeconfig = 0) :
    (ifchange_deconfig st).pipe = st.pipe ++ [cstr "ip4:0.0.0.0,255.255.255.255;"] ∧
    (cstr "ip4:0.0.0.0,255.255.255.255;").length = 28 ∧
    (ifchange_deconfig st).cs.ifDeconfig = 1 ∧
    (ifchange_deconfig st).cs.ifchWorking = 1 ∧
    (ifchange_deconfig st).cfg_packet = dhcpmsg_zero := by
  have hbuf : snprintf_buf 256 (cstr "ip4:0.0.0.0,255.255.255.255;")
      = cstr "ip4:0.0.0.0,255.255.255.255;" := by decide
  have hlen : strlen (cstr "ip4:0.0.0.0,255.255.255.255;") = 28 := by decide
  have htake : (cstr "ip4:0.0.0.0,255.255.255.255;").take 28
      = cstr "ip4:0.0.0.0,255.255.255.255;" := by decide
  unfold ifchange_deconfig
  rw [if_neg (by simp [h])]
  simp only [pipewrite, hbuf, hlen, htake]
  exact ⟨trivial, by decide, trivial, trivial, trivial⟩

/-- Witness for C7: the start-up state. -/
theorem ifchange_deconfig_writes_witness :
    (ifchange_deconfig st_init).pipe = st_init.pipe ++ [cstr "ip4:0.0.0.0,255.255.255.255;"] ∧
    (cstr "ip4:0.0.0.0,255.255.255.255;").length = 28 ∧
    (ifchange_deconfig st_init).cs.ifDeconfig = 1 ∧
    (ifchange_deconfig st_init).cs.ifchWorking = 1 ∧
    (ifchange_deconfig st_init).cfg_packet = dhcpmsg_zero :=
  ifchange_deconfig_writes st_init rfl

/-- C8: the timeout on the code when only the ARP machine has a deadline.  For every current
time `n` with `0 ≤ n < 2^31` and every ARP deadline `a > n`, with the DHCP machine reporting
the sentinel -1, `do_ndhc_work` computes the timeout 0 (the minimum of `a` and -1 is -1, and
`-1 - n` is negative), although `a - n` milliseconds remain. -/
theorem do_ndhc_work_timeout_arp_only (a n : Int) (hn0 : 0 ≤ n) (hn : n < 2 ^ 31)
    (han : n < a) :
    do_ndhc_work_timeout a (-1) n = 0 ∧ 0 < a - n := by
  have ha : a ≠ -1 := by omega
  have hlt : ¬ a < -1 := by omega
  have h32 : to_int32 (-1 - n) < 0 := by
    unfold to_int32
    norm_num at hn ⊢
    omega
  refine ⟨?_, by omega⟩
  unfold do_ndhc_work_timeout
  rw [if_neg ha]
  simp only [if_neg hlt]
  rw [if_pos h32]

/-- Witness for C8: ARP deadline 5000, no DHCP deadline, current time 1000. -/
theorem do_ndhc_work_timeout_arp_only_witness :
    do_ndhc_work_timeout 5000 (-1) 1000 = 0 ∧ (0 : Int) < 5000 - 1000 :=
  do_ndhc_work_timeout_arp_only 5000 1000 (by decide) (by decide) (by decide)

/-- C9: `ifchd_cmd` evaluated on a list-valued option.  For the 8-byte payload
8.8.8.8, 1.1.1.1 the command for each of the keys dns, lpr, ntp and wins carries the key and
the terminator twice (`dns:dns:8.8.8.8,1.1.1.1;;`), and the return value is its length. -/
theorem ifchd_cmd_iplist_doubles_key :
    ifchd_cmd [] 2048 [8, 8, 8, 8, 1, 1, 1, 1] 8 DCODE_DNS
      = (25, cstr "dns:dns:8.8.8.8,1.1.1.1;;") ∧
    ifchd_cmd [] 2048 [8, 8, 8, 8, 1, 1, 1, 1] 8 DCODE_LPRSVR
      = (25, cstr "lpr:lpr:8.8.8.8,1.1.1.1;;") ∧
    ifchd_cmd [] 2048 [8, 8, 8, 8, 1, 1, 1, 1] 8 DCODE_NTPSVR
      = (25, cstr "ntp:ntp:8.8.8.8,1.1.1.1;;") ∧
    ifchd_cmd [] 2048 [8, 8, 8, 8, 1, 1, 1, 1] 8 DCODE_WINS
      = (27, cstr "wins:wins:8.8.8.8,1.1.1.1;;") := by
  refine ⟨by decide, by decide, by decide, by decide⟩

set_option maxRecDepth 100000 in
/-- Counterexample to C10: the packet carries a subnet option of 4 bytes and no broadcast
option, while the cached packet has the same `yiaddr` and subnet and a broadcast option, so
the broadcast differs from the cached packet; `send_client_ip` returns 0 and emits nothing. -/
theorem send_client_ip_counterexample :
    get_dhcp_opt_of_get_option pkt_without_bcast DCODE_SUBNET = [255, 255, 255, 0] ∧
    get_dhcp_opt_of_get_option pkt_without_bcast DCODE_BROADCAST = [] ∧
    get_dhcp_opt_of_get_option pkt_with_bcast DCODE_BROADCAST = [192, 0, 2, 255] ∧
    send_client_ip get_dhcp_opt_of_get_option pkt_with_bcast [] 2048 pkt_without_bcast
      = (0, []) := by
  refine ⟨by decide, by decide, by decide, by decide⟩

/-- C10 (amended): for every option extractor and every packet that carries a subnet option
of at least 4 bytes, and whose `yiaddr` differs from the cached packet's, or whose subnet
option differs from the cached one, or which carries a broadcast option of at least 4 bytes
that differs from the cached one: `send_client_ip` appends to the command buffer (room
permitting) `ip4:<yiaddr>,<subnet>;` when the packet has no broadcast option of at least 4
bytes and `ip4:<yiaddr>,<subnet>,<broadcast>;` when it has one, each address being the
dotted-decimal text of its first 4 bytes, and returns the length of that command.  And a
packet without a broadcast option of at least 4 bytes whose `yiaddr` and subnet option equal
the cached ones emits nothing and returns 0, whatever broadcast option the cached packet
has. -/
theorem send_client_ip_emits (gdo : dhcpmsg → Nat → List Nat) (cfg pkt : dhcpmsg)
    (out : List Nat) (olen : Nat) :
    (isBytes pkt.yiaddr → isBytes (gdo pkt DCODE_SUBNET) →
      isBytes (gdo pkt DCODE_BROADCAST) →
      4 ≤ (gdo pkt DCODE_SUBNET).length →
      (pkt.yiaddr ≠ cfg.yiaddr ∨ gdo pkt DCODE_SUBNET ≠ gdo cfg DCODE_SUBNET ∨
        (4 ≤ (gdo pkt DCODE_BROADCAST).length ∧
          gdo pkt DCODE_BROADCAST ≠ gdo cfg DCODE_BROADCAST)) →
      out.length + (ip4_cmd pkt.yiaddr (gdo pkt DCODE_SUBNET)
        (gdo pkt DCODE_BROADCAST)).length < olen →
      send_client_ip gdo cfg out olen pkt =
        ((ip4_cmd pkt.yiaddr (gdo pkt DCODE_SUBNET) (gdo pkt DCODE_BROADCAST)).length,
          out ++ ip4_cmd pkt.yiaddr (gdo pkt DCODE_SUBNET) (gdo pkt DCODE_BROADCAST))) ∧
    (pkt.yiaddr = cfg.yiaddr → gdo pkt DCODE_SUBNET = gdo cfg DCODE_SUBNET →
      (gdo pkt DCODE_BROADCAST).length < 4 →
      send_client_ip gdo cfg out olen pkt = (0, out)) := by
  refine ⟨?_, send_client_ip_silent gdo cfg pkt out olen⟩
  intro hy hs hb hsub hchg hfit
  obtain ⟨hlen, hnul⟩ := ip4_cmd_props hy hs hb
  have hcat : strnkcat out (ip4_cmd pkt.yiaddr (gdo pkt DCODE_SUBNET)
      (gdo pkt DCODE_BROADCAST)) olen
      = out ++ ip4_cmd pkt.yiaddr (gdo pkt DCODE_SUBNET) (gdo pkt DCODE_BROADCAST) := by
    unfold strnkcat
    rw [List.take_of_length_le (by simp only [List.length_append]; omega)]
  have hsn : snprintf_buf (4 * INET_ADDRSTRLEN) (ip4_cmd pkt.yiaddr (gdo pkt DCODE_SUBNET)
      (gdo pkt DCODE_BROADCAST))
      = ip4_cmd pkt.yiaddr (gdo pkt DCODE_SUBNET) (gdo pkt DCODE_BROADCAST) := by
    unfold snprintf_buf
    rw [List.take_of_length_le (by simp only [INET_ADDRSTRLEN]; omega)]
  have hstr := strlen_no_nul hnul
  have hchg1 : ¬ ((!decide (pkt.yiaddr ≠ cfg.yiaddr) &&
      !(if 4 ≤ (gdo pkt DCODE_SUBNET).length then
          decide ((gdo cfg DCODE_SUBNET).length ≠ (gdo pkt DCODE_SUBNET).length ∨
            (gdo pkt DCODE_SUBNET).take (gdo pkt DCODE_SUBNET).length
              ≠ (gdo cfg DCODE_SUBNET).take (gdo pkt DCODE_SUBNET).length)
        else false) &&
      !(if 4 ≤ (gdo pkt DCODE_BROADCAST).length then
          decide ((gdo cfg DCODE_BROADCAST).length ≠ (gdo pkt DCODE_BROADCAST).length ∨
            (gdo pkt DCODE_BROADCAST).take (gdo pkt DCODE_BROADCAST).length
              ≠ (gdo cfg DCODE_BROADCAST).take (gdo pkt DCODE_BROADCAST).length)
        else false)) = true) := by
    rw [if_pos hsub]
    simp only [memcmp_iff]
    rcases hchg with h | h | ⟨h1, h2⟩
    · simp [h]
    · simp [h]
    · simp [h1, h2]
  unfold send_client_ip
  simp only [ge_iff_le]
  rw [if_neg hchg1]
  simp only [inet_ntop_bytes hy, inet_ntop_bytes hs, inet_ntop_bytes hb, Option.getD_some,
    fmt_s_no_nul (dotted_no_nul hy), fmt_s_no_nul (dotted_no_nul hs),
    fmt_s_no_nul (dotted_no_nul hb), if_pos hsub, hsub, decide_True, Bool.not_true,
    Bool.false_eq_true, if_false]
  by_cases hbc : 4 ≤ (gdo pkt DCODE_BROADCAST).length
  · have e : ip4_cmd pkt.yiaddr (gdo pkt DCODE_SUBNET) (gdo pkt DCODE_BROADCAST)
        = cstr "ip4:" ++ dotted pkt.yiaddr ++ cstr "," ++ dotted (gdo pkt DCODE_SUBNET) ++
          cstr "," ++ dotted (gdo pkt DCODE_BROADCAST) ++ cstr ";" := by
      unfold ip4_cmd; rw [if_pos hbc]
    simp only [hbc, decide_True, if_true, if_false, fmt_s_no_nul (dotted_no_nul hy),
      fmt_s_no_nul (dotted_no_nul hs), fmt_s_no_nul (dotted_no_nul hb)]
    rw [← e, hsn, hstr, hcat]
  · have e : ip4_cmd pkt.yiaddr (gdo pkt DCODE_SUBNET) (gdo pkt DCODE_BROADCAST)
        = cstr "ip4:" ++ dotted pkt.yiaddr ++ cstr "," ++ dotted (gdo pkt DCODE_SUBNET) ++
          cstr ";" := by
      unfold ip4_cmd; rw [if_neg hbc]
    simp only [hbc, decide_False, if_false, if_true, Bool.false_eq_true,
      fmt_s_no_nul (dotted_no_nul hy), fmt_s_no_nul (dotted_no_nul hs)]
    rw [← e, hsn, hstr, hcat]

set_option maxRecDepth 100000 in
/-- Witness for C10 (amended): the packet of scenario S1 against the all-zero cache; and a
packet without broadcast option against a cache with the same `yiaddr` and subnet and a
broadcast option. -/
theorem send_client_ip_emits_witness :
    send_client_ip get_dhcp_opt_of_get_option dhcpmsg_zero [] 2048 pkt_s1
      = (29, cstr "ip4:192.0.2.50,255.255.255.0;") ∧
    send_client_ip get_dhcp_opt_of_get_option pkt_with_bcast [] 2048 pkt_without_bcast
      = (0, []) := by
  have h := (send_client_ip_emits get_dhcp_opt_of_get_option dhcpmsg_zero pkt_s1 [] 2048).1
    (by decide) (by decide) (by decide) (by decide) (Or.inl (by decide)) (by decide)
  refine ⟨?_, (send_client_ip_emits get_dhcp_opt_of_get_option pkt_with_bcast
    pkt_without_bcast [] 2048).2 (by decide) (by decide) (by decide)⟩
  rw [h]
  decide

/-! ## Further claims about the command stream -/

set_option maxRecDepth 100000 in
/-- C11 (counterexample): the packet carries no subnet option and a broadcast option of 2
bytes, and its `yiaddr` differs from the cached one; a broadcast option is present, and
`send_client_ip` emits the command without a broadcast field. -/
theorem send_client_ip_short_bcast_counterexample :
    pkt_short_bcast.options.length = 308 ∧
    get_dhcp_opt_of_get_option pkt_short_bcast DCODE_SUBNET = [] ∧
    get_dhcp_opt_of_get_option pkt_short_bcast DCODE_BROADCAST = [192, 0] ∧
    pkt_short_bcast.yiaddr ≠ dhcpmsg_zero.yiaddr ∧
    send_client_ip get_dhcp_opt_of_get_option dhcpmsg_zero [] 2048 pkt_short_bcast
      = (29, cstr "ip4:192.0.2.50,255.255.255.0;") := by
  refine ⟨by decide, by decide, by decide, by decide, by decide⟩

/-- C11 (amended): for every option extractor and every packet that carries no subnet
option, or one shorter than 4 bytes, and whose `yiaddr` differs from the cached packet's,
`send_client_ip` appends to the command buffer (room permitting) an `ip4` command whose
netmask field is `255.255.255.0`: `ip4:<yiaddr>,255.255.255.0,<broadcast>;` when the packet
carries a broadcast option of at least 4 bytes, and `ip4:<yiaddr>,255.255.255.0;` otherwise;
it returns the length of the command. -/
theorem send_client_ip_class_c (gdo : dhcpmsg → Nat → List Nat) (cfg pkt : dhcpmsg)
    (out : List Nat) (olen : Nat)
    (hy : isBytes pkt.yiaddr) (hb : isBytes (gdo pkt DCODE_BROADCAST))
    (hsub : (gdo pkt DCODE_SUBNET).length < 4)
    (hchg : pkt.yiaddr ≠ cfg.yiaddr)
    (hfit : out.length + (ip4_cmd_classc pkt.yiaddr (gdo pkt DCODE_BROADCAST)).length < olen) :
    send_client_ip gdo cfg out olen pkt =
      ((ip4_cmd_classc pkt.yiaddr (gdo pkt DCODE_BROADCAST)).length,
        out ++ ip4_cmd_classc pkt.yiaddr (gdo pkt DCODE_BROADCAST)) := by
  obtain ⟨hlen, hnul⟩ := ip4_cmd_classc_props hy hb
  have hcat : strnkcat out (ip4_cmd_classc pkt.yiaddr (gdo pkt DCODE_BROADCAST)) olen
      = out ++ ip4_cmd_classc pkt.yiaddr (gdo pkt DCODE_BROADCAST) := by
    unfold strnkcat
    rw [List.take_of_length_le (by simp only [List.length_append]; omega)]
  have hsn : snprintf_buf (4 * INET_ADDRSTRLEN)
      (ip4_cmd_classc pkt.yiaddr (gdo pkt DCODE_BROADCAST))
      = ip4_cmd_classc pkt.yiaddr (gdo pkt DCODE_BROADCAST) := by
    unfold snprintf_buf
    rw [List.take_of_length_le (by simp only [INET_ADDRSTRLEN]; omega)]
  have hstr := strlen_no_nul hnul
  have hnsub : ¬ 4 ≤ (gdo pkt DCODE_SUBNET).length := by omega
  have hc4 : fmt_s (cstr "255.255.255.0") = cstr "255.255.255.0" := by decide
  unfold send_client_ip
  simp only [ge_iff_le, hnsub, if_false, decide_False, Bool.not_false, hchg, ne_eq,
    not_false_eq_true, decide_True, Bool.not_true, Bool.false_and, Bool.false_eq_true,
    if_true, inet_ntop_bytes hy, Option.getD_some, fmt_s_no_nul (dotted_no_nul hy), hc4]
  by_cases hbc : 4 ≤ (gdo pkt DCODE_BROADCAST).length
  · have e : ip4_cmd_classc pkt.yiaddr (gdo pkt DCODE_BROADCAST)
        = cstr "ip4:" ++ dotted pkt.yiaddr ++ cstr "," ++ cstr "255.255.255.0" ++
          cstr "," ++ dotted (gdo pkt DCODE_BROADCAST) ++ cstr ";" := by
      unfold ip4_cmd_classc; rw [if_pos hbc]
    simp only [hbc, decide_True, if_true, inet_ntop_bytes hb, Option.getD_some,
      fmt_s_no_nul (dotted_no_nul hb)]
    rw [← e, hsn, hstr, hcat]
  · have e : ip4_cmd_classc pkt.yiaddr (gdo pkt DCODE_BROADCAST)
        = cstr "ip4:" ++ dotted pkt.yiaddr ++ cstr "," ++ cstr "255.255.255.0" ++
          cstr ";" := by
      unfold ip4_cmd_classc; rw [if_neg hbc]
    simp only [hbc, decide_False, if_false, Bool.false_eq_true]
    rw [← e, hsn, hstr, hcat]

set_option maxRecDepth 100000 in
/-- Witness for C11 (amended): a packet without subnet option against the all-zero cache. -/
theorem send_client_ip_class_c_witness :
    send_client_ip get_dhcp_opt_of_get_option dhcpmsg_zero [] 2048 pkt_without_subnet
      = (29, cstr "ip4:192.0.2.50,255.255.255.0;") := by
  have h := send_client_ip_class_c get_dhcp_opt_of_get_option dhcpmsg_zero pkt_without_subnet
    [] 2048 (by decide) (by decide) (by decide) (by decide) (by decide)
  rw [h]
  decide

/-- Counterexample to C12: for the hostname payload `h;i` the command produced by
`ifchd_cmd` is `host:h;i;`: its value part contains `;` and the command holds two `;`, so
the worker reads it as two commands. -/
theorem ifchd_cmd_semicolon_counterexample :
    ifchd_cmd [] 2048 (cstr "h;i") 3 DCODE_HOSTNAME = (9, ifch_command (cstr "host") (cstr "h;i")) ∧
    ifch_command (cstr "host") (cstr "h;i") = cstr "host:h;i;" ∧
    (59 : Nat) ∈ cstr "h;i" ∧
    (cstr "host:h;i;").count 59 = 2 := by
  refine ⟨by decide, by decide, by decide, by decide⟩

/-- C12 (amended): for the keys routr, tzone and mtu every command produced by `ifchd_cmd`
has the form key `:` value `;` where the value holds no `;`, so the command holds exactly
one `;`, as its final byte.  For the keys host and dom the command has the same form with
the value being the payload up to its first NUL byte, copied as it is: a `;` of the payload
is a `;` of the value. -/
theorem ifchd_cmd_form (buf payload : List Nat) (hb : isBytes payload) :
    (4 ≤ payload.length → ∃ v, (59 : Nat) ∉ v ∧
      ifchd_cmd buf 2048 payload payload.length DCODE_ROUTER
        = (((ifch_command (cstr "routr") v).length : Int), ifch_command (cstr "routr") v)) ∧
    (4 ≤ payload.length → ∃ v, (59 : Nat) ∉ v ∧
      ifchd_cmd buf 2048 payload payload.length DCODE_TIMEZONE
        = (((ifch_command (cstr "tzone") v).length : Int), ifch_command (cstr "tzone") v)) ∧
    (2 ≤ payload.length → ∃ v, (59 : Nat) ∉ v ∧
      ifchd_cmd buf 2048 payload payload.length DCODE_MTU
        = (((ifch_command (cstr "mtu") v).length : Int), ifch_command (cstr "mtu") v)) ∧
    (payload.length ≤ 2040 →
      ifchd_cmd buf 2048 payload payload.length DCODE_HOSTNAME
        = (((ifch_command (cstr "host") (payload.takeWhile (· ≠ 0))).length : Int),
            ifch_command (cstr "host") (payload.takeWhile (· ≠ 0)))) ∧
    (payload.length ≤ 2040 →
      ifchd_cmd buf 2048 payload payload.length DCODE_DOMAIN
        = (((ifch_command (cstr "dom") (payload.takeWhile (· ≠ 0))).length : Int),
            ifch_command (cstr "dom") (payload.takeWhile (· ≠ 0)))) := by
  obtain ⟨k1, k2, k3, k4, k5, _⟩ := cmd_keys_no_nul
  refine ⟨?_, ?_, ?_, ?_, ?_⟩
  · intro h4
    refine ⟨dotted payload, dotted_no_semicolon _, ?_⟩
    have := ifchd_cmd_ip_ok buf CMD_ROUTER payload k1 (by decide) hb h4
    simpa [ifchd_cmd, DCODE_ROUTER] using this
  · intro h4
    obtain ⟨hlo, hhi⟩ := to_int32_range (ntohl_at payload)
    refine ⟨fmt_d (to_int32 (ntohl_at payload)), (fmt_d_props _ hlo hhi).2.2, ?_⟩
    have := ifchd_cmd_s32_ok buf CMD_TIMEZONE payload k4 (by decide) h4
    simpa [ifchd_cmd, DCODE_ROUTER, DCODE_DNS, DCODE_LPRSVR, DCODE_NTPSVR, DCODE_WINS,
      DCODE_HOSTNAME, DCODE_DOMAIN, DCODE_TIMEZONE] using this
  · intro h2
    refine ⟨fmt_u (ntohs_at payload), fmt_u_no_semicolon _, ?_⟩
    have := ifchd_cmd_u16_ok buf CMD_MTU payload k5 (by decide) hb h2
    simpa [ifchd_cmd, DCODE_ROUTER, DCODE_DNS, DCODE_LPRSVR, DCODE_NTPSVR, DCODE_WINS,
      DCODE_HOSTNAME, DCODE_DOMAIN, DCODE_TIMEZONE, DCODE_MTU] using this
  · intro hl
    have := ifchd_cmd_bytes_ok buf CMD_HOSTNAME payload k2 (by decide) hl
    simpa [ifchd_cmd, DCODE_ROUTER, DCODE_DNS, DCODE_LPRSVR, DCODE_NTPSVR, DCODE_WINS,
      DCODE_HOSTNAME] using this
  · intro hl
    have := ifchd_cmd_bytes_ok buf CMD_DOMAIN payload k3 (by decide) hl
    simpa [ifchd_cmd, DCODE_ROUTER, DCODE_DNS, DCODE_LPRSVR, DCODE_NTPSVR, DCODE_WINS,
      DCODE_HOSTNAME, DCODE_DOMAIN] using this

/-- Witness for C12 (amended): the payload 192.0.2.1. -/
theorem ifchd_cmd_form_witness :
    ∃ v, (59 : Nat) ∉ v ∧
      ifchd_cmd [] 2048 [192, 0, 2, 1] ([192, 0, 2, 1] : List Nat).length DCODE_ROUTER
        = (((ifch_command (cstr "routr") v).length : Int), ifch_command (cstr "routr") v) :=
  (ifchd_cmd_form [] [192, 0, 2, 1] (by decide)).1 (by decide)

/-- C13: `ifchd_cmd` evaluated on an ipttl option.  For the payload byte 64 the command is
`ipttl:@;` (the byte itself, not its decimal text `64`), for the byte 59 it is `ipttl:;;`,
and for the byte 0 it is `ipttl:;`. -/
theorem ifchd_cmd_ipttl_raw_byte :
    ifchd_cmd [] 2048 [64] 1 DCODE_IPTTL = (8, cstr "ipttl:@;") ∧
    ifchd_cmd [] 2048 [64] 1 DCODE_IPTTL ≠ (9, cstr "ipttl:64;") ∧
    ifchd_cmd [] 2048 [59] 1 DCODE_IPTTL = (8, cstr "ipttl:;;") ∧
    ifchd_cmd [] 2048 [0] 1 DCODE_IPTTL = (7, cstr "ipttl:;") := by
  refine ⟨by decide, by decide, by decide, by decide⟩

/-- C15: for every router option payload of at least 4 bytes, `ifchd_cmd` with code
`DCODE_ROUTER` produces `routr:`, the dotted-decimal text of the first 4 bytes, and `;`,
and returns the length of that command; for a payload shorter than 4 bytes it returns -1
and leaves the buffer as it was. -/
theorem ifchd_cmd_router (buf payload : List Nat) (hb : isBytes payload) :
    (4 ≤ payload.length →
      ifchd_cmd buf 2048 payload payload.length DCODE_ROUTER
        = (((cstr "routr:" ++ dotted payload ++ cstr ";").length : Int),
            cstr "routr:" ++ dotted payload ++ cstr ";")) ∧
    (payload.length < 4 →
      ifchd_cmd buf 2048 payload payload.length DCODE_ROUTER = (-1, buf)) := by
  constructor
  · intro h4
    have := ifchd_cmd_ip_ok buf CMD_ROUTER payload cmd_keys_no_nul.1 (by decide) hb h4
    have e : ifch_command CMD_ROUTER (dotted payload)
        = cstr "routr:" ++ dotted payload ++ cstr ";" := by
      unfold ifch_command
      rw [show CMD_ROUTER ++ cstr ":" = cstr "routr:" by decide]
    rw [e] at this
    simp only [ifchd_cmd, DCODE_ROUTER, if_true]
    exact this
  · intro h4
    simp only [ifchd_cmd, DCODE_ROUTER, if_true, ifchd_cmd_ip]
    rw [if_pos (by omega)]

/-- Witness for C15: a payload that lists two routers yields one address. -/
theorem ifchd_cmd_router_witness :
    ifchd_cmd [] 2048 [192, 0, 2, 1, 192, 0, 2, 254]
        ([192, 0, 2, 1, 192, 0, 2, 254] : List Nat).length DCODE_ROUTER
      = (16, cstr "routr:192.0.2.1;") := by
  have h := (ifchd_cmd_router [] [192, 0, 2, 1, 192, 0, 2, 254] (by decide)).1 (by decide)
  rw [h]
  decide

set_option maxRecDepth 100000 in
/-- Counterexample to C14: the cached packet is the one of scenario S1; the new packet is
the same with an ntpsrv, an lprsvr, a timezone and an ipttl option added, each differing
from the cached packet (which has none); `ifchange_bind` writes nothing to the worker. -/
theorem ifchange_bind_unsent_keys_counterexample :
    get_dhcp_opt_of_get_option pkt_s1_more DCODE_NTPSVR = [192, 0, 2, 7] ∧
    get_dhcp_opt_of_get_option pkt_s1_more DCODE_LPRSVR = [192, 0, 2, 8] ∧
    get_dhcp_opt_of_get_option pkt_s1_more DCODE_TIMEZONE = [0, 0, 14, 16] ∧
    get_dhcp_opt_of_get_option pkt_s1_more DCODE_IPTTL = [64] ∧
    get_dhcp_opt_of_get_option pkt_s1 DCODE_NTPSVR = [] ∧
    get_dhcp_opt_of_get_option pkt_s1 DCODE_LPRSVR = [] ∧
    get_dhcp_opt_of_get_option pkt_s1 DCODE_TIMEZONE = [] ∧
    get_dhcp_opt_of_get_option pkt_s1 DCODE_IPTTL = [] ∧
    (ifchange_bind get_dhcp_opt_of_get_option st_bound_s1 (some pkt_s1_more)).pipe = [] := by
  refine ⟨by decide, by decide, by decide, by decide, by decide, by decide, by decide,
    by decide, by decide⟩

/-- C14 (amended): `ifchange_bind` emits commands for `yiaddr` with subnet and broadcast
(`ip4`), router, dns, hostname, domain, mtu and wins only.  For every option extractor,
state and packet, the state it leaves (the command stream written to the worker included)
is the one it leaves when every other option is reported as absent from the packet and
from the cached packet: an ntpsrv, lprsvr, timezone or ipttl option, changed or not, has
no influence on the stream. -/
theorem ifchange_bind_only_bound_options (gdo : dhcpmsg → Nat → List Nat) (st : IfchState)
    (packet : Option dhcpmsg) :
    ifchange_bind gdo st packet = ifchange_bind (only_bound_options gdo) st packet := by
  cases packet with
  | none => rfl
  | some pkt =>
    have hc : ∀ code, code ∈ bound_options → ∀ p, gdo p code = only_bound_options gdo p code := by
      intro code hcode p
      simp only [only_bound_options, hcode, if_true]
    have h1 := send_client_ip_congr gdo (only_bound_options gdo)
      (hc _ (by decide)) (hc _ (by decide))
    have h2 := send_cmd_congr gdo (only_bound_options gdo) DCODE_ROUTER (hc _ (by decide))
    have h3 := send_cmd_congr gdo (only_bound_options gdo) DCODE_DNS (hc _ (by decide))
    have h4 := send_cmd_congr gdo (only_bound_options gdo) DCODE_HOSTNAME (hc _ (by decide))
    have h5 := send_cmd_congr gdo (only_bound_options gdo) DCODE_DOMAIN (hc _ (by decide))
    have h6 := send_cmd_congr gdo (only_bound_options gdo) DCODE_MTU (hc _ (by decide))
    have h7 := send_cmd_congr gdo (only_bound_options gdo) DCODE_WINS (hc _ (by decide))
    simp only [ifchange_bind, h1, h2, h3, h4, h5, h6, h7]

set_option maxRecDepth 100000 in
/-- Counterexample to C19: in a state with `ifchWorking` = 1 (and `ifDeconfig` = 0)
`ifchange_deconfig` writes the deconfig command to the worker pipe, and `ifchange_bind` on
the packet of scenario S1 writes a command batch. -/
theorem ifch_busy_write_counterexample :
    st_busy.cs.ifchWorking = 1 ∧
    (ifchange_deconfig st_busy).pipe = [cstr "ip4:0.0.0.0,255.255.255.255;"] ∧
    (ifchange_bind get_dhcp_opt_of_get_option st_busy (some pkt_s1)).pipe
      = [cstr "ip4:192.0.2.50,255.255.255.0;routr:192.0.2.1;dns:dns:8.8.8.8,1.1.1.1;;"] := by
  refine ⟨rfl, by decide, by decide⟩

/-- C19 (amended): `ifchange_bind` and `ifchange_deconfig` do not look at
`cs->ifchWorking`: for every state, packet and value `w`, what each of them writes to the
worker pipe is the same when `ifchWorking` is replaced by `w`; and whenever one of them
writes, `ifchWorking` is 1 afterwards.  Neither of them sets `ifchWorking` back: afterwards
it has its old value or is 1. -/
theorem ifch_write_ignores_working (gdo : dhcpmsg → Nat → List Nat) (st : IfchState)
    (packet : Option dhcpmsg) (w : Nat) :
    (ifchange_bind gdo { st with cs := { st.cs with ifchWorking := w } } packet).pipe
      = (ifchange_bind gdo st packet).pipe ∧
    (ifchange_deconfig { st with cs := { st.cs with ifchWorking := w } }).pipe
      = (ifchange_deconfig st).pipe ∧
    ((ifchange_bind gdo st packet).pipe = st.pipe ∨
      (ifchange_bind gdo st packet).cs.ifchWorking = 1) ∧
    ((ifchange_deconfig st).pipe = st.pipe ∨ (ifchange_deconfig st).cs.ifchWorking = 1) ∧
    ((ifchange_bind gdo st packet).cs.ifchWorking = st.cs.ifchWorking ∨
      (ifchange_bind gdo st packet).cs.ifchWorking = 1) ∧
    ((ifchange_deconfig st).cs.ifchWorking = st.cs.ifchWorking ∨
      (ifchange_deconfig st).cs.ifchWorking = 1) := by
  refine ⟨?_, ?_, ?_, ?_, ifchange_bind_working gdo st packet, ifchange_deconfig_working st⟩
  · cases packet with
    | none => rfl
    | some pkt =>
      simp only [ifchange_bind]
      split <;> rfl
  · simp only [ifchange_deconfig]
    split <;> rfl
  · cases packet with
    | none => exact Or.inl rfl
    | some pkt =>
      simp only [ifchange_bind]
      split
      · exact Or.inr rfl
      · exact Or.inl rfl
  · simp only [ifchange_deconfig]
    split
    · exact Or.inl rfl
    · exact Or.inr rfl

/-- C20: `handle_ifch_message`, when `safe_read` delivers one byte `c`, returns with
`cs.ifchWorking` set to 0 and nothing else changed if `c` is `+`, and with the whole
client state unchanged for every other byte; when the read reports `EAGAIN` or
`EWOULDBLOCK` it returns with the state unchanged. -/
theorem handle_ifch_message_effect (cs : client_state_t) (c : Nat) :
    handle_ifch_message cs (.byte c)
      = .returns (if c = '+'.toNat then { cs with ifchWorking := 0 } else cs) ∧
    '+'.toNat = 43 ∧
    handle_ifch_message cs .eagain = .returns cs ∧
    handle_ifch_message cs .ewouldblock = .returns cs := by
  refine ⟨?_, by decide, rfl, rfl⟩
  simp only [handle_ifch_message]
  split <;> rfl

/-! ## Claims about link messages -/

/-- C16: for every `RTM_NEWLINK` message addressed to the client's interface index (the
recorded one, or the one `get_if_index_and_mac` has just recorded from this message),
`nl_process_msgs` returns with `cs->ifsPrevState` set to `IFS_UP` when `IFF_UP` and
`IFF_RUNNING` are both set, to `IFS_DOWN` when `IFF_UP` is set and `IFF_RUNNING` is clear,
and to `IFS_SHUT` when `IFF_UP` is clear; the matching action (`ifup_action`,
`ifnocarrier_action`, `ifdown_action`) is invoked once when that state differs from the
previous `ifsPrevState` and no action is invoked when it is the same; delivering the same
message a second time changes nothing and invokes no action. -/
theorem nl_process_msgs_newlink (st st0 : NlState) (m : nl_link_msg)
    (hty : m.nlmsg_type = RTM_NEWLINK)
    (hlook : nl_newlink_lookup st m = .returns st0)
    (hidx : m.ifi_index = st0.client_config.ifindex) :
    nl_process_msgs st m = .returns (link_applied st0 m.ifi_flags) ∧
    (link_applied st0 m.ifi_flags).cs.ifsPrevState = link_state_of_flags m.ifi_flags ∧
    (link_applied st0 m.ifi_flags).actions = st0.actions ++
      (if st0.cs.ifsPrevState ≠ link_state_of_flags m.ifi_flags
        then [link_action_of_flags m.ifi_flags] else []) ∧
    nl_process_msgs (link_applied st0 m.ifi_flags) m
      = .returns (link_applied st0 m.ifi_flags) := by
  have h1 : nl_process_msgs st m = .returns (link_applied st0 m.ifi_flags) := by
    simp only [nl_process_msgs, hty, if_true, hlook]
    exact nl_process_newlink_eq st0 m hidx
  refine ⟨h1, rfl, rfl, ?_⟩
  have hcfg : (link_applied st0 m.ifi_flags).client_config = st0.client_config := rfl
  have hlook2 : nl_newlink_lookup (link_applied st0 m.ifi_flags) m
      = .returns (link_applied st0 m.ifi_flags) := by
    unfold nl_newlink_lookup at hlook ⊢
    rw [hcfg]
    by_cases h0 : st0.client_config.ifindex = 0
    · rw [if_pos h0]
      by_cases hs : st.client_config.ifindex = 0
      · rw [if_pos hs] at hlook
        unfold get_if_index_and_mac at hlook ⊢
        cases hn : m.ifla_ifname with
        | none => rfl
        | some name =>
          rw [hn] at hlook
          simp only at hlook ⊢
          by_cases hcmp : strncmp_eq st.client_config.interface name IFNAMSIZ = true
          · rw [if_pos hcmp] at hlook
            cases ha : m.ifla_address with
            | none => rw [ha] at hlook; simp at hlook
            | some mac =>
              rw [ha] at hlook
              simp only at hlook
              by_cases hl : mac.length ≠ 6
              · rw [if_pos hl] at hlook; simp at hlook
              · rw [if_neg hl] at hlook
                simp only [Outcome.returns.injEq] at hlook
                subst hlook
                simp only [hcfg, hcmp, if_true, if_neg hl]
                rfl
          · rw [if_neg hcmp] at hlook
            simp only [Outcome.returns.injEq] at hlook
            subst hlook
            rw [hcfg, if_neg hcmp]
      · rw [if_neg hs] at hlook
        simp only [Outcome.returns.injEq] at hlook
        subst hlook
        exact absurd h0 hs
    · rw [if_neg h0]
  simp only [nl_process_msgs, hty, if_true, hlook2]
  rw [nl_process_newlink_eq _ m (by rw [hcfg]; exact hidx), link_applied_twice]

/-- Witness for C16: the interface with recorded index 2 in link state DOWN receives a
message with `IFF_UP` and `IFF_RUNNING`: the state becomes UP and `ifup_action` is invoked
once. -/
theorem nl_process_msgs_newlink_witness :
    nl_process_msgs nl_known msg_up = .returns (link_applied nl_known msg_up.ifi_flags) ∧
    (link_applied nl_known msg_up.ifi_flags).cs.ifsPrevState = .IFS_UP ∧
    (link_applied nl_known msg_up.ifi_flags).actions = [.ifup_action] ∧
    nl_process_msgs (link_applied nl_known msg_up.ifi_flags) msg_up
      = .returns (link_applied nl_known msg_up.ifi_flags) :=
  nl_process_msgs_newlink nl_known nl_known msg_up rfl rfl rfl

/-- C17: for every `RTM_DELLINK` message whose `ifi_index` equals the client's ifindex
while `cs->ifsPrevState` is not `IFS_REMOVED`, `nl_process_msgs` sets `ifsPrevState` to
`IFS_REMOVED` and ends the process with `exit(EXIT_SUCCESS)`, status 0; nothing else of the
state changes and no action is invoked. -/
theorem nl_process_msgs_dellink (st : NlState) (m : nl_link_msg)
    (hty : m.nlmsg_type = RTM_DELLINK)
    (hidx : m.ifi_index = st.client_config.ifindex)
    (hprev : st.cs.ifsPrevState ≠ .IFS_REMOVED) :
    nl_process_msgs st m
      = .exits 0 { st with cs := { st.cs with ifsPrevState := .IFS_REMOVED } } ∧
    ({ st with cs := { st.cs with ifsPrevState := .IFS_REMOVED } } : NlState).actions
      = st.actions := by
  refine ⟨?_, rfl⟩
  have hne : RTM_DELLINK ≠ RTM_NEWLINK := by decide
  simp only [nl_process_msgs, hty, hne, if_false, if_true, hidx, ne_eq, not_true_eq_false,
    hprev, not_false_eq_true, EXIT_SUCCESS]

/-- Witness for C17: the interface with recorded index 2 is removed. -/
theorem nl_process_msgs_dellink_witness :
    nl_process_msgs nl_known msg_del
      = .exits 0 { nl_known with cs := { nl_known.cs with ifsPrevState := .IFS_REMOVED } } ∧
    ({ nl_known with cs := { nl_known.cs with ifsPrevState := .IFS_REMOVED } } : NlState).actions
      = nl_known.actions :=
  nl_process_msgs_dellink nl_known msg_del rfl rfl (by decide)

/-- Counterexample to C18: the client's interface is `eth0` with recorded index 2 and link
state DOWN.  An up-and-running `RTM_NEWLINK` message named `eth0` with index 3 is ignored;
one named `eth1` with index 2 is processed (the state becomes UP and `ifup_action` is
invoked), exactly as the message named `eth0` with index 2 is. -/
theorem nl_process_msgs_name_counterexample :
    nl_known.client_config.interface = cstr "eth0" ∧ nl_known.client_config.ifindex = 2 ∧
    msg_other_index.ifla_ifname = some (cstr "eth0") ∧ msg_other_index.ifi_index = 3 ∧
    nl_process_msgs nl_known msg_other_index = .returns nl_known ∧
    msg_other_name.ifla_ifname = some (cstr "eth1") ∧ msg_other_name.ifi_index = 2 ∧
    nl_process_msgs nl_known msg_other_name
      = .returns { nl_known with
          cs := { nl_known.cs with ifsPrevState := .IFS_UP }, actions := [.ifup_action] } ∧
    nl_process_msgs nl_known msg_other_name = nl_process_msgs nl_known msg_up := by
  refine ⟨rfl, rfl, rfl, rfl, by decide, rfl, rfl, by decide, by decide⟩

/-- C18 (amended): link messages are attributed to the client's interface by index; the
name serves only to learn the index.  Once `client_config.ifindex` is nonzero,
`nl_process_msgs` gives the same result whatever the `IFLA_IFNAME` and `IFLA_ADDRESS`
attributes of the message are, and it ignores every message whose `ifi_index` differs from
`client_config.ifindex`.  While `client_config.ifindex` is 0, an `RTM_NEWLINK` message
without name, or with a name other than `client_config.interface`, is ignored (unless its
`ifi_index` is 0), and one with that name and a 6-byte hardware address has its index and
address recorded and is then processed. -/
theorem nl_process_msgs_by_index (st : NlState) (m : nl_link_msg) :
    (st.client_config.ifindex ≠ 0 →
      (∀ name addr, nl_process_msgs st { m with ifla_ifname := name, ifla_address := addr }
        = nl_process_msgs st m) ∧
      (m.ifi_index ≠ st.client_config.ifindex → nl_process_msgs st m = .returns st)) ∧
    (st.client_config.ifindex = 0 → m.nlmsg_type = RTM_NEWLINK → m.ifi_index ≠ 0 →
      (m.ifla_ifname = none ∨ ∃ name, m.ifla_ifname = some name ∧
        strncmp_eq st.client_config.interface name IFNAMSIZ = false) →
      nl_process_msgs st m = .returns st) ∧
    (st.client_config.ifindex = 0 → m.nlmsg_type = RTM_NEWLINK →
      ∀ name mac, m.ifla_ifname = some name →
        strncmp_eq st.client_config.interface name IFNAMSIZ = true →
        m.ifla_address = some mac → mac.length = 6 →
      nl_process_msgs st m = .returns (link_applied
        { st with client_config :=
            { st.client_config with ifindex := m.ifi_index, arp := mac } } m.ifi_flags)) := by
  refine ⟨?_, ?_, ?_⟩
  · intro hknown
    refine ⟨?_, ?_⟩
    · intro name addr
      simp only [nl_process_msgs, nl_newlink_lookup, if_neg hknown, nl_process_newlink]
    · intro hne
      simp only [nl_process_msgs, nl_newlink_lookup, if_neg hknown, nl_process_newlink]
      by_cases h1 : m.nlmsg_type = RTM_NEWLINK
      · simp [h1, hne]
      · by_cases h2 : m.nlmsg_type = RTM_DELLINK
        · simp [h1, h2, hne]
        · simp [h1, h2]
  · intro h0 hty hidx hname
    have hne : m.ifi_index ≠ st.client_config.ifindex := by rw [h0]; exact hidx
    have hlook : nl_newlink_lookup st m = .returns st := by
      simp only [nl_newlink_lookup, if_pos h0, get_if_index_and_mac]
      rcases hname with hn | ⟨name, hn, hcmp⟩
      · rw [hn]
      · rw [hn]
        simp only [hcmp, Bool.false_eq_true, if_false]
    simp only [nl_process_msgs, hty, if_true, hlook, nl_process_newlink, hne, ne_eq,
      not_false_eq_true]
  · intro h0 hty name mac hn hcmp ha hl
    have hlook : nl_newlink_lookup st m = .returns
        { st with client_config :=
            { st.client_config with ifindex := m.ifi_index, arp := mac } } := by
      simp only [nl_newlink_lookup, if_pos h0, get_if_index_and_mac, hn, hcmp, if_true, ha, hl,
        ne_eq, not_true_eq_false, if_false]
    simp only [nl_process_msgs, hty, if_true, hlook]
    exact nl_process_newlink_eq _ m rfl

/-- Witness for C18 (amended): with the recorded index 2, the message for index 3 that
carries the configured name is ignored. -/
theorem nl_process_msgs_by_index_witness :
    nl_process_msgs nl_known msg_other_index = .returns nl_known :=
  ((nl_process_msgs_by_index nl_known msg_other_index).1 (by decide)).2 (by decide)

/-! ## The cached packet, appending options, the scan of `get_option`, signals and the command line -/

/-- C21 (counterexample): from the start-up state one `ifchange_bind` with an all-zero
packet is made; a lease is applied (a bind happened and no deconfig followed), and the cached
packet is all-zero. -/
theorem cfg_packet_zero_bind_counterexample :
    lease_applied [.bind (some dhcpmsg_zero)] = some dhcpmsg_zero ∧
    (ifch_run get_dhcp_opt_of_get_option st_init [.bind (some dhcpmsg_zero)]).cfg_packet
      = dhcpmsg_zero := by
  exact ⟨rfl, rfl⟩

/-- C21 (amended): in every state reached from a state with an all-zero cached packet (the
start-up state is one) by calls to `ifchange_bind` and `ifchange_deconfig`, the cached
packet is the packet of the applied lease, and all-zero when no lease is applied; when no
packet that was bound is all-zero, the cached packet is all-zero exactly when no lease is
applied, that is, when no `ifchange_bind` with a packet happened since start-up or since the
last `ifchange_deconfig`.  After every `ifchange_bind` with a packet, from whatever state,
the cache equals the packet and `ifDeconfig` is 0. -/
theorem cfg_packet_tracks_lease (gdo : dhcpmsg → Nat → List Nat) (st0 : IfchState)
    (calls : List IfchCall) (h0 : st0.cfg_packet = dhcpmsg_zero) :
    (ifch_run gdo st0 calls).cfg_packet = (lease_applied calls).getD dhcpmsg_zero ∧
    ((∀ P, IfchCall.bind (some P) ∈ calls → P ≠ dhcpmsg_zero) →
      ((ifch_run gdo st0 calls).cfg_packet = dhcpmsg_zero ↔ lease_applied calls = none)) ∧
    ∀ (st : IfchState) (P : dhcpmsg),
      (ifchange_bind gdo st (some P)).cfg_packet = P ∧
      (ifchange_bind gdo st (some P)).cs.ifDeconfig = 0 := by
  have hcfg := ifch_run_cfg gdo calls st0 none h0 (fun _ => h0)
  refine ⟨hcfg, ?_, ifchange_bind_cfg gdo⟩
  intro hc
  unfold lease_applied
  rw [hcfg]
  constructor
  · intro hz
    cases ha : calls.foldl lease_step none with
    | none => rfl
    | some P =>
      rw [ha] at hz
      simp only [Option.getD_some] at hz
      rcases lease_applied_mem calls none P ha with h1 | h1
      · cases h1
      · exact absurd hz (hc P h1)
  · intro hn
    rw [hn]
    rfl

/-- C21 (witness): bind the packet of scenario S1, deconfigure, bind it again; and bind it,
then deconfigure. -/
theorem cfg_packet_tracks_lease_witness :
    ((ifch_run get_dhcp_opt_of_get_option st_init
        [.bind (some pkt_s1), .deconfig, .bind (some pkt_s1)]).cfg_packet = pkt_s1) ∧
    ((ifch_run get_dhcp_opt_of_get_option st_init
        [.bind (some pkt_s1), .deconfig]).cfg_packet = dhcpmsg_zero ↔
      lease_applied [.bind (some pkt_s1), .deconfig] = none) :=
  ⟨(cfg_packet_tracks_lease get_dhcp_opt_of_get_option st_init
      [.bind (some pkt_s1), .deconfig, .bind (some pkt_s1)] rfl).1,
    (cfg_packet_tracks_lease get_dhcp_opt_of_get_option st_init
      [.bind (some pkt_s1), .deconfig] rfl).2.1
      (by
        intro P hP
        simp only [List.mem_cons, IfchCall.bind.injEq, Option.some.injEq, List.mem_singleton,
          reduceCtorEq, or_false, List.mem_nil_iff] at hP
        rw [hP]
        intro h
        have hy := congrArg dhcpmsg.yiaddr h
        exact absurd hy (by decide))⟩

set_option maxRecDepth 100000 in
/-- C22 (counterexample): the option string `[255, 0]` (code 255, length 0) is appended to
the empty well-formed buffer, whose END is at index 0; `add_option_string` returns 2, and
`end_option` of the new buffer is 0, not 0 + 0 + 2. -/
theorem add_option_string_end_code_counterexample :
    end_option (ser [] ++ DHCP_END :: List.replicate 307 0) = some 0 ∧
    (add_option_string (ser [] ++ DHCP_END :: List.replicate 307 0) [255, 0]).map
      (fun r => (r.1, r.2.take 3, end_option r.2)) = some (2, [255, 0, 255], some 0) := by
  refine ⟨by decide, by decide⟩

/-- C22 (amended): for every 308-byte options buffer and every option string
`s = [code, len, data...]` of `len + 2` bytes, `end_option` returns some `e`, and if
`e + len + 3 < 308` then `add_option_string` returns `len + 2`, the bytes
`[e, e + len + 2)` of the new buffer are `s`, the byte at `e + len + 2` is END, the bytes
below `e` are unchanged, and, when the buffer was a well-formed sequence up to `e` and the
code of `s` is neither PAD nor END, `end_option` of the new buffer is `e + len + 2`. -/
theorem add_option_string_appends (buf s : List Nat) (l : Nat)
    (hbuf : buf.length = DHCP_OPTIONS_BUFSIZE) (hs : s.length = l + 2)
    (hl : s.getD OPT_LEN 0 = l) :
    ∃ e, end_option buf = some e ∧
      (e + l + 3 < 308 →
        ∃ buf1, add_option_string buf s = some (((l + 2 : Nat) : Int), buf1) ∧
          buf1.length = DHCP_OPTIONS_BUFSIZE ∧
          (buf1.drop e).take (l + 2) = s ∧
          buf1.getD (e + l + 2) 0 = DHCP_END ∧
          buf1.take e = buf.take e ∧
          ∀ (items : List Item) (t : List Nat), buf = ser items ++ DHCP_END :: t →
            (∀ i ∈ items, i.ok) →
            s.getD OPT_CODE 0 ≠ DHCP_PADDING → s.getD OPT_CODE 0 ≠ DHCP_END →
            end_option buf1 = some (e + l + 2)) := by
  obtain ⟨e, he, hle⟩ := end_option_total buf
  have h308 : DHCP_OPTIONS_BUFSIZE = 308 := rfl
  refine ⟨e, he, fun hfit => ?_⟩
  refine ⟨_, add_option_string_eq buf s l e hbuf hs hl he (by omega), ?_, ?_, ?_, ?_, ?_⟩
  · simp only [List.length_append, List.length_cons, List.length_take, List.length_drop, hs,
      hbuf]
    omega
  · have h1 : (buf.take e).length = e := by simp [hbuf]; omega
    rw [List.append_assoc, List.drop_append_eq_append_drop, h1, Nat.sub_self,
      List.drop_of_length_le (by omega), List.drop_zero, List.nil_append,
      List.take_append_eq_append_take, hs, Nat.sub_self, List.take_zero, List.append_nil,
      List.take_of_length_le (by omega)]
  · have h1 : (buf.take e ++ s).length = e + l + 2 := by
      simp only [List.length_append, List.length_take, hs, hbuf]; omega
    rw [← h1, List.getD_append_right _ _ _ _ (Nat.le_refl _), Nat.sub_self]
    rfl
  · have h1 : (buf.take e).length = e := by simp [hbuf]; omega
    rw [List.append_assoc, List.take_append_eq_append_take, h1, Nat.sub_self, List.take_zero,
      List.append_nil, List.take_take, Nat.min_self]
  · intro items t hwf hok hc0 hc1
    have hlen := congrArg List.length hwf
    simp only [hbuf, List.length_append, List.length_cons] at hlen
    have hE : end_option buf = some (ser items).length := by
      rw [hwf]; exact end_option_wf_le items t hok (by omega)
    have hee : e = (ser items).length := by
      rw [he] at hE; exact Option.some.inj hE
    obtain ⟨c, s1, hs1⟩ : ∃ c s1, s = c :: s1 := by
      cases s with
      | nil => simp at hs
      | cons c s1 => exact ⟨c, s1, rfl⟩
    obtain ⟨l1, d, hd⟩ : ∃ l1 d, s1 = l1 :: d := by
      cases s1 with
      | nil => simp [hs1] at hs
      | cons l1 d => exact ⟨l1, d, rfl⟩
    subst hs1 hd
    have hl1 : l1 = l := by simpa [OPT_LEN] using hl
    have hdl : d.length = l := by simpa using hs
    have hc0a : c ≠ DHCP_PADDING := by simpa [OPT_CODE] using hc0
    have hc1a : c ≠ DHCP_END := by simpa [OPT_CODE] using hc1
    have htake : buf.take e = ser items := by
      rw [hwf, hee, List.take_left]
    have hser : ser (items ++ [Item.opt c d]) = ser items ++ (c :: l1 :: d) := by
      rw [ser_append]; simp [ser, Item.bytes, hl1, hdl]
    rw [htake, ← hser]
    have hok2 : ∀ i ∈ items ++ [Item.opt c d], i.ok := by
      intro i hi
      rcases List.mem_append.1 hi with h | h
      · exact hok i h
      · rw [List.mem_singleton.1 h]; exact ⟨hc0a, hc1a⟩
    have hlen2 : (ser (items ++ [Item.opt c d])).length = e + l + 2 := by
      rw [hser, List.length_append, hs, hee]; omega
    rw [end_option_wf_le _ _ hok2 (by omega), hlen2]

set_option maxRecDepth 100000 in
/-- C22 (witness): the lease option `[51, 4, 0, 0, 14, 16]` is appended to the options of
`pkt_plain`, whose END is at index 3. -/
theorem add_option_string_appends_witness :
    end_option pkt_plain.options = some 3 ∧
    ∃ e, end_option pkt_plain.options = some e ∧
      (e + 4 + 3 < 308 →
        ∃ buf1, add_option_string pkt_plain.options [51, 4, 0, 0, 14, 16]
            = some (((4 + 2 : Nat) : Int), buf1) ∧
          buf1.length = DHCP_OPTIONS_BUFSIZE ∧
          (buf1.drop e).take (4 + 2) = [51, 4, 0, 0, 14, 16] ∧
          buf1.getD (e + 4 + 2) 0 = DHCP_END ∧
          buf1.take e = pkt_plain.options.take e ∧
          ∀ (items : List Item) (t : List Nat),
            pkt_plain.options = ser items ++ DHCP_END :: t →
            (∀ i ∈ items, i.ok) →
            ([51, 4, 0, 0, 14, 16] : List Nat).getD OPT_CODE 0 ≠ DHCP_PADDING →
            ([51, 4, 0, 0, 14, 16] : List Nat).getD OPT_CODE 0 ≠ DHCP_END →
            end_option buf1 = some (e + 4 + 2)) :=
  ⟨by decide,
    add_option_string_appends pkt_plain.options [51, 4, 0, 0, 14, 16] 4 (by decide) rfl rfl⟩

set_option maxRecDepth 100000 in
/-- C23 (counterexample): the options region holds option-overload with value 2 and no
option 12, `sname` holds an option-overload option with bit 0 set and no option 12, and `file`
holds option 12; `get_option` switches to `sname`, then to `file`, and returns the option of
`file`, not NULL. -/
theorem get_option_sname_overload_counterexample :
    pkt_sname_names_file.options = ser [.opt 52 [2]] ++ DHCP_END :: List.replicate 304 0 ∧
    pkt_sname_names_file.sname = ser [.opt 52 [1]] ++ DHCP_END :: List.replicate 60 0 ∧
    pkt_sname_names_file.file = ser [.opt 12 [65]] ++ DHCP_END :: List.replicate 124 0 ∧
    findOpt 12 [.opt 52 [2]] = none ∧ findOpt 12 [.opt 52 [1]] = none ∧
    get_option pkt_sname_names_file 12 = some (some ⟨.FILE_FIELD, 2⟩) ∧
    (get_option_log pkt_sname_names_file 12).map (fun r => r.2.causes)
      = some [(.SNAME_FIELD, [2]), (.FILE_FIELD, [2, 1])] := by
  refine ⟨rfl, rfl, rfl, by decide, by decide, by decide, by decide⟩

/-- C23 (amended): for every packet whose options region is a well-formed sequence ending in
END, `get_option` returns, and every switch to `file` (`sname`) it makes comes after a byte
with bit 0 (bit 1) set was ORed into `overload` from an option-overload option.  Hence, for a
code that does not occur in the options region: with no option 52 in the options region the
result is NULL; when every option 52 of the options region has value 1, and `file` is
well-formed and holds neither an option 52 nor the code, the result is NULL; when every
option 52 of the options region has value 2, and `sname` is well-formed and holds neither an
option 52 nor the code, the result is NULL. -/
theorem get_option_overload_regions (p : dhcpmsg) (c : Int) (iO : List Item) (tO : List Nat)
    (hO : p.options = ser iO ++ DHCP_END :: tO)
    (hOl : p.options.length = DHCP_OPTIONS_BUFSIZE) (hokO : ∀ i ∈ iO, i.ok) :
    (∃ r log, get_option_log p c = some (r, log) ∧ get_option p c = some r ∧
      log.starts = log.causes.map Prod.fst ∧
      ∀ s ∈ log.causes,
        (s.1 = .FILE_FIELD ∧ ∃ v ∈ s.2, v.testBit 0 = true) ∨
        (s.1 = .SNAME_FIELD ∧ ∃ v ∈ s.2, v.testBit 1 = true)) ∧
    (findOpt c iO = none →
      ((∀ d, Item.opt DHCP_OPTION_OVERLOAD d ∉ iO) → get_option p c = some none) ∧
      (∀ (iF : List Item) (tF : List Nat),
        (∀ d, Item.opt DHCP_OPTION_OVERLOAD d ∈ iO → d = [1]) →
        p.file = ser iF ++ DHCP_END :: tF → p.file.length = DHCP_FILE_SIZE →
        (∀ i ∈ iF, i.ok) → (∀ d, Item.opt DHCP_OPTION_OVERLOAD d ∉ iF) →
        findOpt c iF = none → get_option p c = some none) ∧
      (∀ (iS : List Item) (tS : List Nat),
        (∀ d, Item.opt DHCP_OPTION_OVERLOAD d ∈ iO → d = [2]) →
        p.sname = ser iS ++ DHCP_END :: tS → p.sname.length = DHCP_SNAME_SIZE →
        (∀ i ∈ iS, i.ok) → (∀ d, Item.opt DHCP_OPTION_OVERLOAD d ∉ iS) →
        findOpt c iS = none → get_option p c = some none)) := by
  have lO : iO.length ≤ 307 := by
    have := ser_length_ge iO
    have h := congrArg List.length hO
    simp [hOl, DHCP_OPTIONS_BUFSIZE] at h; omega
  have hstart : findOpt c iO = none → get_option p c =
      (let ov1 := 0 ||| ovl iO (DHCP_END :: tO)
       if ov1 &&& FILE_FIELD101 = FILE_FIELD then
          get_option_loop p c (get_option_fuel - iO.length - 1) .FILE_FIELD 0 DHCP_FILE_SIZE
            (ov1 ||| FILE_FIELD101)
        else if ov1 &&& SNAME_FIELD101 = SNAME_FIELD then
          get_option_loop p c (get_option_fuel - iO.length - 1) .SNAME_FIELD 0 DHCP_SNAME_SIZE
            (ov1 ||| SNAME_FIELD101)
        else some none) := by
    intro hf
    unfold get_option
    rw [loop_region p c .OPTION_FIELD iO tO hO hokO _ _ _ (by simp [region, hOl])
      (by simp [get_option_fuel, DHCP_OPTIONS_BUFSIZE]; omega), hf]
  refine ⟨?_, fun hf => ⟨?_, ?_, ?_⟩⟩
  · obtain ⟨r, log, h1, h2, _, _, h5, h6⟩ := get_option_log_total p c
    exact ⟨r, log, h1, h2, h5, h6⟩
  · intro hno
    rw [hstart hf, ovl_none iO _ hno]
    rfl
  · intro iF tF h1 hF hFl hokF hnoF hfF
    have lF : iF.length ≤ 127 := by
      have := ser_length_ge iF
      have h := congrArg List.length hF
      simp [hFl, DHCP_FILE_SIZE] at h; omega
    rw [hstart hf]
    rcases ovl_all iO (DHCP_END :: tO) 1 h1 with h0 | h0
    · rw [h0]; rfl
    · rw [h0]
      have e1 : (0 ||| 1) &&& FILE_FIELD101 = FILE_FIELD := by decide
      simp only [e1, if_true]
      rw [loop_region p c .FILE_FIELD iF tF hF hokF _ _ _ (by simp [region, hFl])
        (by simp [get_option_fuel, DHCP_OPTIONS_BUFSIZE, DHCP_FILE_SIZE, DHCP_SNAME_SIZE]; omega),
        hfF, ovl_none iF _ hnoF]
      rfl
  · intro iS tS h2 hS hSl hokS hnoS hfS
    have lS : iS.length ≤ 63 := by
      have := ser_length_ge iS
      have h := congrArg List.length hS
      simp [hSl, DHCP_SNAME_SIZE] at h; omega
    rw [hstart hf]
    rcases ovl_all iO (DHCP_END :: tO) 2 h2 with h0 | h0
    · rw [h0]; rfl
    · rw [h0]
      have e1 : ¬ ((0 ||| 2) &&& FILE_FIELD101 = FILE_FIELD) := by decide
      have e2 : (0 ||| 2) &&& SNAME_FIELD101 = SNAME_FIELD := by decide
      simp only [e1, e2, if_true, if_false]
      rw [loop_region p c .SNAME_FIELD iS tS hS hokS _ _ _ (by simp [region, hSl])
        (by simp [get_option_fuel, DHCP_OPTIONS_BUFSIZE, DHCP_FILE_SIZE, DHCP_SNAME_SIZE]; omega),
        hfS, ovl_none iS _ hnoS]
      rfl

set_option maxRecDepth 100000 in
/-- C23 (witness): a packet with option-overload 2 in the options region, option 12 in
`file` only and a well-formed `sname` without option 52; `get_option` for code 12 is NULL. -/
theorem get_option_overload_regions_witness :
    pkt_overload_sname.options = ser [.opt 52 [2]] ++ DHCP_END :: List.replicate 304 0 ∧
    pkt_overload_sname.file = ser [.opt 12 [65]] ++ DHCP_END :: List.replicate 124 0 ∧
    pkt_overload_sname.sname = ser [.opt 15 [66]] ++ DHCP_END :: List.replicate 60 0 ∧
    get_option pkt_overload_sname 12 = some none :=
  ⟨rfl, rfl, rfl,
    ((get_option_overload_regions pkt_overload_sname 12 [.opt 52 [2]] (List.replicate 304 0)
      rfl (by decide) (by decide)).2 (by decide)).2.2 [.opt 15 [66]] (List.replicate 60 0)
      (by intro d hd; simp at hd; exact hd.2) rfl (by decide) (by decide)
      (by intro d hd; simp [DHCP_OPTION_OVERLOAD] at hd) (by decide)⟩

/-- C24: let the options region of `p1` be a well-formed sequence `S` followed by END, and
let the options region of `p2` be `k` PAD bytes followed by the same `S` and END, both 308
bytes long, with the same `file` and `sname`.  Then for every code `get_option` returns on
both packets, NULL on both or pointers that designate the same option data, the one into the
options region of `p2` lying `k` bytes after the one for `p1`. -/
theorem get_option_skips_pad (p1 p2 : dhcpmsg) (c : Int) (items : List Item) (k : Nat)
    (t1 t2 : List Nat)
    (h1 : p1.options = ser items ++ DHCP_END :: t1)
    (h1l : p1.options.length = DHCP_OPTIONS_BUFSIZE)
    (h2 : p2.options = List.replicate k DHCP_PADDING ++ (ser items ++ DHCP_END :: t2))
    (h2l : p2.options.length = DHCP_OPTIONS_BUFSIZE)
    (hF : p2.file = p1.file) (hS : p2.sname = p1.sname) (hok : ∀ i ∈ items, i.ok) :
    ∃ r, get_option p1 c = some r ∧ get_option p2 c = some (r.map (OptPtr.shift k)) ∧
      ∀ q, r = some q → optData p2 (q.shift k) = optData p1 q := by
  have hl1 := ser_length_ge items
  have l1 : (ser items).length ≤ 307 := by
    have h := congrArg List.length h1
    simp [h1l, DHCP_OPTIONS_BUFSIZE] at h; omega
  have l2 : k + (ser items).length ≤ 307 := by
    have h := congrArg List.length h2
    simp [h2l, DHCP_OPTIONS_BUFSIZE] at h; omega
  have h2a : p2.options = ser (List.replicate k Item.pad ++ items) ++ DHCP_END :: t2 := by
    rw [ser_append, ser_replicate_pad, h2, List.append_assoc]
  have hok2 : ∀ i ∈ List.replicate k Item.pad ++ items, i.ok := by
    intro i hi
    rcases List.mem_append.1 hi with h | h
    · rw [(List.mem_replicate.1 h).2]; trivial
    · exact hok i h
  have e1 := loop_region p1 c .OPTION_FIELD items t1 h1 hok get_option_fuel 0
    DHCP_OPTIONS_BUFSIZE (by simp [region, h1l])
    (by simp [get_option_fuel, DHCP_OPTIONS_BUFSIZE]; omega)
  have e2 := loop_region p2 c .OPTION_FIELD (List.replicate k Item.pad ++ items) t2 h2a hok2
    get_option_fuel 0 DHCP_OPTIONS_BUFSIZE (by simp [region, h2l])
    (by simp [get_option_fuel, DHCP_OPTIONS_BUFSIZE]; omega)
  rw [findOpt_pads, ovl_pads, ovl_rest items DHCP_END t2 t1] at e2
  unfold get_option
  rw [e1, e2]
  cases hf : findOpt c items with
  | some r =>
    refine ⟨some ⟨.OPTION_FIELD, r.1⟩, rfl, rfl, ?_⟩
    intro q hq
    simp only [Option.some.injEq] at hq
    subst hq
    have d1 := findOpt_data c items [] (DHCP_END :: t1) p1.options r (by simpa using h1) hf
    have d2 := findOpt_data c items (List.replicate k DHCP_PADDING) (DHCP_END :: t2)
      p2.options r h2 hf
    simp only [List.length_nil, Nat.zero_add] at d1
    simp only [List.length_replicate] at d2
    simp only [optData, OptPtr.shift, region]
    rw [d1, Nat.add_comm r.1 k, d2]
  | none =>
    simp only [Option.map_none']
    have b8 : ∀ x : Nat, (x ||| FILE_FIELD101).testBit 8 = true := fun x => (or_file_bits x).1
    have b9 : ∀ x : Nat, (x ||| SNAME_FIELD101).testBit 9 = true := fun x => (or_sname_bits x).1
    have fF : ∀ (p : dhcpmsg) (n x : Nat), 196 ≤ n →
        get_option_loop p c n .FILE_FIELD 0 DHCP_FILE_SIZE (x ||| FILE_FIELD101)
          = get_option_loop p c 196 .FILE_FIELD 0 DHCP_FILE_SIZE (x ||| FILE_FIELD101) := by
      intro p n x hn
      have hb : scan_bound DHCP_FILE_SIZE (x ||| FILE_FIELD101) ≤ 196 := by
        unfold scan_bound
        rw [b8 x]
        simp only [DHCP_FILE_SIZE, DHCP_SNAME_SIZE, if_true]
        split <;> simp
      exact get_option_loop_fuel_irrel p c n 196 _ _ _ _ (by omega) hb
    have fS : ∀ (p : dhcpmsg) (n x : Nat), 196 ≤ n →
        get_option_loop p c n .SNAME_FIELD 0 DHCP_SNAME_SIZE (x ||| SNAME_FIELD101)
          = get_option_loop p c 196 .SNAME_FIELD 0 DHCP_SNAME_SIZE (x ||| SNAME_FIELD101) := by
      intro p n x hn
      have hb : scan_bound DHCP_SNAME_SIZE (x ||| SNAME_FIELD101) ≤ 196 := by
        unfold scan_bound
        rw [b9 x]
        simp only [DHCP_FILE_SIZE, DHCP_SNAME_SIZE, if_true]
        split <;> simp
      exact get_option_loop_fuel_irrel p c n 196 _ _ _ _ (by omega) hb
    have n1 : 196 ≤ get_option_fuel - items.length - 1 := by
      simp [get_option_fuel, DHCP_OPTIONS_BUFSIZE, DHCP_FILE_SIZE, DHCP_SNAME_SIZE]; omega
    have n2 : 196 ≤ get_option_fuel - (List.replicate k Item.pad ++ items).length - 1 := by
      simp [get_option_fuel, DHCP_OPTIONS_BUFSIZE, DHCP_FILE_SIZE, DHCP_SNAME_SIZE]; omega
    rw [fF p1 _ _ n1, fF p2 _ _ n2, fS p1 _ _ n1, fS p2 _ _ n2]
    have key : ∀ (f : Field) (rem : Int) (ov : Nat), f ≠ .OPTION_FIELD →
        scan_bound rem ov ≤ 196 →
        ∃ r, get_option_loop p1 c 196 f 0 rem ov = some r ∧
          get_option_loop p2 c 196 f 0 rem ov = some (r.map (OptPtr.shift k)) ∧
          ∀ q, r = some q → optData p2 (q.shift k) = optData p1 q := by
      intro f rem ov hf hb
      obtain ⟨r, hr⟩ := get_option_loop_total p1 c 196 f 0 rem ov hb
      obtain ⟨a1, a2⟩ := loop_off_options p1 p2 c hF hS 196 f 0 rem ov hf
      have hshift : ∀ q, r = some q → q.shift k = q := by
        intro q hq
        have := a2 q (by rw [hr, hq])
        unfold OptPtr.shift
        cases hqf : q.field with
        | OPTION_FIELD => exact absurd hqf this
        | FILE_FIELD => rfl
        | SNAME_FIELD => rfl
      refine ⟨r, hr, ?_, ?_⟩
      · rw [a1, hr]
        cases r with
        | none => rfl
        | some q => simp [hshift q rfl]
      · intro q hq
        rw [hshift q hq]
        have := a2 q (by rw [hr, hq])
        unfold optData
        cases hqf : q.field with
        | OPTION_FIELD => exact absurd hqf this
        | FILE_FIELD => simp [region, hF]
        | SNAME_FIELD => simp [region, hS]
    by_cases c1 : (0 ||| ovl items (DHCP_END :: t1)) &&& FILE_FIELD101 = FILE_FIELD
    · simp only [c1, if_true]
      refine key .FILE_FIELD _ _ (by simp) ?_
      unfold scan_bound
      rw [b8]
      simp only [DHCP_FILE_SIZE, DHCP_SNAME_SIZE, if_true]
      split <;> simp
    · simp only [c1, if_false]
      by_cases c2 : (0 ||| ovl items (DHCP_END :: t1)) &&& SNAME_FIELD101 = SNAME_FIELD
      · simp only [c2, if_true]
        refine key .SNAME_FIELD _ _ (by simp) ?_
        unfold scan_bound
        rw [b9]
        simp only [DHCP_FILE_SIZE, DHCP_SNAME_SIZE, if_true]
        split <;> simp
      · simp only [c2, if_false]
        exact ⟨none, rfl, rfl, fun q hq => by cases hq⟩

set_option maxRecDepth 100000 in
/-- C24 (witness): the packet `pkt_pad3` holds three PAD bytes before the options of
`pkt_plain`; the message-type option is found at offset 2 in `pkt_plain` and at offset 5 in
`pkt_pad3`. -/
theorem get_option_skips_pad_witness :
    get_option pkt_plain 53 = some (some ⟨.OPTION_FIELD, 2⟩) ∧
    get_option pkt_pad3 53 = some (some ⟨.OPTION_FIELD, 5⟩) ∧
    ∃ r, get_option pkt_plain 53 = some r ∧
      get_option pkt_pad3 53 = some (r.map (OptPtr.shift 3)) ∧
      ∀ q, r = some q → optData pkt_pad3 (q.shift 3) = optData pkt_plain q :=
  ⟨by decide, by decide,
    get_option_skips_pad pkt_plain pkt_pad3 53 [.opt 53 [5]] 3 (List.replicate 304 0)
      (List.replicate 301 0) rfl (by decide) rfl (by decide) rfl rfl (by decide)⟩

set_option maxRecDepth 100000 in
/-- C25 (counterexample): the options region of `pkt_with_req` is the well-formed sequence
`[55, 1, 1]` with END at index 3; `add_requests` writes its option at index 3, and
`get_option` for code 55 afterwards finds the option that was there before, with data `[1]`
and not the six requested codes. -/
theorem add_requests_earlier_option_counterexample :
    pkt_with_req.options = ser [.opt 55 [1]] ++ DHCP_END :: List.replicate 304 0 ∧
    end_option pkt_with_req.options = some 3 ∧
    (add_requests pkt_with_req).map
      (fun p1 => (p1.options.take 12, get_option p1 55, get_dhcp_opt_of_get_option p1 55))
      = some ([55, 1, 1, 55, 6, 1, 3, 6, 12, 15, 28, 255],
          some (some ⟨.OPTION_FIELD, 2⟩), [1]) := by
  refine ⟨rfl, by decide, by decide⟩

/-- C25 (amended): for every packet whose options region is a well-formed sequence with END
at index `e ≤ 299`, `add_requests` leaves the bytes below `e` unchanged and writes at `e`
the option `[55, 6, 1, 3, 6, 12, 15, 28]` followed by END at index `e + 8`; and when the
sequence holds no option 55, `get_option` for code 55 afterwards returns the pointer to those
six codes. -/
theorem add_requests_appends (p : dhcpmsg) (items : List Item) (t : List Nat)
    (hO : p.options = ser items ++ DHCP_END :: t)
    (hOl : p.options.length = DHCP_OPTIONS_BUFSIZE) (hok : ∀ i ∈ items, i.ok)
    (he : (ser items).length ≤ 299) :
    ∃ p1, add_requests p = some p1 ∧
      p1.options.length = DHCP_OPTIONS_BUFSIZE ∧
      p1.options.take (ser items).length = p.options.take (ser items).length ∧
      (p1.options.drop (ser items).length).take 9 = [55, 6, 1, 3, 6, 12, 15, 28, 255] ∧
      (findOpt 55 items = none →
        get_option p1 55 = some (some ⟨.OPTION_FIELD, (ser items).length + 2⟩) ∧
        optData p1 ⟨.OPTION_FIELD, (ser items).length + 2⟩ = [1, 3, 6, 12, 15, 28]) := by
  have h308 : DHCP_OPTIONS_BUFSIZE = 308 := rfl
  have hlen := congrArg List.length hO
  simp only [hOl, List.length_append, List.length_cons] at hlen
  have hE : end_option p.options = some (ser items).length := by
    rw [hO]; exact end_option_wf_le items t hok (by omega)
  have hB : 9 ≤ (DHCP_END :: t).length := by simp only [List.length_cons]; omega
  have hdrop : ((DHCP_END :: t).drop 9).length = 308 - (ser items).length - 9 := by
    simp only [List.length_drop, List.length_cons]; omega
  refine ⟨_, add_requests_eq p (ser items) (DHCP_END :: t) hO hB hE, ?_, ?_, ?_, ?_⟩
  · simp only [List.length_append, List.length_cons, List.length_nil, hdrop]; omega
  · simp only [hO, List.append_assoc, List.take_left]
  · simp only [List.append_assoc, List.drop_left]
    rfl
  · intro hf
    have := get_option_first
      { p with options := ser items ++ [DHCP_PARAM_REQ, 6, DHCP_SUBNET, DHCP_ROUTER,
          DHCP_DNS_SERVER, DHCP_HOST_NAME, DHCP_DOMAIN_NAME, DHCP_BROADCAST, DHCP_END]
          ++ (DHCP_END :: t).drop 9 }
      55 items DHCP_PARAM_REQ
      [DHCP_SUBNET, DHCP_ROUTER, DHCP_DNS_SERVER, DHCP_HOST_NAME, DHCP_DOMAIN_NAME,
        DHCP_BROADCAST]
      (DHCP_END :: (DHCP_END :: t).drop 9) (by simp)
      (by simp only [List.length_append, List.length_cons, List.length_nil, hdrop]; omega)
      hok (by decide) (by decide) hf rfl
    exact this

set_option maxRecDepth 100000 in
/-- C25 (witness): `add_requests` on `pkt_plain`, whose options are `[53, 1, 5]` with END at
index 3. -/
theorem add_requests_appends_witness :
    (add_requests pkt_plain).map (fun p1 => p1.options.take 13)
      = some [53, 1, 5, 55, 6, 1, 3, 6, 12, 15, 28, 255, 0] ∧
    ∃ p1, add_requests pkt_plain = some p1 ∧
      p1.options.length = DHCP_OPTIONS_BUFSIZE ∧
      p1.options.take (ser [.opt 53 [5]]).length
        = pkt_plain.options.take (ser [.opt 53 [5]]).length ∧
      (p1.options.drop (ser [.opt 53 [5]]).length).take 9
        = [55, 6, 1, 3, 6, 12, 15, 28, 255] ∧
      (findOpt 55 [.opt 53 [5]] = none →
        get_option p1 55 = some (some ⟨.OPTION_FIELD, (ser [.opt 53 [5]]).length + 2⟩) ∧
        optData p1 ⟨.OPTION_FIELD, (ser [.opt 53 [5]]).length + 2⟩
          = [1, 3, 6, 12, 15, 28]) :=
  ⟨by decide,
    add_requests_appends pkt_plain [.opt 53 [5]] (List.replicate 304 0) rfl (by decide)
      (by decide) (by decide)⟩

/-- C26: when `read` delivers a whole `struct signalfd_siginfo`, `signal_dispatch` calls
`force_renew_action` once for SIGUSR1 and `force_release_action` once for SIGUSR2, ends the
process with exit status 0 for SIGTERM and SIGPIPE and fatally (`suicide`) for SIGCHLD, and
for every other signal number returns with no call made and the state unchanged. -/
theorem signal_dispatch_table (st : SigState) (reads : List (Int × Nat)) (signo : Nat) :
    signal_dispatch ((SIZEOF_SI, SIGUSR1) :: reads) st
      = some (.returns { st with actions := st.actions ++ [.force_renew_action] }) ∧
    signal_dispatch ((SIZEOF_SI, SIGUSR2) :: reads) st
      = some (.returns { st with actions := st.actions ++ [.force_release_action] }) ∧
    signal_dispatch ((SIZEOF_SI, SIGTERM) :: reads) st = some (.exits 0 st) ∧
    signal_dispatch ((SIZEOF_SI, SIGPIPE) :: reads) st = some (.exits 0 st) ∧
    signal_dispatch ((SIZEOF_SI, SIGCHLD) :: reads) st = some (.suicide st) ∧
    (signo ≠ SIGUSR1 → signo ≠ SIGUSR2 → signo ≠ SIGTERM → signo ≠ SIGPIPE →
      signo ≠ SIGCHLD →
      signal_dispatch ((SIZEOF_SI, signo) :: reads) st = some (.returns st)) := by
  refine ⟨rfl, rfl, rfl, rfl, rfl, ?_⟩
  intro h1 h2 h3 h4 h5
  simp [signal_dispatch, SIZEOF_SI, h1, h2, h3, h4, h5]

/-- C26 (witness): signal number 1 (SIGHUP) changes nothing. -/
theorem signal_dispatch_table_witness :
    signal_dispatch [(SIZEOF_SI, 1)] sig_init = some (.returns sig_init) :=
  (signal_dispatch_table sig_init [] 1).2.2.2.2.2 (by decide) (by decide) (by decide)
    (by decide) (by decide)

/-- C27 (counterexample): `getopt_long` returns `'?'` for an option it does not recognise
(such as `-z`); `parse_program_options` then prints the usage text and the process exits
with status 0. -/
theorem parse_program_options_usage_counterexample :
    chr '?' ∉ known_options ∧
    parse_program_options env_example [(chr '?', [])] globals_example
      = .exits 0 { globals_example with printed := [.usage] } := by
  refine ⟨by decide, by decide⟩

/-- C27 (amended): when `getopt_long` returns a value that is none of the option characters
of the `switch` (it returns `'?'` for an option it does not recognise),
`parse_program_options` does not return: if the options before it were handled without
ending the process, the usage text is printed and the process exits with status 0
(EXIT_SUCCESS); otherwise the process was ended by an earlier option. -/
theorem parse_program_options_unrecognised (env : ArgEnv) (g : ndhc_globals)
    (pre post : List (Int × List Nat)) (c : Int) (optarg : List Nat)
    (hc : c ∉ known_options) (hc1 : c ≠ -1) (hpre : ∀ x ∈ pre, x.1 ≠ -1) :
    (∀ g1, parse_program_options env pre g = .returns g1 →
      parse_program_options env (pre ++ (c, optarg) :: post) g
        = .exits EXIT_SUCCESS { g1 with printed := g1.printed ++ [.usage] }) ∧
    (∀ g2, parse_program_options env (pre ++ (c, optarg) :: post) g ≠ .returns g2) := by
  have hstep : ∀ g1, parse_program_options env ((c, optarg) :: post) g1
      = .exits EXIT_SUCCESS { g1 with printed := g1.printed ++ [.usage] } := by
    intro g1
    simp only [parse_program_options, if_neg hc1, parse_option_default env c optarg g1 hc,
      show_usage]
  rw [parse_program_options_append env pre _ g hpre]
  constructor
  · intro g1 h1
    rw [h1]
    exact hstep g1
  · intro g2
    cases h : parse_program_options env pre g with
    | returns g1 => simp only [hstep]; intro h2; cases h2
    | exits s g1 => intro h2; cases h2
    | suicide g1 => intro h2; cases h2

/-- C27 (witness): the options `-b -z`: the first sets the background flags, the second is
not recognised. -/
theorem parse_program_options_unrecognised_witness :
    parse_program_options env_example [(chr 'b', []), (chr '?', [])] globals_example
      = .exits EXIT_SUCCESS
          { globals_example with background_if_no_lease := 1, gflags_detach := 1,
                                 printed := [.usage] } :=
  (parse_program_options_unrecognised env_example globals_example [(chr 'b', [])] []
    (chr '?') [] (by decide) (by decide) (by decide)).1
    { globals_example with background_if_no_lease := 1, gflags_detach := 1 } (by decide)

/-- C28: `get_option` terminates on every packet and every code (the model's fuel is never
used up), and within one call it switches to the `file` region at most once and to the
`sname` region at most once, whatever the three regions hold. -/
theorem get_option_terminates (p : dhcpmsg) (code : Int) :
    ∃ r log, get_option_log p code = some (r, log) ∧ get_option p code = some r ∧
      log.starts.count .FILE_FIELD ≤ 1 ∧ log.starts.count .SNAME_FIELD ≤ 1 := by
  obtain ⟨r, log1, h1, h2, h3⟩ := get_option_loop_log_total p code get_option_fuel
    .OPTION_FIELD 0 DHCP_OPTIONS_BUFSIZE 0 { reads := [], starts := [], overloads := [], causes := [] } (by decide)
  refine ⟨r, log1, h1, ?_, by simpa using h2, by simpa using h3⟩
  have := get_option_loop_log_fst p code get_option_fuel .OPTION_FIELD 0 DHCP_OPTIONS_BUFSIZE 0
    { reads := [], starts := [], overloads := [], causes := [] }
  rw [h1] at this
  exact this.symm

set_option maxRecDepth 100000 in
/-- C29: `get_option` evaluated on two packets.  When the last byte of the options region
(index 307, one byte remaining) is an option code, the length byte is read at index 308,
which is outside the 308-byte region; when the region ends with an option-overload option of
length 0 (two bytes remaining), the overload data byte is read at index 308 as well. -/
theorem get_option_reads_past_region :
    region_size .OPTION_FIELD = 308 ∧
    pkt_last_byte.options.length = 308 ∧
    (get_option_log pkt_last_byte 12).map (fun r => (r.1, r.2.reads.getLast?))
      = some (none, some (.OPTION_FIELD, 308)) ∧
    pkt_last_overload.options.length = 308 ∧
    (get_option_log pkt_last_overload 12).map (fun r => (r.1, r.2.reads.getLast?))
      = some (none, some (.OPTION_FIELD, 308)) := by
  refine ⟨rfl, by decide, by decide, by decide, by decide⟩

/-- C30: on a buffer that is a well-formed sequence of PAD bytes and options followed by END
at index `e ≤ 307`, `end_option` returns `e`; and on every buffer `end_option` returns, with
a result of at most 307. -/
theorem end_option_position (buf : List Nat) :
    (∃ r, end_option buf = some r ∧ r ≤ 307) ∧
    ∀ (items : List Item) (t : List Nat), buf = ser items ++ DHCP_END :: t →
      (∀ i ∈ items, i.ok) → (ser items).length ≤ 307 →
      end_option buf = some (ser items).length := by
  refine ⟨end_option_total buf, ?_⟩
  intro items t hbuf hok hle
  rw [hbuf]
  exact end_option_wf_le items t hok hle

set_option maxRecDepth 100000 in
/-- C30 (witness): the options of scenario S1 end at index 37, and a buffer of 307 PAD bytes
followed by END ends at index 307. -/
theorem end_option_position_witness :
    end_option pkt_s1.options = some 37 ∧
    end_option (ser (List.replicate 307 Item.pad) ++ DHCP_END :: []) = some 307 :=
  ⟨(end_option_position pkt_s1.options).2
      [.opt 53 [5], .opt 54 [192, 0, 2, 1], .opt 51 [0, 0, 14, 16],
        .opt 1 [255, 255, 255, 0], .opt 3 [192, 0, 2, 1], .opt 6 [8, 8, 8, 8, 1, 1, 1, 1]]
      (List.replicate 270 0) (by decide) (by decide) (by decide),
    by
      have h := (end_option_position (ser (List.replicate 307 Item.pad) ++ DHCP_END :: [])).2
        (List.replicate 307 Item.pad) [] rfl
        (by intro i hi; rw [(List.mem_replicate.1 hi).2]; trivial)
        (by rw [ser_replicate_pad]; simp)
      rw [ser_replicate_pad, List.length_replicate] at h
      rw [ser_replicate_pad]
      exact h⟩

/-! ## Client id, stores into the options array, timeout, withdrawn options, probe bounds and hardware addresses -/

/-- C31: for every text that is longer than `client_config.clientid` and is not a hardware
address, `get_clientid_string` returns 0, copies `sizeof clientid - 1` characters and records
`clientid_len = slen + 1`, which exceeds the size of `clientid`; and such texts exist
whatever that size is. -/
theorem get_clientid_string_len_unbounded (env : ArgEnv) (g : ndhc_globals) :
    (∀ str : List Nat, env.sizeof_clientid < str.length →
      is_string_hwaddr str str.length = 0 →
      (get_clientid_string env g str str.length).1 = 0 ∧
      (get_clientid_string env g str str.length).2.clientid_len = str.length + 1 ∧
      env.sizeof_clientid < (get_clientid_string env g str str.length).2.clientid_len ∧
      (get_clientid_string env g str str.length).2.clientid_past
        = str.take (env.sizeof_clientid - 1) ++ g.clientid_past.drop (env.sizeof_clientid - 1)) ∧
    ∃ str : List Nat, env.sizeof_clientid < str.length ∧
      is_string_hwaddr str str.length = 0 := by
  constructor
  · intro str hlen hmac
    have h0 : ¬ str.length = 0 := by omega
    have hmin : min str.length (env.sizeof_clientid - 1) = env.sizeof_clientid - 1 := by
      omega
    unfold get_clientid_string
    rw [if_neg h0, if_pos hmac]
    refine ⟨rfl, rfl, ?_, ?_⟩
    · show env.sizeof_clientid < str.length + 1
      omega
    · show memcpy_at g.clientid_past 0 str (min str.length (env.sizeof_clientid - 1)) = _
      rw [hmin]
      unfold memcpy_at
      rw [range_map_getD_take str _ (by omega)]
      simp
  · refine ⟨List.replicate (env.sizeof_clientid + 18) 97, by simp, ?_⟩
    unfold is_string_hwaddr
    rw [if_neg]
    rintro ⟨h, _⟩
    simp at h

/-- C31 (witness): a text of 65 characters `a` with a 64-byte `clientid`: the recorded
length is 66. -/
theorem get_clientid_string_len_unbounded_witness :
    (get_clientid_string env_example globals_example (List.replicate 65 97)
      (List.replicate 65 97).length).1 = 0 ∧
    (get_clientid_string env_example globals_example (List.replicate 65 97)
      (List.replicate 65 97).length).2.clientid_len = 66 ∧
    env_example.sizeof_clientid = 64 :=
  ⟨((get_clientid_string_len_unbounded env_example globals_example).1
      (List.replicate 65 97) (by decide) (by decide)).1,
    ((get_clientid_string_len_unbounded env_example globals_example).1
      (List.replicate 65 97) (by decide) (by decide)).2.1, rfl⟩

/-- C32: for every 308-byte options buffer and every option string `s`, with
`e = end_option(buf)`: if `e + s[1] + 3 ≥ 308` then `add_option_string` returns 0, stores
nothing and leaves the buffer as it is; and in every case every index it stores to is below
308, and the bytes at all other indices are unchanged. -/
theorem add_option_string_atomic (buf s : List Nat)
    (hbuf : buf.length = DHCP_OPTIONS_BUFSIZE) :
    (∃ e, end_option buf = some e) ∧
    (∀ e, end_option buf = some e → e + s.getD OPT_LEN 0 + 3 ≥ 308 →
      add_option_string buf s = some (0, buf) ∧ add_option_string_writes buf s = some []) ∧
    ∃ r w, add_option_string buf s = some r ∧ add_option_string_writes buf s = some w ∧
      (∀ i ∈ w, i < 308) ∧ r.2.length = 308 ∧
      ∀ i, i ∉ w → r.2.getD i 0 = buf.getD i 0 := by
  obtain ⟨e, he, hle⟩ := end_option_total buf
  have h308 : DHCP_OPTIONS_BUFSIZE = 308 := rfl
  refine ⟨⟨e, he⟩, ?_, ?_⟩
  · intro e1 he1 hfail
    unfold add_option_string add_option_string_writes
    rw [he1]
    simp only [Option.map_some']
    rw [if_pos (by omega), if_pos (by omega)]
    exact ⟨rfl, rfl⟩
  · unfold add_option_string add_option_string_writes
    rw [he]
    simp only [Option.map_some']
    by_cases hfail : e + s.getD OPT_LEN 0 + 2 + 1 ≥ DHCP_OPTIONS_BUFSIZE
    · rw [if_pos hfail, if_pos hfail]
      refine ⟨(0, buf), [], rfl, rfl, ?_, ?_, ?_⟩
      · intro i hi; cases hi
      · exact hbuf
      · intro i _; rfl
    · rw [if_neg hfail, if_neg hfail]
      refine ⟨(_, _), _, rfl, rfl, ?_, ?_, ?_⟩
      · intro i hi
        simp only [List.mem_append, List.mem_map, List.mem_range, List.mem_singleton] at hi
        rcases hi with ⟨j, hj, rfl⟩ | rfl <;> omega
      · simp only [List.length_set]
        rw [memcpy_at_length _ _ _ _ (by omega), hbuf, h308]
      · intro i hi
        simp only [List.mem_append, List.mem_map, List.mem_range, List.mem_singleton,
          not_or, not_exists, not_and] at hi
        obtain ⟨h1, h2⟩ := hi
        have hout : i < e ∨ e + (s.getD OPT_LEN 0 + 2) ≤ i := by
          by_cases hlt : i < e
          · exact Or.inl hlt
          · right
            by_contra hc
            exact h1 (i - e) (by omega) (by omega)
        simp only
        rw [List.getD_eq_getElem?_getD, List.getElem?_set_ne (by omega),
          ← List.getD_eq_getElem?_getD]
        exact memcpy_at_getD buf s e _ i (by omega) hout

set_option maxRecDepth 100000 in
/-- C32 (witness): in `pkt_end_300` END is at index 300; an option string with 5 data bytes
does not fit (300 + 5 + 3 ≥ 308), the return value is 0 and the buffer is unchanged. -/
theorem add_option_string_atomic_witness :
    add_option_string pkt_end_300.options [12, 5, 104, 111, 115, 116, 49]
      = some (0, pkt_end_300.options) ∧
    add_option_string_writes pkt_end_300.options [12, 5, 104, 111, 115, 116, 49] = some [] :=
  (add_option_string_atomic pkt_end_300.options [12, 5, 104, 111, 115, 116, 49] (by decide)).2.1 300
    (by decide) (by decide)

set_option maxRecDepth 100000 in
/-- C33 (counterexample): the options region is 300 PAD bytes, END at index 300, and seven
more bytes; `add_requests` stores to the indices 300 to 308, and 308 is outside the array.
With END at index 307 it stores to 307 up to 315. -/
theorem add_requests_writes_past_counterexample :
    pkt_end_300.options.length = 308 ∧
    end_option pkt_end_300.options = some 300 ∧
    add_requests_writes pkt_end_300 = some [300, 302, 303, 304, 305, 306, 307, 301, 308] ∧
    pkt_end_307.options.length = 308 ∧
    add_requests_writes pkt_end_307 = some [307, 309, 310, 311, 312, 313, 314, 308, 315] := by
  refine ⟨by decide, by decide, by decide, by decide, by decide⟩

/-- C33 (amended): for every packet `end_option(options)` is some `e ≤ 307`, and
`add_requests` stores nine bytes, at the indices `e .. e + 8`; when `e ≤ 299` every one of
these indices is at most 307, inside the 308-byte options array. -/
theorem add_requests_writes_bound (p : dhcpmsg) :
    (∃ e, end_option p.options = some e ∧ e ≤ 307) ∧
    ∀ e, end_option p.options = some e →
      add_requests_writes p
        = some [e, e + 2, e + 3, e + 4, e + 5, e + 6, e + 7, e + 1, e + 8] ∧
      (e ≤ 299 →
        ∀ i ∈ [e, e + 2, e + 3, e + 4, e + 5, e + 6, e + 7, e + 1, e + 8], i ≤ 307) := by
  refine ⟨end_option_total p.options, ?_⟩
  intro e he
  constructor
  · unfold add_requests_writes
    rw [he]
    simp only [Option.map_some', add_requests_loop_len, add_requests_loop_writes_eq, OPT_CODE,
      OPT_LEN, OPT_DATA, Nat.add_zero, List.cons_append, List.nil_append, List.append_assoc,
      Nat.add_assoc, Nat.reduceAdd, List.singleton_append]
  · intro h i hi
    simp only [List.mem_cons, List.mem_singleton, List.mem_nil_iff, or_false] at hi
    omega

set_option maxRecDepth 100000 in
/-- C33 (witness): `pkt_plain` has END at index 3; the stores go to the indices 3 to 11. -/
theorem add_requests_writes_bound_witness :
    add_requests_writes pkt_plain = some [3, 5, 6, 7, 8, 9, 10, 4, 11] ∧
    ∀ i ∈ [3, 3 + 2, 3 + 3, 3 + 4, 3 + 5, 3 + 6, 3 + 7, 3 + 1, 3 + 8], i ≤ 307 :=
  ⟨((add_requests_writes_bound pkt_plain).2 3 (by decide)).1,
    ((add_requests_writes_bound pkt_plain).2 3 (by decide)).2 (by decide)⟩

/-- C34: the timeout on the code when the earliest deadline is 2^31 ms or more ahead.  For
all deadlines `a` and `d` other than the sentinel -1 and every current time `n` with
`2^31 ≤ min(a, d) - n < 2^32`, the difference wraps to a negative `int`, and
`do_ndhc_work` computes the timeout 0: the deadline is treated as elapsed. -/
theorem do_ndhc_work_timeout_wraps (a d n : Int) (ha : a ≠ -1)
    (hlo : 2 ^ 31 ≤ min a d - n) (hhi : min a d - n < 2 ^ 32) :
    do_ndhc_work_timeout a d n = 0 ∧ n < min a d := by
  have hmin : (if a < d then a else d) = min a d := by
    split <;> omega
  have h32 : to_int32 (min a d - n) < 0 := by
    unfold to_int32
    norm_num at hlo hhi ⊢
    omega
  refine ⟨?_, by norm_num at hlo; omega⟩
  unfold do_ndhc_work_timeout
  rw [if_neg ha]
  simp only [hmin]
  rw [if_pos h32]

/-- C34 (witness): current time 1000, both deadlines at 1000 + 2^31. -/
theorem do_ndhc_work_timeout_wraps_witness :
    do_ndhc_work_timeout 2147484648 2147484648 1000 = 0 ∧ (1000 : Int) < min 2147484648 2147484648 :=
  do_ndhc_work_timeout_wraps 2147484648 2147484648 1000 (by decide) (by decide) (by decide)

/-- C35: when the packet `P` lacks option `X` (the extractor yields length 0), `X` one of
router, dns, hostname, domain, mtu, wins, `send_cmd` for `X` returns 0 and leaves the command
buffer as it is, whatever the cached packet holds; `ifchange_bind` makes `P` the cached
packet, and what it writes to the worker does not depend on what the cached packet held for
`X`. -/
theorem send_cmd_absent_option (gdo : dhcpmsg → Nat → List Nat) (st : IfchState)
    (P : dhcpmsg) (X : Nat)
    (hX : X ∈ [DCODE_ROUTER, DCODE_DNS, DCODE_HOSTNAME, DCODE_DOMAIN, DCODE_MTU, DCODE_WINS])
    (hlack : (gdo P X).length = 0) :
    (∀ (cfg : dhcpmsg) (out : List Nat) (olen : Nat),
      send_cmd gdo cfg out olen (some P) X = (0, out)) ∧
    (ifchange_bind gdo st (some P)).cfg_packet = P ∧
    (∀ cfg2 : dhcpmsg, cfg2.yiaddr = st.cfg_packet.yiaddr →
      (∀ c, c ≠ X → gdo cfg2 c = gdo st.cfg_packet c) →
      (ifchange_bind gdo { st with cfg_packet := cfg2 } (some P)).pipe
        = (ifchange_bind gdo st (some P)).pipe) := by
  refine ⟨fun cfg out olen => send_cmd_lacks gdo cfg out olen P X hlack, rfl, ?_⟩
  intro cfg2 hy hc
  have hstep : ∀ (c : Nat) (out : List Nat),
      send_cmd gdo cfg2 out 2048 (some P) c = send_cmd gdo st.cfg_packet out 2048 (some P) c := by
    intro c out
    by_cases hcx : c = X
    · subst hcx
      rw [send_cmd_lacks gdo cfg2 out 2048 P c hlack,
        send_cmd_lacks gdo st.cfg_packet out 2048 P c hlack]
    · exact send_cmd_cfg_congr gdo cfg2 st.cfg_packet out 2048 (some P) c (hc c hcx)
  have hsub : DCODE_SUBNET ≠ X := by
    intro h; subst h; revert hX; decide
  have hbc : DCODE_BROADCAST ≠ X := by
    intro h; subst h; revert hX; decide
  have hip : ∀ out, send_client_ip gdo cfg2 out 2048 P
      = send_client_ip gdo st.cfg_packet out 2048 P :=
    fun out => send_client_ip_cfg_congr gdo cfg2 st.cfg_packet out 2048 P hy
      (hc _ hsub) (hc _ hbc)
  simp only [ifchange_bind, hstep, hip]
  split <;> rfl

set_option maxRecDepth 100000 in
/-- C35 (witness): the cached packet is the one of scenario S1, which holds a router; the
new packet `pkt_plain` holds none.  No router command is produced and `pkt_plain` becomes the
cached packet. -/
theorem send_cmd_absent_option_witness :
    get_dhcp_opt_of_get_option pkt_s1 DCODE_ROUTER = [192, 0, 2, 1] ∧
    send_cmd get_dhcp_opt_of_get_option pkt_s1 [] 2048 (some pkt_plain) DCODE_ROUTER
      = (0, []) ∧
    (ifchange_bind get_dhcp_opt_of_get_option st_bound_s1 (some pkt_plain)).cfg_packet
      = pkt_plain :=
  ⟨by decide,
    (send_cmd_absent_option get_dhcp_opt_of_get_option st_bound_s1 pkt_plain DCODE_ROUTER
      (by decide) (by decide)).1 pkt_s1 [] 2048,
    (send_cmd_absent_option get_dhcp_opt_of_get_option st_bound_s1 pkt_plain DCODE_ROUTER
      (by decide) (by decide)).2.1⟩

/-- C36: `ifchange_deconfig` is idempotent.  When `cs->ifDeconfig` is already set it returns
the state as it is: nothing is written, client state and cached packet are unchanged.  From a
state with `ifDeconfig` 0, a call writes the deconfig command once and sets `ifDeconfig`; and
from every state two consecutive calls end in the state of a single call. -/
theorem ifchange_deconfig_idempotent (st : IfchState) :
    (st.cs.ifDeconfig ≠ 0 → ifchange_deconfig st = st) ∧
    (st.cs.ifDeconfig = 0 →
      (ifchange_deconfig st).pipe = st.pipe ++ [cstr "ip4:0.0.0.0,255.255.255.255;"] ∧
      (ifchange_deconfig (ifchange_deconfig st)).pipe
        = st.pipe ++ [cstr "ip4:0.0.0.0,255.255.255.255;"]) ∧
    ifchange_deconfig (ifchange_deconfig st) = ifchange_deconfig st := by
  have hset : st.cs.ifDeconfig ≠ 0 → ifchange_deconfig st = st := by
    intro h
    unfold ifchange_deconfig
    rw [if_pos h]
  have hdone : (ifchange_deconfig st).cs.ifDeconfig ≠ 0 := by
    by_cases h : st.cs.ifDeconfig ≠ 0
    · rw [hset h]; exact h
    · unfold ifchange_deconfig
      rw [if_neg h]
      simp [pipewrite]
  have htwice : ifchange_deconfig (ifchange_deconfig st) = ifchange_deconfig st := by
    generalize hst1 : ifchange_deconfig st = st1 at hdone
    unfold ifchange_deconfig
    rw [if_pos hdone]
  refine ⟨hset, ?_, htwice⟩
  intro h0
  have hp : (ifchange_deconfig st).pipe
      = st.pipe ++ [cstr "ip4:0.0.0.0,255.255.255.255;"] := by
    unfold ifchange_deconfig
    rw [if_neg (by simp [h0])]
    simp only [pipewrite]
    congr 2
  exact ⟨hp, by rw [htwice]; exact hp⟩

/-- C36 (witness): the state after one deconfig, and the start-up state. -/
theorem ifchange_deconfig_idempotent_witness :
    ifchange_deconfig (ifchange_deconfig st_init) = ifchange_deconfig st_init ∧
    (ifchange_deconfig (ifchange_deconfig st_init)).pipe
      = [cstr "ip4:0.0.0.0,255.255.255.255;"] :=
  ⟨(ifchange_deconfig_idempotent (ifchange_deconfig st_init)).1 (by decide),
    ((ifchange_deconfig_idempotent st_init).2.1 rfl).2⟩

/-- C37: the option `-m` (`-M`) stores the value given and the other bound as
(`arp_probe_min`, `arp_probe_max`) = (smaller, larger), whatever the two were; and when
`parse_program_options` returns after it has handled an `-m` or `-M` option,
`arp_probe_min ≤ arp_probe_max` holds, whatever options came before and after. -/
theorem arp_probe_min_le_max (env : ArgEnv) (g : ndhc_globals)
    (pre post : List (Int × List Nat)) (c : Int) (optarg : List Nat)
    (hc : c = chr 'm' ∨ c = chr 'M') (hpre : ∀ x ∈ pre, x.1 ≠ -1) :
    (∀ g0 : ndhc_globals, ∃ g1, parse_option env c optarg g0 = .returns g1 ∧
      g1.arp_probe_min ≤ g1.arp_probe_max ∧
      (c = chr 'm' → g1.arp_probe_min = min (env.atoi optarg) g0.arp_probe_max ∧
        g1.arp_probe_max = max (env.atoi optarg) g0.arp_probe_max) ∧
      (c = chr 'M' → g1.arp_probe_min = min g0.arp_probe_min (env.atoi optarg) ∧
        g1.arp_probe_max = max g0.arp_probe_min (env.atoi optarg))) ∧
    (∀ g1 : ndhc_globals,
      parse_program_options env (pre ++ (c, optarg) :: post) g = .returns g1 →
      g1.arp_probe_min ≤ g1.arp_probe_max) := by
  refine ⟨fun g0 => parse_option_probe env c optarg g0 hc, ?_⟩
  intro g1 h
  rw [parse_program_options_append env pre _ g hpre] at h
  cases hp : parse_program_options env pre g with
  | returns g2 =>
    rw [hp] at h
    have hc1 : c ≠ -1 := by
      rcases hc with e | e <;> (rw [e]; decide)
    simp only [parse_program_options, if_neg hc1] at h
    obtain ⟨g3, h3, hle, _, _⟩ := parse_option_probe env c optarg g2 hc
    rw [h3] at h
    exact parse_program_options_keeps_order env post g3 g1 hle h
  | exits s g2 => rw [hp] at h; cases h
  | suicide g2 => rw [hp] at h; cases h

/-- C37 (witness): the options `-M 100 -b -m 250` from the start-up values 0 and 0: after
`-M 100` the bounds are (0, 100), and `-m 250` stores 250 and 100 as (100, 250). -/
theorem arp_probe_min_le_max_witness :
    parse_program_options env_digits
        [(chr 'M', cstr "100"), (chr 'b', []), (chr 'm', cstr "250")] globals_example
      = .returns { globals_example with background_if_no_lease := 1, gflags_detach := 1,
                                        arp_probe_min := 100, arp_probe_max := 250 } ∧
    ∀ g1 : ndhc_globals,
      parse_program_options env_digits
        ([(chr 'M', cstr "100"), (chr 'b', [])] ++ (chr 'm', cstr "250") :: []) globals_example
        = .returns g1 →
      g1.arp_probe_min ≤ g1.arp_probe_max :=
  ⟨by decide,
    (arp_probe_min_le_max env_digits globals_example [(chr 'M', cstr "100"), (chr 'b', [])] []
      (chr 'm') (cstr "250") (Or.inl rfl) (by decide)).2⟩

/-- C38: `is_string_hwaddr(str, slen)` returns 1 exactly when `slen` is 17, the characters
at positions 2, 5, 8, 11 and 14 are `:` and the characters at the other twelve positions are
hexadecimal digits, and 0 otherwise; it reads no character of `str` unless `slen` is 17, and
every character it reads lies at an index below 17. -/
theorem is_string_hwaddr_spec (str : List Nat) (slen : Nat) :
    (is_string_hwaddr str slen = 1 ↔ mac_text str slen) ∧
    (is_string_hwaddr str slen = 0 ↔ ¬ mac_text str slen) ∧
    (is_string_hwaddr_log str slen).1 = is_string_hwaddr str slen ∧
    (slen ≠ 17 → (is_string_hwaddr_log str slen).2 = []) ∧
    (∀ i ∈ (is_string_hwaddr_log str slen).2, i < 17) := by
  have h1 := is_string_hwaddr_eq_one str slen
  refine ⟨h1, ?_, is_string_hwaddr_log_fst str slen, ?_, ?_⟩
  · rw [← h1]
    rcases is_string_hwaddr_zero_one str slen with h | h <;> rw [h] <;> decide
  · intro h
    unfold is_string_hwaddr_log
    rw [if_neg h]
  · intro i hi
    unfold is_string_hwaddr_log at hi
    by_cases h : slen = 17
    · rw [if_pos h] at hi
      have := and_chain_log_reads str is_string_hwaddr_tests i hi
      simp only [is_string_hwaddr_tests, List.map_cons, List.map_nil, List.mem_cons,
        List.mem_singleton, List.mem_nil_iff, or_false] at this
      omega
    · rw [if_neg h] at hi
      cases hi

/-- C38 (witness): the text `00:1a:2B:3c:4D:5e` is a hardware address and all of its 17
characters are read; of a 16-character text no character is read. -/
theorem is_string_hwaddr_spec_witness :
    is_string_hwaddr (cstr "00:1a:2B:3c:4D:5e") 17 = 1 ∧
    (is_string_hwaddr_log (cstr "00:1a:2B:3c:4D:5e") 17).2
      = [2, 5, 8, 11, 14, 0, 1, 3, 4, 6, 7, 9, 10, 12, 13, 15, 16] ∧
    is_string_hwaddr (cstr "00:1a:2B:3c:4D:5g") 17 = 0 ∧
    (is_string_hwaddr_log (cstr "00:1a:2B:3c:4D:5") 16).2 = [] :=
  ⟨(is_string_hwaddr_spec (cstr "00:1a:2B:3c:4D:5e") 17).1.2 (by decide), by decide,
    (is_string_hwaddr_spec (cstr "00:1a:2B:3c:4D:5g") 17).2.1.2 (by decide),
    (is_string_hwaddr_spec (cstr "00:1a:2B:3c:4D:5") 16).2.2.2.1 (by decide)⟩

end Ndhc
